import Mathlib

/-!
# private_time: calendar arithmetic and the format interpreter

A shallow embedding of `private_time.c` and theorems about it.

Integer model.  `int` and `unsigned int` are 32 bits wide and `time_t` is a signed
64-bit integer (the header's own declaration is `typedef long long time_t`).  Every
value is a mathematical integer; the result of each arithmetic operation of the source
is reduced to the width of its C type (`wrapInt`, `wrapUInt`, `wrapTime`), so a signed
result that does not fit wraps around in two's complement.  `/` and `%` of the source
truncate toward zero (`cdiv`, `cmod`).

Memory model.  A `char` is a byte, a natural number below 256.  A C string is the list
of its bytes, the terminating NUL being implicit at the end of the list.  A read outside
an object (past the terminator of the format, outside a lookup table) has no defined
result and is reported as such (`none`, `Outcome.undef`).
-/

namespace PrivTime

/-! ## C integers -/

/-- Value of type `int` (32 bits, two's complement) that holds the integer `x`. -/
def wrapInt (x : Int) : Int := (x + 2147483648) % 4294967296 - 2147483648

/-- Value of type `unsigned int` (32 bits) that holds the integer `x`. -/
def wrapUInt (x : Int) : Int := x % 4294967296

/-- Value of type `time_t` (64 bits, two's complement) that holds the integer `x`. -/
def wrapTime (x : Int) : Int :=
  (x + 9223372036854775808) % 18446744073709551616 - 9223372036854775808

/-- Division of C: the quotient is truncated toward zero. -/
def cdiv (a b : Int) : Int := Int.tdiv a b

/-- Remainder of C: it has the sign of the dividend. -/
def cmod (a b : Int) : Int := Int.tmod a b

/-- Conversion of an `int` to `char`, as the byte that is stored. -/
def toChar (x : Int) : Nat := (x % 256).toNat

/-- Bytes of a string literal, without the terminator. -/
def bytes (s : String) : List Nat := s.toList.map Char.toNat

/-- Element `i` of a table; `none` when the index is outside the table. -/
def tableGet {α : Type} (t : List α) (i : Int) : Option α :=
  if 0 ≤ i then t.get? i.toNat else none

/-! ## Data -/

/-- The broken-down time record `struct tm`. -/
structure tm where
  tm_sec : Int
  tm_min : Int
  tm_hour : Int
  tm_mday : Int
  tm_mon : Int
  tm_year : Int
  tm_wday : Int
  tm_yday : Int
  tm_isdst : Int
  deriving DecidableEq, Repr

def MAX_ASCTIME_LENGTH : Nat := 32
def SECONDS_1_MINUTE : Int := 60
def SECONDS_1_HOUR : Int := 60 * SECONDS_1_MINUTE
def SECONDS_1_DAY : Int := 24 * SECONDS_1_HOUR
def HOURS_1_YEAR : Int := 8760
def HOURS_4_YEAR : Int := 35064
def ZONE_EAST_8 : Int := 8 * SECONDS_1_HOUR
def LOCAL_ZONE : Int := ZONE_EAST_8

def g_abbr_wday : List (List Nat) :=
  [bytes "Sun", bytes "Mon", bytes "Tue", bytes "Wed", bytes "Thu", bytes "Fri", bytes "Sat"]

def g_abbr_months : List (List Nat) :=
  [bytes "Jan", bytes "Feb", bytes "Mar", bytes "Apr", bytes "May", bytes "Jun",
   bytes "Jul", bytes "Aug", bytes "Sep", bytes "Oct", bytes "Nov", bytes "Dec"]

def g_name_wday : List (List Nat) :=
  [bytes "Sunday", bytes "Monday", bytes "Tuesday", bytes "Wednesday", bytes "Thursday",
   bytes "Friday", bytes "Saturday"]

def g_name_months : List (List Nat) :=
  [bytes "January", bytes "February", bytes "March", bytes "April", bytes "May",
   bytes "June", bytes "July", bytes "August", bytes "September", bytes "October",
   bytes "November", bytes "December"]

def g_days : List (List Int) :=
  [[0, 31, 59, 90, 120, 151, 181, 212, 243, 273, 304, 334],
   [0, 31, 60, 91, 121, 152, 182, 213, 244, 274, 305, 335],
   [31, 28, 31, 30, 31, 30, 31, 31, 30, 31, 30, 31]]

/-! ## Private functions -/

def is_leap (year : Int) : Int :=
  if cmod year 400 = 0 then 1
  else if cmod year 100 = 0 then 0
  else if cmod year 4 = 0 then 1
  else 0

def days_from_0 (year : Int) : Int :=
  let year := wrapInt (year - 1)
  if year < 0 then 0
  else wrapInt (wrapInt (wrapInt (wrapInt (365 * year) + cdiv year 400) - cdiv year 100)
         + cdiv year 4)

def days_from_1970 (year : Int) : Int :=
  let days_from_0_to_1970 := days_from_0 1970
  wrapInt (days_from_0 year - days_from_0_to_1970)

/-- The sum `g_days[is_leap(year)][month - 1] + day - 1`; `none` when the month index is
outside the row. -/
def days_from_1jan (year month day : Int) : Option Int :=
  match tableGet g_days (is_leap year) with
  | none => none
  | some row =>
    match tableGet row (wrapInt (month - 1)) with
    | none => none
    | some d => some (wrapInt (wrapInt (d + day) - 1))

/-! ## Encoding -/

/-- The function `priv_mktime`; `g_time_zone` is the value `get_local_zone()` returns. -/
def priv_mktime (g_time_zone : Int) (timeptr : tm) : Option Int :=
  let year := wrapInt (timeptr.tm_year + 1900)
  let month := wrapInt (timeptr.tm_mon + 1)
  let day := timeptr.tm_mday
  let hour := timeptr.tm_hour
  let minute := timeptr.tm_min
  let second := timeptr.tm_sec
  match days_from_1jan year month day with
  | none => none
  | some days_of_year =>
    let days_since_epoch := wrapInt (days_from_1970 year + days_of_year)
    let result :=
      wrapInt (wrapInt (wrapInt (wrapInt (SECONDS_1_DAY * days_since_epoch)
        + wrapInt (SECONDS_1_HOUR * hour)) + wrapInt (SECONDS_1_MINUTE * minute)) + second)
    some (wrapTime (result - g_time_zone))

/-! ## Decoding -/

/-- The value of `one_year_hours` that a pass of the `while (1)` loop of `priv_gmtime`
computes from `tm_year`.  `tm_year & 3` is `tm_year % 4` in two's complement. -/
def one_year_hours (tm_year : Int) : Int :=
  if tm_year % 4 = 0 then HOURS_1_YEAR + 24 else HOURS_1_YEAR

/-- The `while (1)` loop of `priv_gmtime` on `(tm_year, timestamp)`.  The first argument
bounds the number of passes; the caller passes a number that the loop cannot reach
(`yearWalk_exit`). -/
def yearWalk : Nat → Int → Int → Int × Int
  | 0, tm_year, timestamp => (tm_year, timestamp)
  | n + 1, tm_year, timestamp =>
    if timestamp < one_year_hours tm_year then (tm_year, timestamp)
    else yearWalk n (wrapInt (tm_year + 1)) (timestamp - one_year_hours tm_year)

/-- The `for` loop of `priv_gmtime` over the row `g_days[2]`, from the entry at `tm_mon`
on: the result is `(tm_mon, timestamp)` at exit, or `none` when the loop reads past the
end of the row. -/
def monthWalk : List Int → Int → Int → Option (Int × Int)
  | [], _, _ => none
  | d :: row, tm_mon, timestamp =>
    if d < timestamp then monthWalk row (tm_mon + 1) (timestamp - d)
    else some (tm_mon, timestamp)

/-- The `for` loop of `priv_gmtime` started at `tm_mon = 0`, and the assignment of
`tm_mday` after it: the pair `(tm_mon, tm_mday)`. -/
def monthOf (timestamp : Int) : Option (Int × Int) :=
  match tableGet g_days 2 with
  | none => none
  | some row =>
    match monthWalk row 0 timestamp with
    | none => none
    | some (tm_mon, timestamp) => some (tm_mon, wrapInt timestamp)

/-- The end of `priv_gmtime`, from the test `(tm_time->tm_year & 3) == 0` on: the pair
`(tm_mon, tm_mday)` that it leaves in the record, `timestamp` being the day of the year
counted from 1. -/
def monthDay (tm_year timestamp : Int) : Option (Int × Int) :=
  if tm_year % 4 = 0 then
    if timestamp > 60 then monthOf (timestamp - 1)
    else if timestamp = 60 then some (1, 29)
    else monthOf timestamp
  else monthOf timestamp

/-- The function `priv_gmtime`, applied to the value `*timer`.  Every field of the shared
record `g_tm` is assigned on every path, so the record returned is a function of the
argument alone. -/
def priv_gmtime (timer : Int) : Option tm :=
  let timestamp := timer
  let tm_sec := wrapInt (cmod timestamp 60)
  let timestamp := cdiv timestamp 60
  let tm_min := wrapInt (cmod timestamp 60)
  let timestamp := cdiv timestamp 60
  let tm_wday := cmod (wrapInt (cdiv timestamp 24 + 4)) 7
  let four_year_nums := wrapUInt (cdiv timestamp HOURS_4_YEAR)
  let tm_year := wrapInt (wrapUInt (wrapUInt (four_year_nums * 4) + 70))
  let timestamp := cmod timestamp HOURS_4_YEAR
  let walked := yearWalk (timestamp.toNat / 8760 + 1) tm_year timestamp
  let tm_year := walked.1
  let timestamp := walked.2
  let tm_hour := wrapInt (cmod timestamp 24)
  let timestamp := cdiv timestamp 24
  let timestamp := timestamp + 1
  let tm_yday := wrapInt (timestamp - 1)
  match monthDay tm_year timestamp with
  | none => none
  | some (tm_mon, tm_mday) =>
    some { tm_sec := tm_sec, tm_min := tm_min, tm_hour := tm_hour, tm_mday := tm_mday,
           tm_mon := tm_mon, tm_year := tm_year, tm_wday := tm_wday, tm_yday := tm_yday,
           tm_isdst := 0 }

/-- The function `priv_localtime`; `g_time_zone` is the value `get_local_zone()` returns. -/
def priv_localtime (g_time_zone : Int) (timer : Int) : Option tm :=
  let timestamp := wrapTime (timer + g_time_zone)
  priv_gmtime timestamp

/-! ## The format interpreter -/

/-- The destination of `priv_strftime` while it runs: the write index `idx` and the
stores `str[i] = c` performed so far, oldest first, each as the pair `(i, c)`. -/
structure Buf where
  idx : Nat
  log : List (Nat × Nat)
  deriving DecidableEq, Repr

/-- The statement `str[idx++] = c`. -/
def Buf.put (b : Buf) (c : Nat) : Buf :=
  { idx := b.idx + 1, log := b.log ++ [(b.idx, c)] }

/-- The loop `for (i = 0; s[i]; ++i) str[idx++] = s[i]` over a table entry `s`. -/
def Buf.puts (b : Buf) (s : List Nat) : Buf :=
  s.foldl Buf.put b

/-- How a call of `priv_strftime` ends.  `ret value log`: it returns after the stores
`log`; `value` is the operand of the `return` statement (-1, -2 or `idx`), before its
conversion to `size_t`.  `undef log`: it reads outside an object (the format past its
terminator, a name table outside its bounds), having made at least the stores `log`. -/
inductive Outcome where
  | ret (value : Int) (log : List (Nat × Nat))
  | undef (log : List (Nat × Nat))
  deriving DecidableEq, Repr

/-- The `switch (cmd)` of `priv_strftime` for the record `t`; `none` when a name table is
indexed outside its bounds. -/
def directive (t : tm) (cmd : Nat) (b : Buf) : Option Buf :=
  let year := wrapInt (t.tm_year + 1900)
  let month := t.tm_mon
  let mday := t.tm_mday
  let hour := t.tm_hour
  let minute := t.tm_min
  let second := t.tm_sec
  let wday := t.tm_wday
  let yday := t.tm_yday
  if cmd = 'a'.toNat then
    (tableGet g_abbr_wday wday).map b.puts
  else if cmd = 'A'.toNat then
    (tableGet g_name_wday wday).map b.puts
  else if cmd = 'b'.toNat then
    (tableGet g_abbr_months month).map b.puts
  else if cmd = 'B'.toNat then
    (tableGet g_name_months month).map b.puts
  else if cmd = 'c'.toNat then
    match tableGet g_abbr_wday wday, tableGet g_abbr_months month with
    | some wd, some mo =>
      let b := (b.puts wd).put ' '.toNat
      let b := (b.puts mo).put ' '.toNat
      let b :=
        if mday > 9 then (b.put (toChar (48 + cdiv mday 10))).put (toChar (48 + cmod mday 10))
        else (b.put ' '.toNat).put (toChar (48 + cmod mday 10))
      let b := b.put ' '.toNat
      let b := ((b.put (toChar (48 + cdiv hour 10))).put (toChar (48 + cmod hour 10))).put
        ':'.toNat
      let b := ((b.put (toChar (48 + cdiv minute 10))).put (toChar (48 + cmod minute 10))).put
        ':'.toNat
      let b := ((b.put (toChar (48 + cdiv second 10))).put (toChar (48 + cmod second 10))).put
        ' '.toNat
      let b := (b.put (toChar (48 + cdiv year 1000))).put
        (toChar (48 + cdiv (cmod year 1000) 100))
      some ((b.put (toChar (48 + cdiv (cmod year 100) 10))).put (toChar (48 + cmod year 10)))
    | _, _ => none
  else if cmd = 'd'.toNat then
    some ((b.put (toChar (48 + cdiv mday 10))).put (toChar (48 + cmod mday 10)))
  else if cmd = 'w'.toNat then
    some (b.put (toChar (48 + cmod wday 10)))
  else if cmd = 'H'.toNat then
    some ((b.put (toChar (48 + cdiv hour 10))).put (toChar (48 + cmod hour 10)))
  else if cmd = 'I'.toNat then
    let tmp := cmod hour 12
    let tmp := if tmp = 0 then 12 else tmp
    some ((b.put (toChar (48 + cdiv tmp 10))).put (toChar (48 + cmod tmp 10)))
  else if cmd = 'j'.toNat then
    let y1 := wrapInt (yday + 1)
    some (((b.put (toChar (48 + cdiv y1 100))).put (toChar (48 + cdiv (cmod y1 100) 10))).put
      (toChar (48 + cmod y1 10)))
  else if cmd = 'm'.toNat then
    let m1 := wrapInt (month + 1)
    some ((b.put (toChar (48 + cdiv m1 10))).put (toChar (48 + cmod m1 10)))
  else if cmd = 'M'.toNat then
    some ((b.put (toChar (48 + cdiv minute 10))).put (toChar (48 + cmod minute 10)))
  else if cmd = 'p'.toNat then
    if hour < 12 then some ((b.put 'A'.toNat).put 'M'.toNat)
    else some ((b.put 'P'.toNat).put 'M'.toNat)
  else if cmd = 'S'.toNat then
    some ((b.put (toChar (48 + cdiv second 10))).put (toChar (48 + cmod second 10)))
  else if cmd = 'W'.toNat then
    let num1 := cdiv (wrapInt (yday + 1)) 7
    let num2 := cmod (wrapInt (yday + 1)) 7
    let num1 := if 0 < wday ∧ wday ≤ num2 then wrapInt (num1 + 1) else num1
    some ((b.put (toChar (48 + cdiv num1 10))).put (toChar (48 + cmod num1 10)))
  else if cmd = 'U'.toNat then
    let num1 := cdiv (wrapInt (yday + 1)) 7
    let num2 := cmod (wrapInt (yday + 1)) 7
    let num1 := if wday < num2 then wrapInt (num1 + 1) else num1
    some ((b.put (toChar (48 + cdiv num1 10))).put (toChar (48 + cmod num1 10)))
  else if cmd = 'x'.toNat then
    let m1 := wrapInt (month + 1)
    let b := ((b.put (toChar (48 + cdiv m1 10))).put (toChar (48 + cmod m1 10))).put '/'.toNat
    let b := ((b.put (toChar (48 + cdiv mday 10))).put (toChar (48 + cmod mday 10))).put
      '/'.toNat
    some ((b.put (toChar (48 + cdiv (cmod year 100) 10))).put (toChar (48 + cmod year 10)))
  else if cmd = 'y'.toNat then
    some ((b.put (toChar (48 + cdiv (cmod year 100) 10))).put (toChar (48 + cmod year 10)))
  else if cmd = 'Y'.toNat then
    let b := (b.put (toChar (48 + cdiv year 1000))).put
      (toChar (48 + cdiv (cmod year 1000) 100))
    some ((b.put (toChar (48 + cdiv (cmod year 100) 10))).put (toChar (48 + cmod year 10)))
  else if cmd = 'Z'.toNat then
    some (((b.put ' '.toNat).put ' '.toNat).put ' '.toNat)
  else
    some (b.put cmd)

/-- The `for (k = 0; format[k]; ++k)` loop of `priv_strftime` and the two statements after
it, on the part of the format from `format[k]` on.  The list holds the bytes in front of
the terminating NUL; a zero byte inside the list ends the string there. -/
def formatLoop (t : tm) (maxsize : Nat) : List Nat → Buf → Outcome
  | [], b => Outcome.ret b.idx (b.log ++ [(b.idx, 0)])
  | [c], b =>
    if c = 0 then Outcome.ret b.idx (b.log ++ [(b.idx, 0)])
    else if b.idx ≥ maxsize then Outcome.ret (-2) b.log
    else if c ≠ '%'.toNat then formatLoop t maxsize [] (b.put c)
    else
      -- `cmd` is the terminator: the default case stores it, and `++k` steps over it
      Outcome.undef (b.put 0).log
  | c :: cmd :: rest, b =>
    if c = 0 then Outcome.ret b.idx (b.log ++ [(b.idx, 0)])
    else if b.idx ≥ maxsize then Outcome.ret (-2) b.log
    else if c ≠ '%'.toNat then formatLoop t maxsize (cmd :: rest) (b.put c)
    else
      match directive t cmd b with
      | none => Outcome.undef b.log
      | some b1 => formatLoop t maxsize rest b1

/-- The function `priv_strftime`.  An absent pointer is `none`; `str` is the content of
the destination before the call, and the stores of the call are in the outcome. -/
def priv_strftime (str : Option (List Nat)) (maxsize : Nat) (format : Option (List Nat))
    (timeptr : Option tm) : Outcome :=
  match format, timeptr, str with
  | some format, some t, some _ =>
    if maxsize < 16 then Outcome.ret (-1) []
    else formatLoop t maxsize format { idx := 0, log := [] }
  | _, _, _ => Outcome.ret (-1) []

/-- Content of an object after the stores of `log`, oldest first; `none` when one of
them is outside the object. -/
def store (mem : List Nat) : List (Nat × Nat) → Option (List Nat)
  | [] => some mem
  | (i, c) :: log => if i < mem.length then store (mem.set i c) log else none

/-- The C string that starts at the beginning of an object. -/
def cstring (mem : List Nat) : List Nat := mem.takeWhile (fun c => c ≠ 0)

/-- The function `priv_asctime`: `asctime` is the content of its static buffer before the
call, the result is the content after it, which is what the returned pointer refers to;
`none` when the call reads or writes outside an object. -/
def priv_asctime (asctime : List Nat) (timeptr : Option tm) : Option (List Nat) :=
  match priv_strftime (some asctime) MAX_ASCTIME_LENGTH (some (bytes "%c")) timeptr with
  | Outcome.ret _ log => store asctime log
  | Outcome.undef _ => none

/-- The function `priv_ctime`: `priv_asctime` of `priv_localtime`. -/
def priv_ctime (g_time_zone : Int) (asctime : List Nat) (timer : Int) : Option (List Nat) :=
  priv_asctime asctime (priv_localtime g_time_zone timer)

/-! ## Vocabulary of the statements -/

/-- The stores that put the bytes `s` at the consecutive indices `i`, `i + 1`, ... -/
def seqLog (i : Nat) : List Nat → List (Nat × Nat)
  | [] => []
  | c :: s => (i, c) :: seqLog (i + 1) s

/-- The destination after the bytes `s` have been stored from index 0 on. -/
def Buf.ofList (s : List Nat) : Buf := { idx := s.length, log := seqLog 0 s }

/-- The decimal form of `v` in `w` columns, padded with `0` on the left. -/
def zeroPad : Nat → Nat → List Nat
  | 0, _ => []
  | w + 1, v => zeroPad w (v / 10) ++ [48 + v % 10]

/-- The decimal form of `v` right-aligned in 2 columns, padded with a space. -/
def spacePad2 (v : Nat) : List Nat :=
  if v < 10 then [32, 48 + v] else zeroPad 2 v

/-- The number that a string of decimal digits denotes. -/
def decimalValue (s : List Nat) : Nat :=
  s.foldl (fun a c => 10 * a + (c - 48)) 0

/-- The record that `priv_gmtime` returns for the epoch value 1. -/
def tm_epoch_1 : tm :=
  { tm_sec := 1, tm_min := 0, tm_hour := 0, tm_mday := 1, tm_mon := 0, tm_year := 70,
    tm_wday := 4, tm_yday := 0, tm_isdst := 0 }

/-- The record of 12:15:30 on Tuesday 29 February 2000. -/
def tm_2000_02_29 : tm :=
  { tm_sec := 30, tm_min := 15, tm_hour := 12, tm_mday := 29, tm_mon := 1, tm_year := 100,
    tm_wday := 2, tm_yday := 59, tm_isdst := 0 }

/-- Weekday continuity at `t`: `priv_gmtime` returns records for `t` and for `t + 86400`,
and the weekday of the second is the weekday of the first plus 1, modulo 7. -/
def weekdayStep (t : Int) : Prop :=
  ∃ a b, priv_gmtime t = some a ∧ priv_gmtime (t + 86400) = some b ∧
    (b.tm_wday - (a.tm_wday + 1)) % 7 = 0

/-- The string `s` is the decimal form of `v` in exactly `w` digits: it has `w`
characters, each a digit `0`-`9`, and they denote `v`. -/
def ZeroPadded (w : Nat) (v : Int) (s : List Nat) : Prop :=
  s.length = w ∧ (∀ c ∈ s, 48 ≤ c ∧ c ≤ 57) ∧ (decimalValue s : Int) = v

/-- The call of `priv_strftime` with capacity `maxsize`, format `format` and record `r`
stores the string `s` and its terminator from index 0 on, and returns the length of `s`. -/
def Renders (maxsize : Nat) (r : tm) (format : String) (s : List Nat) : Prop :=
  ∀ str : List Nat, priv_strftime (some str) maxsize (some (bytes format)) (some r)
    = Outcome.ret s.length (seqLog 0 (s ++ [0]))

/-- The record of 00:00:00 on Monday 1 March 2100. -/
def tm_2100_03_01 : tm :=
  { tm_sec := 0, tm_min := 0, tm_hour := 0, tm_mday := 1, tm_mon := 2, tm_year := 200,
    tm_wday := 1, tm_yday := 59, tm_isdst := 0 }

/-- The record of 03:14:08 on Tuesday 19 January 2038. -/
def tm_2038_01_19 : tm :=
  { tm_sec := 8, tm_min := 14, tm_hour := 3, tm_mday := 19, tm_mon := 0, tm_year := 138,
    tm_wday := 2, tm_yday := 18, tm_isdst := 0 }

/-- The record of 00:00:00 on Tuesday 1 March 2101. -/
def tm_2101_03_01 : tm :=
  { tm_sec := 0, tm_min := 0, tm_hour := 0, tm_mday := 1, tm_mon := 2, tm_year := 201,
    tm_wday := 2, tm_yday := 59, tm_isdst := 0 }

/-- The record of 00:00:00 on Monday 1 March 2038. -/
def tm_2038_03_01 : tm :=
  { tm_sec := 0, tm_min := 0, tm_hour := 0, tm_mday := 1, tm_mon := 2, tm_year := 138,
    tm_wday := 1, tm_yday := 59, tm_isdst := 0 }

/-- Number of days from 1 January of the first year of a 4-year block that starts with
1970, 1974, ... to 1 January of year `k` of the block (`k` = 0, 1, 2, 3; year 2 is the
leap year). -/
def blockOffset (k : Nat) : Int :=
  if k = 0 then 0 else if k = 1 then 365 else if k = 2 then 730 else 1096

/-- Number of days of the month with index `mon` (0-11) in a year that is leap
(`leap = 1`) or not (`leap = 0`). -/
def daysInMonth (leap mon : Int) : Int :=
  if mon = 1 then 28 + leap
  else if mon = 3 ∨ mon = 5 ∨ mon = 8 ∨ mon = 10 then 30
  else 31

/-- The fields of a record are in canonical ranges: month index 0-11, a day of month that
exists in that month of that year, hour 0-23, minute and second 0-59. -/
def Canonical (r : tm) : Prop :=
  (0 ≤ r.tm_mon ∧ r.tm_mon ≤ 11) ∧
  (1 ≤ r.tm_mday ∧ r.tm_mday ≤ daysInMonth (is_leap (r.tm_year + 1900)) r.tm_mon) ∧
  (0 ≤ r.tm_hour ∧ r.tm_hour ≤ 23) ∧
  (0 ≤ r.tm_min ∧ r.tm_min ≤ 59) ∧
  (0 ≤ r.tm_sec ∧ r.tm_sec ≤ 59)

instance (r : tm) : Decidable (Canonical r) := by
  unfold Canonical
  infer_instance

/-- Number of days of a year that is not leap in front of the month with index `i`: the
sum of the first `i` month lengths of `g_days[2]`. -/
def daysBefore (i : Nat) : Int :=
  (([31, 28, 31, 30, 31, 30, 31, 31, 30, 31, 30, 31] : List Int).take i).sum

/-! ## Vocabulary of the later statements -/

/-- The call `priv_mktime(timeptr)` as a step on the record that `timeptr` points to: the
record after the call and the value returned.  The body reads six fields of `*timeptr`
and assigns to none. -/
def priv_mktime_call (g_time_zone : Int) (timeptr : tm) : tm × Option Int :=
  (timeptr, priv_mktime g_time_zone timeptr)

/-- The 20 letters that have a `case` in the `switch (cmd)` of `priv_strftime`. -/
def directiveLetters : List Nat := bytes "aAbBcdwHIjmMpSWUxyYZ"

/-- Number of days of the year `y`, by the predicate `is_leap`. -/
def yearLength (y : Int) : Int := if is_leap y = 1 then 366 else 365

/-- The `while (1)` loop of `priv_gmtime` once more, counting the passes that execute
`tm_year++`: the number of year increments that `yearWalk` makes on the same arguments. -/
def yearWalkCount : Nat → Int → Int → Nat
  | 0, _, _ => 0
  | n + 1, tm_year, timestamp =>
    if timestamp < one_year_hours tm_year then 0
    else yearWalkCount n (wrapInt (tm_year + 1)) (timestamp - one_year_hours tm_year) + 1

/-- The values of `tm_year` and `timestamp` with which `priv_gmtime` enters its
`while (1)` loop: the first year of the 4-year block, and the hours left after the
reduction modulo `HOURS_4_YEAR`. -/
def yearWalkStart (timer : Int) : Int × Int :=
  let timestamp := cdiv (cdiv timer 60) 60
  let four_year_nums := wrapUInt (cdiv timestamp HOURS_4_YEAR)
  (wrapInt (wrapUInt (wrapUInt (four_year_nums * 4) + 70)), cmod timestamp HOURS_4_YEAR)

/-- The bound on the number of passes that `priv_gmtime` hands to `yearWalk`. -/
def yearWalkFuel (timer : Int) : Nat := (yearWalkStart timer).2.toNat / 8760 + 1

/-! ## Arithmetic of the integer model -/

theorem wrapInt_range (x : Int) : -2147483648 ≤ wrapInt x ∧ wrapInt x < 2147483648 := by
  have h1 := Int.emod_nonneg (x + 2147483648) (show (4294967296 : Int) ≠ 0 by decide)
  have h2 := Int.emod_lt_of_pos (x + 2147483648) (show (0 : Int) < 4294967296 by decide)
  unfold wrapInt
  constructor <;> linarith

theorem wrapInt_id (x : Int) (h1 : -2147483648 ≤ x) (h2 : x < 2147483648) : wrapInt x = x := by
  unfold wrapInt
  rw [Int.emod_eq_of_lt (by linarith) (by linarith)]
  ring

theorem wrapTime_id (x : Int) (h1 : -9223372036854775808 ≤ x) (h2 : x < 9223372036854775808) :
    wrapTime x = x := by
  unfold wrapTime
  rw [Int.emod_eq_of_lt (by linarith) (by linarith)]
  ring

theorem cdiv_nonneg (a b : Int) (ha : 0 ≤ a) (hb : 0 ≤ b) : cdiv a b = a / b :=
  Int.tdiv_eq_ediv ha hb

theorem cmod_nonneg (a b : Int) (ha : 0 ≤ a) (hb : 0 ≤ b) : cmod a b = a % b :=
  Int.tmod_eq_emod ha hb

theorem cdiv_neg (a b : Int) (ha : a ≤ 0) (hb : 0 ≤ b) : cdiv a b = -((-a) / b) := by
  unfold cdiv
  have h : a = -(-a) := by ring
  rw [h, Int.neg_tdiv, Int.tdiv_eq_ediv (by linarith) hb]
  simp

theorem cmod_neg (a b : Int) (ha : a ≤ 0) (hb : 0 ≤ b) : cmod a b = -((-a) % b) := by
  have h := cdiv_neg a b ha hb
  unfold cdiv at h
  unfold cmod
  rw [Int.tmod_def, h, Int.emod_def]
  ring

/-- A quotient of C by a positive divisor is at most `b` when the dividend is below
`(b + 1) * c`, for `b ≥ 0`. -/
theorem cdiv_le_of_lt (a b c : Int) (hc : 0 < c) (hb : 0 ≤ b) (h : a < (b + 1) * c) :
    cdiv a c ≤ b := by
  rcases le_total 0 a with h0 | h0
  · rw [cdiv_nonneg a c h0 (le_of_lt hc)]
    have := Int.ediv_lt_of_lt_mul hc h
    linarith
  · rw [cdiv_neg a c h0 (le_of_lt hc)]
    have := Int.ediv_nonneg (show 0 ≤ -a by linarith) (le_of_lt hc)
    linarith

/-! ## Encoding under a zone offset -/

/-- Claim C9.  `priv_mktime` treats the record as local time: under any zone offset `z`
(an `int`) it returns the value it returns under zone offset 0, minus `z`; and the record
1970-01-01 08:00:00 under zone offset +28800 encodes to 0. -/
theorem priv_mktime_zone (z : Int) (r : tm) (hz : -2147483648 ≤ z ∧ z < 2147483648) :
    priv_mktime z r = (priv_mktime 0 r).map (fun e => e - z) ∧
    priv_mktime ZONE_EAST_8
      { tm_sec := 0, tm_min := 0, tm_hour := 8, tm_mday := 1, tm_mon := 0, tm_year := 70,
        tm_wday := 4, tm_yday := 0, tm_isdst := 0 } = some 0 := by
  refine ⟨?_, by decide⟩
  dsimp only [priv_mktime]
  cases days_from_1jan (wrapInt (r.tm_year + 1900)) (wrapInt (r.tm_mon + 1)) r.tm_mday with
  | none => rfl
  | some d =>
    dsimp only [Option.map_some']
    generalize wrapInt (wrapInt (wrapInt (SECONDS_1_DAY * wrapInt (days_from_1970
      (wrapInt (r.tm_year + 1900)) + d)) + wrapInt (SECONDS_1_HOUR * r.tm_hour))
      + wrapInt (SECONDS_1_MINUTE * r.tm_min)) = a
    have ha := wrapInt_range (a + r.tm_sec)
    rw [wrapTime_id _ (by linarith [ha.1, hz.2]) (by linarith [ha.2, hz.1]),
      wrapTime_id _ (by linarith [ha.1]) (by linarith [ha.2])]
    simp

theorem priv_mktime_zone_witness :
    priv_mktime 28800 tm_2000_02_29 = some 951797730 := by
  have h := (priv_mktime_zone 28800 tm_2000_02_29 (by decide)).1
  rw [h]
  decide

/-! ## Totality of the decoder -/

theorem one_year_hours_cases (y : Int) : one_year_hours y = 8760 ∨ one_year_hours y = 8784 := by
  unfold one_year_hours HOURS_1_YEAR; split <;> simp

theorem yearWalk_exit (n : Nat) : ∀ (y ts : Int), ts < 8760 * (n : Int) →
    (yearWalk n y ts).2 < one_year_hours (yearWalk n y ts).1 ∧ (yearWalk n y ts).2 ≤ ts := by
  induction n with
  | zero =>
    intro y ts h
    simp only [yearWalk]
    simp only [Nat.cast_zero, mul_zero] at h
    rcases one_year_hours_cases y with e | e <;> rw [e] <;> constructor <;> linarith
  | succ k ih =>
    intro y ts h
    simp only [yearWalk]
    push_cast at h
    split
    · exact ⟨by assumption, le_refl _⟩
    · rename_i hge
      have h1 : 8760 ≤ one_year_hours y := by
        rcases one_year_hours_cases y with e | e <;> simp [e]
      have := ih (wrapInt (y + 1)) (ts - one_year_hours y) (by linarith)
      exact ⟨this.1, by linarith [this.2]⟩

/-- The bound on the passes of the year loop that `priv_gmtime` hands to `yearWalk` is
never reached. -/
theorem yearWalk_fuel (ts : Int) : ts < 8760 * ((ts.toNat / 8760 + 1 : Nat) : Int) := by
  rcases le_total 0 ts with h | h
  · obtain ⟨n, rfl⟩ := Int.eq_ofNat_of_zero_le h
    rw [Int.toNat_ofNat]
    exact_mod_cast Nat.lt_mul_div_succ n (show 0 < 8760 by decide)
  · have : (0 : Int) < 8760 * ((ts.toNat / 8760 + 1 : Nat) : Int) := by positivity
    linarith

theorem g_days_row2 :
    tableGet g_days 2 = some [31, 28, 31, 30, 31, 30, 31, 31, 30, 31, 30, 31] := by
  decide

theorem monthWalk_some_of_le_sum (row : List Int) : ∀ (m x : Int), x ≤ row.sum → row ≠ [] →
    ∃ p, monthWalk row m x = some p := by
  induction row with
  | nil => intro m x _ h; exact absurd rfl h
  | cons d rest ih =>
    intro m x hx _
    simp only [monthWalk]
    split
    · rename_i hd
      simp only [List.sum_cons] at hx
      refine ih (m + 1) (x - d) (by linarith) ?_
      rintro rfl
      simp only [List.sum_nil] at hx
      linarith
    · exact ⟨_, rfl⟩

theorem monthWalk_some (x : Int) (h : x ≤ 365) :
    ∃ p, monthWalk [31, 28, 31, 30, 31, 30, 31, 31, 30, 31, 30, 31] 0 x = some p :=
  monthWalk_some_of_le_sum _ 0 x (by simpa using h) (by simp)

theorem monthOf_some (x : Int) (h : x ≤ 365) : ∃ p, monthOf x = some p := by
  obtain ⟨p, hp⟩ := monthWalk_some x h
  exact ⟨(p.1, wrapInt p.2), by simp only [monthOf, g_days_row2, hp]⟩

theorem monthDay_some (y h : Int) (hx : h < one_year_hours y) :
    ∃ p, monthDay y (cdiv h 24 + 1) = some p := by
  unfold monthDay
  split
  · rename_i hy
    have hd : cdiv h 24 ≤ 365 := by
      refine cdiv_le_of_lt h 365 24 (by decide) (by decide) ?_
      rcases one_year_hours_cases y with e | e <;> rw [e] at hx <;> linarith
    split
    · exact monthOf_some _ (by linarith)
    · split
      · exact ⟨_, rfl⟩
      · rename_i h1 h2
        refine monthOf_some _ ?_
        have := lt_of_le_of_ne (not_lt.mp h1) h2
        linarith
  · rename_i hy
    have e : one_year_hours y = 8760 := by simp [one_year_hours, hy, HOURS_1_YEAR]
    have hd : cdiv h 24 ≤ 364 :=
      cdiv_le_of_lt h 364 24 (by decide) (by decide) (by rw [e] at hx; linarith)
    exact monthOf_some _ (by linarith)

/-- The function `priv_gmtime` returns a record for every argument, with the daylight
flag 0. -/
theorem priv_gmtime_total (t : Int) : ∃ r, priv_gmtime t = some r ∧ r.tm_isdst = 0 := by
  dsimp only [priv_gmtime]
  generalize cmod (cdiv (cdiv t 60) 60) HOURS_4_YEAR = ts
  generalize wrapInt (wrapUInt (wrapUInt (wrapUInt (cdiv (cdiv (cdiv t 60) 60) HOURS_4_YEAR)
    * 4) + 70)) = y0
  have hx := yearWalk_exit (ts.toNat / 8760 + 1) y0 ts (yearWalk_fuel ts)
  obtain ⟨p, hp⟩ := monthDay_some _ _ hx.1
  rw [hp]
  exact ⟨_, rfl, rfl⟩

theorem priv_gmtime_1 : priv_gmtime 1 = some tm_epoch_1 := by decide

/-! ## The destination buffer -/

theorem seqLog_append (a b : List Nat) :
    ∀ i, seqLog i (a ++ b) = seqLog i a ++ seqLog (i + a.length) b := by
  induction a with
  | nil => intro i; simp [seqLog]
  | cons c a ih =>
    intro i
    have e : i + 1 + a.length = i + (a.length + 1) := by ring
    show (i, c) :: seqLog (i + 1) (a ++ b) = (i, c) :: seqLog (i + 1) a ++ _
    rw [ih, e]
    rfl

theorem seqLog_index (s : List Nat) : ∀ (i : Nat), ∀ w ∈ seqLog i s, w.1 < i + s.length := by
  induction s with
  | nil => intro i w hw; simp [seqLog] at hw
  | cons c s ih =>
    intro i w hw
    simp only [seqLog, List.mem_cons] at hw
    rcases hw with rfl | hw
    · simp
    · have := ih (i + 1) w hw
      simp only [List.length_cons]
      linarith

theorem Buf.ofList_put (s : List Nat) (c : Nat) :
    (Buf.ofList s).put c = Buf.ofList (s ++ [c]) := by
  simp [Buf.ofList, Buf.put, seqLog_append, seqLog]

theorem Buf.ofList_puts (s : List Nat) :
    ∀ a : List Nat, (Buf.ofList a).puts s = Buf.ofList (a ++ s) := by
  induction s with
  | nil => intro a; simp [Buf.puts]
  | cons c s ih =>
    intro a
    have := ih (a ++ [c])
    simp only [Buf.puts, List.foldl_cons, Buf.ofList_put] at this ⊢
    simpa using this

theorem Buf.puts_append (b : Buf) (s u : List Nat) : (b.puts s).puts u = b.puts (s ++ u) := by
  simp [Buf.puts, List.foldl_append]

theorem Buf.put_eq_puts (b : Buf) (c : Nat) : b.put c = b.puts [c] := rfl

theorem store_seqLog (s : List Nat) : ∀ (i : Nat) (mem : List Nat), i + s.length ≤ mem.length →
    store mem (seqLog i s) = some (mem.take i ++ s ++ mem.drop (i + s.length)) := by
  induction s with
  | nil => intro i mem _; simp [seqLog, store]
  | cons c s ih =>
    intro i mem h
    simp only [List.length_cons] at h
    have hi : i < mem.length := by linarith
    simp only [seqLog, store, hi, if_true]
    rw [ih (i + 1) (mem.set i c) (by rw [List.length_set]; linarith)]
    congr 1
    have e : i + 1 + s.length = i + (s.length + 1) := by ring
    rw [List.drop_set_of_lt c mem (show i < i + 1 + s.length by linarith), e,
      List.set_eq_take_append_cons_drop, if_pos hi, List.length_cons]
    have hl : (List.take i mem).length = i := by
      rw [List.length_take]; exact Nat.min_eq_left (le_of_lt hi)
    rw [List.take_append_eq_append_take, hl]
    simp [List.take_of_length_le (show (List.take i mem).length ≤ i + 1 by rw [hl]; exact Nat.le_succ i)]

theorem cstring_append_zero (s rest : List Nat) (h : ∀ c ∈ s, c ≠ 0) :
    cstring (s ++ 0 :: rest) = s := by
  induction s with
  | nil => simp [cstring]
  | cons c s ih =>
    have hc : c ≠ 0 := h c (by simp)
    have := ih (fun d hd => h d (by simp [hd]))
    unfold cstring at this ⊢
    rw [List.cons_append, List.takeWhile_cons_of_pos (by simpa using hc), this]

theorem tableGet_some {α : Type} (t : List α) (i : Int) (h0 : 0 ≤ i) (h1 : i < t.length) :
    ∃ x, tableGet t i = some x ∧ x ∈ t := by
  have hi : i.toNat < t.length := (Int.toNat_lt h0).2 h1
  refine ⟨t[i.toNat], ?_, List.getElem_mem _⟩
  simp [tableGet, h0, List.getElem?_eq_getElem hi]

/-! ## Decimal digits -/

theorem zeroPad_length (w : Nat) : ∀ v, (zeroPad w v).length = w := by
  induction w with
  | zero => intro v; rfl
  | succ w ih => intro v; simp [zeroPad, ih]

theorem zeroPad_digits (w : Nat) : ∀ v, ∀ c ∈ zeroPad w v, 48 ≤ c ∧ c ≤ 57 := by
  induction w with
  | zero => intro v c hc; simp [zeroPad] at hc
  | succ w ih =>
    intro v c hc
    simp only [zeroPad, List.mem_append, List.mem_singleton] at hc
    rcases hc with hc | hc
    · exact ih _ c hc
    · have := Nat.mod_lt v (show 0 < 10 by decide)
      rw [hc]
      exact ⟨Nat.le_add_right _ _, by linarith⟩

theorem decimalValue_append (s : List Nat) (c : Nat) :
    decimalValue (s ++ [c]) = 10 * decimalValue s + (c - 48) := by
  simp [decimalValue, List.foldl_append]

theorem decimalValue_zeroPad (w : Nat) : ∀ v, decimalValue (zeroPad w v) = v % 10 ^ w := by
  induction w with
  | zero => intro v; simp [zeroPad, decimalValue, Nat.mod_one]
  | succ w ih =>
    intro v
    rw [zeroPad, decimalValue_append, ih, pow_succ', Nat.mod_mul, Nat.add_sub_cancel_left]
    ring

/-- The string `zeroPad w v` is the decimal form of `v` in `w` digits when `v` is below
`10 ^ w`. -/
theorem zeroPadded_zeroPad (w : Nat) (v : Int) (h0 : 0 ≤ v) (h1 : v < 10 ^ w) :
    ZeroPadded w v (zeroPad w v.toNat) := by
  refine ⟨zeroPad_length w _, zeroPad_digits w _, ?_⟩
  obtain ⟨n, rfl⟩ := Int.eq_ofNat_of_zero_le h0
  rw [Int.toNat_ofNat, decimalValue_zeroPad, Nat.mod_eq_of_lt (by exact_mod_cast h1)]

theorem spacePad2_length (v : Nat) : (spacePad2 v).length = 2 := by
  unfold spacePad2; split
  · rfl
  · exact zeroPad_length 2 v

theorem spacePad2_ne_zero (v : Nat) : ∀ c ∈ spacePad2 v, c ≠ 0 := by
  intro c hc h0
  unfold spacePad2 at hc
  split at hc
  · simp only [List.mem_cons, List.mem_singleton, List.not_mem_nil, or_false] at hc
    rcases hc with hc | hc <;> rw [h0] at hc
    · exact absurd hc (by decide)
    · have : 48 + v ≠ 0 := Nat.ne_of_gt (by linarith [Nat.zero_le v])
      exact this hc.symm
  · have := (zeroPad_digits 2 v c hc).1
    rw [h0] at this
    exact absurd this (by decide)

theorem two_digits (v : Int) (h0 : 0 ≤ v) (h1 : v ≤ 99) :
    [toChar (48 + cdiv v 10), toChar (48 + cmod v 10)] = zeroPad 2 v.toNat := by
  obtain ⟨n, rfl⟩ := Int.eq_ofNat_of_zero_le h0
  have hn : n ≤ 99 := by exact_mod_cast h1
  clear h0 h1
  interval_cases n <;> rfl

theorem space_digit (v : Int) (h0 : 0 ≤ v) (h1 : v ≤ 9) :
    [32, toChar (48 + cmod v 10)] = spacePad2 v.toNat := by
  obtain ⟨n, rfl⟩ := Int.eq_ofNat_of_zero_le h0
  have hn : n ≤ 9 := by exact_mod_cast h1
  clear h0 h1
  interval_cases n <;> rfl

theorem spacePad2_of_ge (v : Int) (h1 : 9 < v) : spacePad2 v.toNat = zeroPad 2 v.toNat := by
  obtain ⟨n, rfl⟩ := Int.eq_ofNat_of_zero_le (show 0 ≤ v by linarith)
  have hn : 9 < n := by exact_mod_cast h1
  rw [Int.toNat_ofNat, spacePad2, if_neg (by linarith)]

theorem three_digits (v : Int) (h0 : 0 ≤ v) (h1 : v ≤ 399) :
    [toChar (48 + cdiv v 100), toChar (48 + cdiv (cmod v 100) 10), toChar (48 + cmod v 10)]
      = zeroPad 3 v.toNat := by
  obtain ⟨n, rfl⟩ := Int.eq_ofNat_of_zero_le h0
  have hn : n ≤ 399 := by exact_mod_cast h1
  clear h0 h1
  interval_cases n <;> rfl

theorem toChar_natCast (k : Nat) (h : k < 208) : toChar (48 + (k : Int)) = 48 + k := by
  unfold toChar
  have e : (48 + (k : Int)) % 256 = ((48 + k : Nat) : Int) := by
    rw [Int.emod_eq_of_lt (by positivity) (by exact_mod_cast (show 48 + k < 256 by linarith))]
    push_cast; rfl
  rw [e, Int.toNat_ofNat]

theorem four_digits (v : Int) (h0 : 0 ≤ v) (h1 : v ≤ 9999) :
    [toChar (48 + cdiv v 1000), toChar (48 + cdiv (cmod v 1000) 100),
      toChar (48 + cdiv (cmod v 100) 10), toChar (48 + cmod v 10)] = zeroPad 4 v.toNat := by
  obtain ⟨n, rfl⟩ := Int.eq_ofNat_of_zero_le h0
  have hn : n < 10000 := by
    have : (n : Int) < 10000 := by linarith
    exact_mod_cast this
  have e1 : cdiv (n : Int) 1000 = ((n / 1000 : Nat) : Int) := rfl
  have e2 : cdiv (cmod (n : Int) 1000) 100 = ((n % 1000 / 100 : Nat) : Int) := rfl
  have e3 : cdiv (cmod (n : Int) 100) 10 = ((n % 100 / 10 : Nat) : Int) := rfl
  have e4 : cmod (n : Int) 10 = ((n % 10 : Nat) : Int) := rfl
  have b1 : n / 1000 < 10 := Nat.div_lt_of_lt_mul (by linarith)
  have b2 : n % 1000 / 100 < 10 := Nat.div_lt_of_lt_mul (Nat.mod_lt _ (by decide))
  have b3 : n % 100 / 10 < 10 := Nat.div_lt_of_lt_mul (Nat.mod_lt _ (by decide))
  have b4 : n % 10 < 10 := Nat.mod_lt _ (by decide)
  rw [e1, e2, e3, e4, toChar_natCast _ (by linarith), toChar_natCast _ (by linarith),
    toChar_natCast _ (by linarith), toChar_natCast _ (by linarith), Int.toNat_ofNat]
  have d1 : n / 10 / 10 / 10 % 10 = n / 1000 := by
    rw [Nat.div_div_eq_div_mul, Nat.div_div_eq_div_mul, Nat.mod_eq_of_lt b1]
  have d2 : n / 10 / 10 % 10 = n % 1000 / 100 := by
    rw [Nat.div_div_eq_div_mul]
    exact (Nat.mod_mul_right_div_self n 100 10).symm
  have d3 : n / 10 % 10 = n % 100 / 10 := (Nat.mod_mul_right_div_self n 10 10).symm
  simp only [zeroPad, List.nil_append, List.cons_append, d1, d2, d3]

/-- The two digits of the year within its century, as `%y` computes them. -/
theorem year_two_digits (v : Int) (h0 : 0 ≤ v) :
    [toChar (48 + cdiv (cmod v 100) 10), toChar (48 + cmod v 10)]
      = zeroPad 2 (v % 100).toNat := by
  have hm0 : 0 ≤ v % 100 := Int.emod_nonneg v (by decide)
  have hm1 : v % 100 < 100 := Int.emod_lt_of_pos v (by decide)
  have e : cmod v 10 = cmod (v % 100) 10 := by
    rw [cmod_nonneg v 10 h0 (by decide), cmod_nonneg (v % 100) 10 hm0 (by decide),
      Int.emod_emod_of_dvd v (by decide : (10 : Int) ∣ 100)]
  rw [cmod_nonneg v 100 h0 (by decide), e]
  exact two_digits (v % 100) hm0 (by linarith)

/-! ## The directives -/

theorem put2 (b : Buf) (v : Int) (h0 : 0 ≤ v) (h1 : v ≤ 99) :
    (b.put (toChar (48 + cdiv v 10))).put (toChar (48 + cmod v 10))
      = b.puts (zeroPad 2 v.toNat) := by
  rw [← two_digits v h0 h1]; rfl

theorem put3 (b : Buf) (v : Int) (h0 : 0 ≤ v) (h1 : v ≤ 399) :
    ((b.put (toChar (48 + cdiv v 100))).put (toChar (48 + cdiv (cmod v 100) 10))).put
      (toChar (48 + cmod v 10)) = b.puts (zeroPad 3 v.toNat) := by
  rw [← three_digits v h0 h1]; rfl

theorem put4 (b : Buf) (v : Int) (h0 : 0 ≤ v) (h1 : v ≤ 9999) :
    (((b.put (toChar (48 + cdiv v 1000))).put (toChar (48 + cdiv (cmod v 1000) 100))).put
      (toChar (48 + cdiv (cmod v 100) 10))).put (toChar (48 + cmod v 10))
      = b.puts (zeroPad 4 v.toNat) := by
  rw [← four_digits v h0 h1]; rfl

theorem put2y (b : Buf) (v : Int) (h0 : 0 ≤ v) :
    (b.put (toChar (48 + cdiv (cmod v 100) 10))).put (toChar (48 + cmod v 10))
      = b.puts (zeroPad 2 (v % 100).toNat) := by
  rw [← year_two_digits v h0]; rfl

theorem putSpaceDigit (b : Buf) (v : Int) (h0 : 0 ≤ v) (h1 : v ≤ 9) :
    (b.put 32).put (toChar (48 + cmod v 10)) = b.puts (spacePad2 v.toNat) := by
  rw [← space_digit v h0 h1]; rfl

theorem put_day (b : Buf) (v : Int) (h0 : 1 ≤ v) (h1 : v ≤ 31) :
    (if v > 9 then (b.put (toChar (48 + cdiv v 10))).put (toChar (48 + cmod v 10))
      else (b.put 32).put (toChar (48 + cmod v 10))) = b.puts (spacePad2 v.toNat) := by
  split
  · rename_i h9
    rw [put2 _ v (by linarith) (by linarith), spacePad2_of_ge _ h9]
  · rename_i h9
    rw [putSpaceDigit _ v (by linarith) (not_lt.mp h9)]

theorem bytes_space : bytes " " = [32] := by decide

theorem bytes_colon : bytes ":" = [58] := by decide

theorem directive_c (r : tm) (wd mo : List Nat)
    (hwd : tableGet g_abbr_wday r.tm_wday = some wd)
    (hmo : tableGet g_abbr_months r.tm_mon = some mo)
    (hd : 1 ≤ r.tm_mday ∧ r.tm_mday ≤ 31) (hh : 0 ≤ r.tm_hour ∧ r.tm_hour ≤ 23)
    (hm : 0 ≤ r.tm_min ∧ r.tm_min ≤ 59) (hs : 0 ≤ r.tm_sec ∧ r.tm_sec ≤ 59)
    (hy : 0 ≤ r.tm_year + 1900 ∧ r.tm_year + 1900 ≤ 9999) (a : List Nat) :
    directive r 99 (Buf.ofList a) = some (Buf.ofList (a ++ (wd ++ bytes " " ++ mo ++ bytes " "
      ++ spacePad2 r.tm_mday.toNat ++ bytes " " ++ zeroPad 2 r.tm_hour.toNat ++ bytes ":"
      ++ zeroPad 2 r.tm_min.toNat ++ bytes ":" ++ zeroPad 2 r.tm_sec.toNat ++ bytes " "
      ++ zeroPad 4 (r.tm_year + 1900).toNat))) := by
  have hyw : wrapInt (r.tm_year + 1900) = r.tm_year + 1900 :=
    wrapInt_id _ (by linarith [hy.1]) (by linarith [hy.2])
  simp only [directive, hwd, hmo, hyw, Char.reduceToNat, Nat.reduceEqDiff, if_false, if_true]
  rw [put4 _ _ hy.1 hy.2, put2 _ r.tm_sec hs.1 (by linarith [hs.2]),
    put2 _ r.tm_min hm.1 (by linarith [hm.2]), put2 _ r.tm_hour hh.1 (by linarith [hh.2])]
  rw [put_day _ r.tm_mday hd.1 hd.2]
  simp only [Buf.put_eq_puts, Buf.puts_append, Buf.ofList_puts, bytes_space, bytes_colon,
    List.append_assoc]

theorem directive_d (r : tm) (h : 1 ≤ r.tm_mday ∧ r.tm_mday ≤ 31) (a : List Nat) :
    directive r 100 (Buf.ofList a) = some (Buf.ofList (a ++ zeroPad 2 r.tm_mday.toNat)) := by
  simp only [directive, Char.reduceToNat, Nat.reduceEqDiff, if_false, if_true]
  rw [put2 _ _ (by linarith [h.1]) (by linarith [h.2]), Buf.ofList_puts]

theorem directive_H (r : tm) (h : 0 ≤ r.tm_hour ∧ r.tm_hour ≤ 23) (a : List Nat) :
    directive r 72 (Buf.ofList a) = some (Buf.ofList (a ++ zeroPad 2 r.tm_hour.toNat)) := by
  simp only [directive, Char.reduceToNat, Nat.reduceEqDiff, if_false, if_true]
  rw [put2 _ _ h.1 (by linarith [h.2]), Buf.ofList_puts]

theorem directive_I (r : tm) (h : 0 ≤ r.tm_hour ∧ r.tm_hour ≤ 23) (a : List Nat) :
    directive r 73 (Buf.ofList a) = some (Buf.ofList (a ++ zeroPad 2
      (if r.tm_hour % 12 = 0 then 12 else r.tm_hour % 12).toNat)) := by
  have h0 : 0 ≤ r.tm_hour % 12 := Int.emod_nonneg _ (by decide)
  have h1 : r.tm_hour % 12 < 12 := Int.emod_lt_of_pos _ (by decide)
  simp only [directive, Char.reduceToNat, Nat.reduceEqDiff, if_false, if_true,
    cmod_nonneg r.tm_hour 12 h.1 (by decide)]
  rw [put2 _ _ (by split <;> linarith) (by split <;> linarith), Buf.ofList_puts]

theorem directive_j (r : tm) (h : 0 ≤ r.tm_yday ∧ r.tm_yday ≤ 365) (a : List Nat) :
    directive r 106 (Buf.ofList a)
      = some (Buf.ofList (a ++ zeroPad 3 (r.tm_yday + 1).toNat)) := by
  simp only [directive, Char.reduceToNat, Nat.reduceEqDiff, if_false, if_true,
    wrapInt_id (r.tm_yday + 1) (by linarith [h.1]) (by linarith [h.2])]
  rw [put3 _ _ (by linarith [h.1]) (by linarith [h.2]), Buf.ofList_puts]

theorem directive_m (r : tm) (h : 0 ≤ r.tm_mon ∧ r.tm_mon ≤ 11) (a : List Nat) :
    directive r 109 (Buf.ofList a)
      = some (Buf.ofList (a ++ zeroPad 2 (r.tm_mon + 1).toNat)) := by
  simp only [directive, Char.reduceToNat, Nat.reduceEqDiff, if_false, if_true,
    wrapInt_id (r.tm_mon + 1) (by linarith [h.1]) (by linarith [h.2])]
  rw [put2 _ _ (by linarith [h.1]) (by linarith [h.2]), Buf.ofList_puts]

theorem directive_M (r : tm) (h : 0 ≤ r.tm_min ∧ r.tm_min ≤ 59) (a : List Nat) :
    directive r 77 (Buf.ofList a) = some (Buf.ofList (a ++ zeroPad 2 r.tm_min.toNat)) := by
  simp only [directive, Char.reduceToNat, Nat.reduceEqDiff, if_false, if_true]
  rw [put2 _ _ h.1 (by linarith [h.2]), Buf.ofList_puts]

theorem directive_S (r : tm) (h : 0 ≤ r.tm_sec ∧ r.tm_sec ≤ 59) (a : List Nat) :
    directive r 83 (Buf.ofList a) = some (Buf.ofList (a ++ zeroPad 2 r.tm_sec.toNat)) := by
  simp only [directive, Char.reduceToNat, Nat.reduceEqDiff, if_false, if_true]
  rw [put2 _ _ h.1 (by linarith [h.2]), Buf.ofList_puts]

/-- The week quotient and remainder that `%U` and `%W` start from. -/
theorem week_parts (r : tm) (h : 0 ≤ r.tm_yday ∧ r.tm_yday ≤ 365) :
    wrapInt (r.tm_yday + 1) = r.tm_yday + 1 ∧
    cdiv (r.tm_yday + 1) 7 = (r.tm_yday + 1) / 7 ∧
    cmod (r.tm_yday + 1) 7 = (r.tm_yday + 1) % 7 ∧
    0 ≤ (r.tm_yday + 1) / 7 ∧ (r.tm_yday + 1) / 7 < 53 :=
  ⟨wrapInt_id _ (by linarith [h.1]) (by linarith [h.2]),
    cdiv_nonneg _ 7 (by linarith [h.1]) (by decide),
    cmod_nonneg _ 7 (by linarith [h.1]) (by decide),
    Int.ediv_nonneg (by linarith [h.1]) (by decide),
    Int.ediv_lt_of_lt_mul (by decide) (by linarith [h.2])⟩

theorem directive_U (r : tm) (h : 0 ≤ r.tm_yday ∧ r.tm_yday ≤ 365) (a : List Nat) :
    directive r 85 (Buf.ofList a) = some (Buf.ofList (a ++ zeroPad 2
      (if r.tm_wday < (r.tm_yday + 1) % 7 then (r.tm_yday + 1) / 7 + 1
        else (r.tm_yday + 1) / 7).toNat)) := by
  obtain ⟨e1, e2, e3, q0, q1⟩ := week_parts r h
  simp only [directive, Char.reduceToNat, Nat.reduceEqDiff, if_false, if_true, e1, e2, e3,
    wrapInt_id ((r.tm_yday + 1) / 7 + 1) (by linarith) (by linarith)]
  rw [put2 _ _ (by split <;> linarith) (by split <;> linarith), Buf.ofList_puts]

theorem directive_W (r : tm) (h : 0 ≤ r.tm_yday ∧ r.tm_yday ≤ 365) (a : List Nat) :
    directive r 87 (Buf.ofList a) = some (Buf.ofList (a ++ zeroPad 2
      (if 0 < r.tm_wday ∧ r.tm_wday ≤ (r.tm_yday + 1) % 7 then (r.tm_yday + 1) / 7 + 1
        else (r.tm_yday + 1) / 7).toNat)) := by
  obtain ⟨e1, e2, e3, q0, q1⟩ := week_parts r h
  simp only [directive, Char.reduceToNat, Nat.reduceEqDiff, if_false, if_true, e1, e2, e3,
    wrapInt_id ((r.tm_yday + 1) / 7 + 1) (by linarith) (by linarith)]
  rw [put2 _ _ (by split <;> linarith) (by split <;> linarith), Buf.ofList_puts]

theorem directive_y (r : tm) (h : 0 ≤ r.tm_year + 1900 ∧ r.tm_year + 1900 ≤ 9999)
    (a : List Nat) :
    directive r 121 (Buf.ofList a)
      = some (Buf.ofList (a ++ zeroPad 2 ((r.tm_year + 1900) % 100).toNat)) := by
  simp only [directive, Char.reduceToNat, Nat.reduceEqDiff, if_false, if_true,
    wrapInt_id (r.tm_year + 1900) (by linarith [h.1]) (by linarith [h.2])]
  rw [put2y _ _ h.1, Buf.ofList_puts]

theorem directive_Y (r : tm) (h : 0 ≤ r.tm_year + 1900 ∧ r.tm_year + 1900 ≤ 9999)
    (a : List Nat) :
    directive r 89 (Buf.ofList a)
      = some (Buf.ofList (a ++ zeroPad 4 (r.tm_year + 1900).toNat)) := by
  simp only [directive, Char.reduceToNat, Nat.reduceEqDiff, if_false, if_true,
    wrapInt_id (r.tm_year + 1900) (by linarith [h.1]) (by linarith [h.2])]
  rw [put4 _ _ h.1 h.2, Buf.ofList_puts]

/-! ## The format loop -/

theorem formatLoop_nil (r : tm) (maxsize : Nat) (s : List Nat) :
    formatLoop r maxsize [] (Buf.ofList s) = Outcome.ret s.length (seqLog 0 (s ++ [0])) := by
  simp [formatLoop, Buf.ofList, seqLog_append, seqLog]

theorem formatLoop_directive (t : tm) (maxsize : Nat) (cmd : Nat) (rest : List Nat) (b : Buf)
    (h : b.idx < maxsize) :
    formatLoop t maxsize (37 :: cmd :: rest) b =
      match directive t cmd b with
      | none => Outcome.undef b.log
      | some b1 => formatLoop t maxsize rest b1 := by
  rw [formatLoop]
  simp only [Char.reduceToNat, ne_eq, not_true_eq_false, if_false, ge_iff_le,
    if_neg (not_le.mpr h), OfNat.ofNat_ne_zero]

theorem formatLoop_literal (t : tm) (maxsize : Nat) (c : Nat) (rest : List Nat) (b : Buf)
    (h : b.idx < maxsize) (h0 : c ≠ 0) (hc : c ≠ 37) :
    formatLoop t maxsize (c :: rest) b = formatLoop t maxsize rest (b.put c) := by
  cases rest with
  | nil =>
    simp only [formatLoop, Char.reduceToNat, ne_eq, hc, not_false_eq_true, if_true, ge_iff_le,
      if_neg (not_le.mpr h), h0, if_false]
  | cons d rest =>
    simp only [formatLoop, Char.reduceToNat, ne_eq, hc, not_false_eq_true, if_true, ge_iff_le,
      if_neg (not_le.mpr h), h0, if_false]

theorem formatLoop_value (t : tm) (maxsize : Nat) : ∀ (n : Nat) (format : List Nat) (b : Buf),
    format.length ≤ n → ∀ v log, formatLoop t maxsize format b = Outcome.ret v log →
    v = -2 ∨ 0 ≤ v := by
  intro n
  induction n with
  | zero =>
    intro format b hn v log h
    cases format with
    | nil =>
      simp only [formatLoop, Outcome.ret.injEq] at h
      exact Or.inr (h.1 ▸ Int.ofNat_nonneg _)
    | cons c rest => simp at hn
  | succ n ih =>
    intro format b hn v log h
    match format, hn, h with
    | [], _, h =>
      simp only [formatLoop, Outcome.ret.injEq] at h
      exact Or.inr (h.1 ▸ Int.ofNat_nonneg _)
    | [c], _, h =>
      simp only [formatLoop] at h
      split at h
      · simp only [Outcome.ret.injEq] at h; exact Or.inr (h.1 ▸ Int.ofNat_nonneg _)
      · split at h
        · simp only [Outcome.ret.injEq] at h; exact Or.inl h.1.symm
        · split at h
          · simp only [Outcome.ret.injEq] at h; exact Or.inr (h.1 ▸ Int.ofNat_nonneg _)
          · cases h
    | c :: cmd :: rest, hn, h =>
      simp only [formatLoop] at h
      simp only [List.length_cons] at hn
      split at h
      · simp only [Outcome.ret.injEq] at h; exact Or.inr (h.1 ▸ Int.ofNat_nonneg _)
      · split at h
        · simp only [Outcome.ret.injEq] at h; exact Or.inl h.1.symm
        · split at h
          · exact ih (cmd :: rest) _ (by simp only [List.length_cons]; linarith) v log h
          · split at h
            · cases h
            · exact ih rest _ (by linarith) v log h

/-- A format of one directive whose expansion is `s`. -/
theorem renders_single (maxsize : Nat) (hmax : 16 ≤ maxsize) (r : tm) (format : String)
    (cmd : Nat) (hf : bytes format = [37, cmd]) (s : List Nat)
    (h : directive r cmd (Buf.ofList []) = some (Buf.ofList ([] ++ s))) :
    Renders maxsize r format s := by
  intro str
  have hb : ({ idx := 0, log := [] } : Buf) = Buf.ofList [] := rfl
  simp only [priv_strftime, hf, hb, if_neg (not_lt.mpr hmax)]
  rw [formatLoop_directive _ _ _ _ _ (show (Buf.ofList []).idx < maxsize from
    lt_of_lt_of_le (by decide) hmax), h]
  simp only [formatLoop_nil, List.nil_append]

/-! ## Canonical rendering -/

theorem abbr_wday_shape : ∀ x ∈ g_abbr_wday, x.length = 3 ∧ ∀ c ∈ x, c ≠ 0 := by decide

theorem abbr_months_shape : ∀ x ∈ g_abbr_months, x.length = 3 ∧ ∀ c ∈ x, c ≠ 0 := by decide

/-- What `priv_asctime` leaves in its buffer once `priv_strftime` has stored the string
`s` and its terminator. -/
theorem priv_asctime_of_ret (asctime : List Nat) (timeptr : Option tm) (n : Int) (s : List Nat)
    (h : priv_strftime (some asctime) MAX_ASCTIME_LENGTH (some (bytes "%c")) timeptr
      = Outcome.ret n (seqLog 0 (s ++ [0])))
    (hlen : asctime.length = 32) (hs : s.length < 32) (hz : ∀ c ∈ s, c ≠ 0) :
    (priv_asctime asctime timeptr).map cstring = some s := by
  unfold priv_asctime
  rw [h]
  simp only
  rw [store_seqLog _ 0 asctime (by
    rw [List.length_append, List.length_singleton, hlen]; linarith)]
  simp only [List.take_zero, List.nil_append, Option.map_some', List.append_assoc,
    List.singleton_append]
  rw [cstring_append_zero _ _ hz]

theorem canonical_length (q : tm) (wd mo : List Nat) (hwd : wd.length = 3)
    (hmo : mo.length = 3) :
    (wd ++ bytes " " ++ mo ++ bytes " " ++ spacePad2 q.tm_mday.toNat ++ bytes " "
      ++ zeroPad 2 q.tm_hour.toNat ++ bytes ":" ++ zeroPad 2 q.tm_min.toNat ++ bytes ":"
      ++ zeroPad 2 q.tm_sec.toNat ++ bytes " "
      ++ zeroPad 4 (q.tm_year + 1900).toNat).length = 24 := by
  simp only [List.length_append, bytes_space, bytes_colon, spacePad2_length, zeroPad_length,
    hwd, hmo, List.length_singleton]

theorem canonical_ne_zero (q : tm) (wd mo : List Nat) (hwd : ∀ c ∈ wd, c ≠ 0)
    (hmo : ∀ c ∈ mo, c ≠ 0) :
    ∀ c ∈ (wd ++ bytes " " ++ mo ++ bytes " " ++ spacePad2 q.tm_mday.toNat ++ bytes " "
      ++ zeroPad 2 q.tm_hour.toNat ++ bytes ":" ++ zeroPad 2 q.tm_min.toNat ++ bytes ":"
      ++ zeroPad 2 q.tm_sec.toNat ++ bytes " "
      ++ zeroPad 4 (q.tm_year + 1900).toNat), c ≠ 0 := by
  have hz : ∀ w v c, c ∈ zeroPad w v → c ≠ 0 := by
    intro w v c hc h0
    have := (zeroPad_digits w v c hc).1
    rw [h0] at this
    exact absurd this (by decide)
  intro c hc
  simp only [List.mem_append, bytes_space, bytes_colon, List.mem_singleton, or_assoc] at hc
  rcases hc with hc | hc | hc | hc | hc | hc | hc | hc | hc | hc | hc | hc | hc
  · exact hwd c hc
  · rw [hc]; decide
  · exact hmo c hc
  · rw [hc]; decide
  · exact spacePad2_ne_zero _ c hc
  · rw [hc]; decide
  · exact hz _ _ c hc
  · rw [hc]; decide
  · exact hz _ _ c hc
  · rw [hc]; decide
  · exact hz _ _ c hc
  · rw [hc]; decide
  · exact hz _ _ c hc

/-- The call of `priv_asctime` on a record in canonical ranges whose names are `wd` and
`mo`: what `priv_strftime` returns and stores, and the string left in the buffer. -/
theorem priv_asctime_render (asctime : List Nat) (hlen : asctime.length = 32) (q : tm)
    (wd mo : List Nat)
    (hwd : tableGet g_abbr_wday q.tm_wday = some wd) (hwdm : wd ∈ g_abbr_wday)
    (hmo : tableGet g_abbr_months q.tm_mon = some mo) (hmom : mo ∈ g_abbr_months)
    (hd : 1 ≤ q.tm_mday ∧ q.tm_mday ≤ 31) (hh : 0 ≤ q.tm_hour ∧ q.tm_hour ≤ 23)
    (hm : 0 ≤ q.tm_min ∧ q.tm_min ≤ 59) (hs : 0 ≤ q.tm_sec ∧ q.tm_sec ≤ 59)
    (hy : 0 ≤ q.tm_year + 1900 ∧ q.tm_year + 1900 ≤ 9999) :
    (∃ log, priv_strftime (some asctime) MAX_ASCTIME_LENGTH (some (bytes "%c")) (some q)
        = Outcome.ret 24 log ∧ (∀ w ∈ log, w.1 < 32)) ∧
    (priv_asctime asctime (some q)).map cstring =
      some (wd ++ bytes " " ++ mo ++ bytes " " ++ spacePad2 q.tm_mday.toNat ++ bytes " "
        ++ zeroPad 2 q.tm_hour.toNat ++ bytes ":" ++ zeroPad 2 q.tm_min.toNat ++ bytes ":"
        ++ zeroPad 2 q.tm_sec.toNat ++ bytes " " ++ zeroPad 4 (q.tm_year + 1900).toNat) := by
  have h3 := abbr_wday_shape wd hwdm
  have h4 := abbr_months_shape mo hmom
  have hl := canonical_length q wd mo h3.1 h4.1
  have hnz := canonical_ne_zero q wd mo h3.2 h4.2
  have hcall := renders_single MAX_ASCTIME_LENGTH (by decide) q "%c" 99 (by decide) _
    (directive_c q wd mo hwd hmo hd hh hm hs hy []) asctime
  rw [hl] at hcall
  refine ⟨⟨_, hcall, ?_⟩, priv_asctime_of_ret asctime (some q) _ _ hcall hlen
    (by rw [hl]; decide) hnz⟩
  intro w hw
  have := seqLog_index _ 0 w hw
  simp only [List.length_append, hl, List.length_singleton] at this
  linarith

/-- Claim C5.  For a record whose weekday is 0-6, month index 0-11, day 1-31, hour 0-23,
minute and second 0-59 and absolute year 0-9999, `priv_strftime` with `"%c"` into the
32-byte buffer of `priv_asctime` returns 24 with every store inside the buffer, and the
string left in the buffer is the 3-letter weekday, a space, the 3-letter month, a space,
the day right-aligned in 2 columns, a space, `HH:MM:SS` zero-padded, a space and the
4-digit year: 24 characters.  For the record of epoch value 1 the string is
`Thu Jan  1 00:00:01 1970`. -/
theorem priv_asctime_canonical (asctime : List Nat) (r : tm) (hlen : asctime.length = 32)
    (hw : 0 ≤ r.tm_wday ∧ r.tm_wday ≤ 6) (hmon : 0 ≤ r.tm_mon ∧ r.tm_mon ≤ 11)
    (hd : 1 ≤ r.tm_mday ∧ r.tm_mday ≤ 31) (hh : 0 ≤ r.tm_hour ∧ r.tm_hour ≤ 23)
    (hm : 0 ≤ r.tm_min ∧ r.tm_min ≤ 59) (hs : 0 ≤ r.tm_sec ∧ r.tm_sec ≤ 59)
    (hy : 0 ≤ r.tm_year + 1900 ∧ r.tm_year + 1900 ≤ 9999) :
    (∃ wd mo log,
      tableGet g_abbr_wday r.tm_wday = some wd ∧ wd.length = 3 ∧
      tableGet g_abbr_months r.tm_mon = some mo ∧ mo.length = 3 ∧
      priv_strftime (some asctime) MAX_ASCTIME_LENGTH (some (bytes "%c")) (some r)
        = Outcome.ret 24 log ∧
      (∀ w ∈ log, w.1 < 32) ∧
      (priv_asctime asctime (some r)).map cstring =
        some (wd ++ bytes " " ++ mo ++ bytes " " ++ spacePad2 r.tm_mday.toNat ++ bytes " "
          ++ zeroPad 2 r.tm_hour.toNat ++ bytes ":" ++ zeroPad 2 r.tm_min.toNat ++ bytes ":"
          ++ zeroPad 2 r.tm_sec.toNat ++ bytes " " ++ zeroPad 4 (r.tm_year + 1900).toNat) ∧
      (wd ++ bytes " " ++ mo ++ bytes " " ++ spacePad2 r.tm_mday.toNat ++ bytes " "
          ++ zeroPad 2 r.tm_hour.toNat ++ bytes ":" ++ zeroPad 2 r.tm_min.toNat ++ bytes ":"
          ++ zeroPad 2 r.tm_sec.toNat ++ bytes " "
          ++ zeroPad 4 (r.tm_year + 1900).toNat).length = 24) ∧
    (priv_asctime asctime (priv_gmtime 1)).map cstring
      = some (bytes "Thu Jan  1 00:00:01 1970") := by
  constructor
  · obtain ⟨wd, hwd, hwdm⟩ := tableGet_some g_abbr_wday r.tm_wday hw.1
      (lt_of_le_of_lt hw.2 (by decide))
    obtain ⟨mo, hmo, hmom⟩ := tableGet_some g_abbr_months r.tm_mon hmon.1
      (lt_of_le_of_lt hmon.2 (by decide))
    obtain ⟨⟨log, h1, h2⟩, h3⟩ :=
      priv_asctime_render asctime hlen r wd mo hwd hwdm hmo hmom hd hh hm hs hy
    exact ⟨wd, mo, log, hwd, (abbr_wday_shape wd hwdm).1, hmo, (abbr_months_shape mo hmom).1,
      h1, h2, h3,
      canonical_length r wd mo (abbr_wday_shape wd hwdm).1 (abbr_months_shape mo hmom).1⟩
  · rw [priv_gmtime_1]
    have := (priv_asctime_render asctime hlen tm_epoch_1 (bytes "Thu") (bytes "Jan") (by decide)
      (by decide) (by decide) (by decide) (by decide) (by decide) (by decide) (by decide)
      (by decide)).2
    rw [this]
    decide

theorem priv_asctime_canonical_witness :
    (priv_asctime (List.replicate 32 0) (some tm_2000_02_29)).map cstring
      = some (bytes "Tue Feb 29 12:15:30 2000") := by
  obtain ⟨⟨wd, mo, log, hwd, _, hmo, _, _, _, h, _⟩, _⟩ :=
    priv_asctime_canonical (List.replicate 32 0) tm_2000_02_29 (by decide) (by decide)
      (by decide) (by decide) (by decide) (by decide) (by decide) (by decide)
  have e1 : tableGet g_abbr_wday tm_2000_02_29.tm_wday = some (bytes "Tue") := by decide
  have e2 : tableGet g_abbr_months tm_2000_02_29.tm_mon = some (bytes "Feb") := by decide
  rw [e1] at hwd
  rw [e2] at hmo
  cases hwd
  cases hmo
  rw [h]
  decide

/-! ## Local-time decoding -/

/-- Claim C10.  Under zone offset `z`, `priv_localtime(t)` is `priv_gmtime` applied to the
sum `t + z`, whenever that sum is an epoch value (it fits `time_t`): the two calls give
the same record, all nine fields, and its daylight flag is 0.  For `t = 1` and
`z = +28800` the record is 08:00:01 on Thursday 1 January 1970, which `priv_asctime`
renders as `Thu Jan  1 08:00:01 1970` (the call `priv_ctime(1)`). -/
theorem priv_localtime_eq_gmtime (z t : Int)
    (h : -9223372036854775808 ≤ t + z ∧ t + z < 9223372036854775808) :
    priv_localtime z t = priv_gmtime (t + z) ∧
    (∃ r, priv_localtime z t = some r ∧ r.tm_isdst = 0) ∧
    priv_localtime LOCAL_ZONE 1 = some
      { tm_sec := 1, tm_min := 0, tm_hour := 8, tm_mday := 1, tm_mon := 0, tm_year := 70,
        tm_wday := 4, tm_yday := 0, tm_isdst := 0 } ∧
    ∀ asctime : List Nat, asctime.length = 32 →
      (priv_ctime LOCAL_ZONE asctime 1).map cstring
        = some (bytes "Thu Jan  1 08:00:01 1970") := by
  have e : priv_localtime z t = priv_gmtime (t + z) := by
    simp only [priv_localtime, wrapTime_id _ h.1 h.2]
  refine ⟨e, ?_, by decide, ?_⟩
  · rw [e]; exact priv_gmtime_total _
  · intro asctime hlen
    unfold priv_ctime
    have e1 : priv_localtime LOCAL_ZONE 1 = some
      { tm_sec := 1, tm_min := 0, tm_hour := 8, tm_mday := 1, tm_mon := 0, tm_year := 70,
        tm_wday := 4, tm_yday := 0, tm_isdst := 0 } := by decide
    rw [e1]
    have := (priv_asctime_render asctime hlen
      { tm_sec := 1, tm_min := 0, tm_hour := 8, tm_mday := 1, tm_mon := 0, tm_year := 70,
        tm_wday := 4, tm_yday := 0, tm_isdst := 0 } (bytes "Thu") (bytes "Jan") (by decide)
      (by decide) (by decide) (by decide) (by decide) (by decide) (by decide) (by decide)
      (by decide)).2
    rw [this]
    decide

theorem priv_localtime_eq_gmtime_witness :
    priv_localtime (-28800) 951826530 = priv_gmtime 951797730 ∧
    priv_gmtime 951797730 = some
      { tm_sec := 30, tm_min := 15, tm_hour := 4, tm_mday := 29, tm_mon := 1, tm_year := 100,
        tm_wday := 2, tm_yday := 59, tm_isdst := 0 } :=
  ⟨(priv_localtime_eq_gmtime (-28800) 951826530 (by decide)).1, by decide⟩

/-! ## The undersized-buffer sentinel -/

/-- Claim C4.  `priv_strftime` returns -1 exactly when the destination, the format or the
record is absent or the capacity is below 16; it then returns at once, without a store to
the destination.  With capacity 10 and format `"%Y"` it returns -1 and stores nothing. -/
theorem priv_strftime_minus_one_iff (str : Option (List Nat)) (maxsize : Nat)
    (format : Option (List Nat)) (timeptr : Option tm) :
    ((∃ log, priv_strftime str maxsize format timeptr = Outcome.ret (-1) log) ↔
      (str = none ∨ format = none ∨ timeptr = none ∨ maxsize < 16)) ∧
    ((str = none ∨ format = none ∨ timeptr = none ∨ maxsize < 16) →
      priv_strftime str maxsize format timeptr = Outcome.ret (-1) []) ∧
    (∀ (buf : List Nat) (r : tm),
      priv_strftime (some buf) 10 (some (bytes "%Y")) (some r) = Outcome.ret (-1) []) := by
  have back : (str = none ∨ format = none ∨ timeptr = none ∨ maxsize < 16) →
      priv_strftime str maxsize format timeptr = Outcome.ret (-1) [] := by
    intro h
    unfold priv_strftime
    split
    · rename_i f t s
      rcases h with h | h | h | h
      · cases h
      · cases h
      · cases h
      · simp [h]
    · rfl
  refine ⟨⟨?_, fun h => ⟨[], back h⟩⟩, back, fun buf r => by simp [priv_strftime]⟩
  rintro ⟨log, h⟩
  by_contra hne
  simp only [not_or, not_lt] at hne
  obtain ⟨h1, h2, h3, h4⟩ := hne
  obtain ⟨s, rfl⟩ := Option.ne_none_iff_exists'.mp h1
  obtain ⟨f, rfl⟩ := Option.ne_none_iff_exists'.mp h2
  obtain ⟨r, rfl⟩ := Option.ne_none_iff_exists'.mp h3
  simp only [priv_strftime, if_neg (not_lt.mpr h4)] at h
  rcases formatLoop_value r maxsize f.length f _ (le_refl _) _ _ h with h5 | h5
  · exact absurd h5 (by decide)
  · exact absurd h5 (by decide)

/-! ## Fixed-width numeric directives -/

/-- Claim C6.  For a record in canonical ranges (day 1-31, hour 0-23, minute and second
0-59, month index 0-11, day of year 0-365, absolute year 0-9999; any weekday, 0-6
included) and a capacity of at least 16, each of `%d %H %I %m %M %S %U %W %y` stores exactly 2
characters, `%j` exactly 3 and `%Y` exactly 4; every character is a digit `0`-`9`, and
the digits denote the day, the hour, the 12-hour hour, the month index plus 1, the minute,
the second, the week number of the directive, the year modulo 100, the day of year plus 1
and the year.  Hour 3 is rendered as `03`. -/
theorem numeric_directives_fixed_width (maxsize : Nat) (r : tm) (hmax : 16 ≤ maxsize)
    (hd : 1 ≤ r.tm_mday ∧ r.tm_mday ≤ 31) (hh : 0 ≤ r.tm_hour ∧ r.tm_hour ≤ 23)
    (hm : 0 ≤ r.tm_min ∧ r.tm_min ≤ 59) (hs : 0 ≤ r.tm_sec ∧ r.tm_sec ≤ 59)
    (hmon : 0 ≤ r.tm_mon ∧ r.tm_mon ≤ 11) (hyd : 0 ≤ r.tm_yday ∧ r.tm_yday ≤ 365)
    (hy : 0 ≤ r.tm_year + 1900 ∧ r.tm_year + 1900 ≤ 9999) :
    (∃ s, Renders maxsize r "%d" s ∧ ZeroPadded 2 r.tm_mday s) ∧
    (∃ s, Renders maxsize r "%H" s ∧ ZeroPadded 2 r.tm_hour s) ∧
    (∃ s, Renders maxsize r "%I" s ∧
      ZeroPadded 2 (if r.tm_hour % 12 = 0 then 12 else r.tm_hour % 12) s) ∧
    (∃ s, Renders maxsize r "%m" s ∧ ZeroPadded 2 (r.tm_mon + 1) s) ∧
    (∃ s, Renders maxsize r "%M" s ∧ ZeroPadded 2 r.tm_min s) ∧
    (∃ s, Renders maxsize r "%S" s ∧ ZeroPadded 2 r.tm_sec s) ∧
    (∃ s, Renders maxsize r "%U" s ∧
      ZeroPadded 2 (if r.tm_wday < (r.tm_yday + 1) % 7 then (r.tm_yday + 1) / 7 + 1
        else (r.tm_yday + 1) / 7) s) ∧
    (∃ s, Renders maxsize r "%W" s ∧
      ZeroPadded 2 (if 0 < r.tm_wday ∧ r.tm_wday ≤ (r.tm_yday + 1) % 7
        then (r.tm_yday + 1) / 7 + 1 else (r.tm_yday + 1) / 7) s) ∧
    (∃ s, Renders maxsize r "%y" s ∧ ZeroPadded 2 ((r.tm_year + 1900) % 100) s) ∧
    (∃ s, Renders maxsize r "%j" s ∧ ZeroPadded 3 (r.tm_yday + 1) s) ∧
    (∃ s, Renders maxsize r "%Y" s ∧ ZeroPadded 4 (r.tm_year + 1900) s) ∧
    (r.tm_hour = 3 → Renders maxsize r "%H" (bytes "03")) := by
  have h12a : 0 ≤ r.tm_hour % 12 := Int.emod_nonneg _ (by decide)
  have h12b : r.tm_hour % 12 < 12 := Int.emod_lt_of_pos _ (by decide)
  have hc0 : 0 ≤ (r.tm_year + 1900) % 100 := Int.emod_nonneg _ (by decide)
  have hc1 : (r.tm_year + 1900) % 100 < 100 := Int.emod_lt_of_pos _ (by decide)
  obtain ⟨_, _, _, q0, q1⟩ := week_parts r hyd
  refine ⟨⟨_, renders_single maxsize hmax r "%d" 100 (by decide) _ (directive_d r hd []),
      zeroPadded_zeroPad 2 _ (by linarith) (by linarith)⟩,
    ⟨_, renders_single maxsize hmax r "%H" 72 (by decide) _ (directive_H r hh []),
      zeroPadded_zeroPad 2 _ (by linarith) (by linarith)⟩,
    ⟨_, renders_single maxsize hmax r "%I" 73 (by decide) _ (directive_I r hh []),
      zeroPadded_zeroPad 2 _ (by split <;> linarith) (by split <;> linarith)⟩,
    ⟨_, renders_single maxsize hmax r "%m" 109 (by decide) _ (directive_m r hmon []),
      zeroPadded_zeroPad 2 _ (by linarith) (by linarith)⟩,
    ⟨_, renders_single maxsize hmax r "%M" 77 (by decide) _ (directive_M r hm []),
      zeroPadded_zeroPad 2 _ (by linarith) (by linarith)⟩,
    ⟨_, renders_single maxsize hmax r "%S" 83 (by decide) _ (directive_S r hs []),
      zeroPadded_zeroPad 2 _ (by linarith) (by linarith)⟩,
    ⟨_, renders_single maxsize hmax r "%U" 85 (by decide) _ (directive_U r hyd []),
      zeroPadded_zeroPad 2 _ (by split <;> linarith) (by split <;> linarith)⟩,
    ⟨_, renders_single maxsize hmax r "%W" 87 (by decide) _ (directive_W r hyd []),
      zeroPadded_zeroPad 2 _ (by split <;> linarith) (by split <;> linarith)⟩,
    ⟨_, renders_single maxsize hmax r "%y" 121 (by decide) _ (directive_y r hy []),
      zeroPadded_zeroPad 2 _ (by linarith) (by linarith)⟩,
    ⟨_, renders_single maxsize hmax r "%j" 106 (by decide) _ (directive_j r hyd []),
      zeroPadded_zeroPad 3 _ (by linarith) (by linarith)⟩,
    ⟨_, renders_single maxsize hmax r "%Y" 89 (by decide) _ (directive_Y r hy []),
      zeroPadded_zeroPad 4 _ (by linarith) (by linarith)⟩, ?_⟩
  intro h3
  have := renders_single maxsize hmax r "%H" 72 (by decide) _ (directive_H r hh [])
  rw [h3] at this
  exact this

theorem numeric_directives_fixed_width_witness :
    Renders 16 { tm_2000_02_29 with tm_hour := 3 } "%H" (bytes "03") ∧
    ∃ s, Renders 16 { tm_2000_02_29 with tm_hour := 3 } "%j" s ∧ ZeroPadded 3 60 s :=
  have h := numeric_directives_fixed_width 16 { tm_2000_02_29 with tm_hour := 3 }
    (by decide) (by decide) (by decide) (by decide) (by decide) (by decide) (by decide)
    (by decide)
  ⟨h.2.2.2.2.2.2.2.2.2.2.2 rfl, h.2.2.2.2.2.2.2.2.2.1⟩

/-! ## Weekday continuity -/

theorem priv_gmtime_wday (t : Int) (r : tm) (h : priv_gmtime t = some r) :
    r.tm_wday = cmod (wrapInt (cdiv (cdiv (cdiv t 60) 60) 24 + 4)) 7 := by
  dsimp only [priv_gmtime] at h
  split at h
  · cases h
  · cases h; rfl

/-- The day number that `priv_gmtime` forms from an epoch value that is not negative. -/
theorem day_number (t : Int) (h0 : 0 ≤ t) : cdiv (cdiv (cdiv t 60) 60) 24 = t / 86400 := by
  obtain ⟨n, rfl⟩ := Int.eq_ofNat_of_zero_le h0
  have e : cdiv (cdiv (cdiv (n : Int) 60) 60) 24 = ((n / 60 / 60 / 24 : Nat) : Int) := rfl
  rw [e, Nat.div_div_eq_div_mul, Nat.div_div_eq_div_mul]
  norm_cast

/-- The weekday that `priv_gmtime` stores for an epoch value `t ≥ 0` whose day number plus
4 fits an `int`. -/
theorem wday_of_day_number (t : Int) (h0 : 0 ≤ t) (h1 : t < 86400 * 2147483644) :
    cmod (wrapInt (cdiv (cdiv (cdiv t 60) 60) 24 + 4)) 7 = (t / 86400 + 4) % 7 := by
  have d0 : 0 ≤ t / 86400 := Int.ediv_nonneg h0 (by decide)
  have d1 : t / 86400 < 2147483644 := Int.ediv_lt_of_lt_mul (by decide) (by linarith)
  rw [day_number t h0, wrapInt_id _ (by linarith) (by linarith),
    cmod_nonneg _ 7 (by linarith) (by decide)]

/-- Claim C7, at the inputs where it fails.  One second before the epoch and one day
later `priv_gmtime` reports the same weekday, 4; and from the last day whose number plus
4 fits an `int` to the next the weekday goes from 1 to -2. -/
theorem weekdayStep_fails :
    (priv_gmtime (-1)).map tm.tm_wday = some 4 ∧
    (priv_gmtime (-1 + 86400)).map tm.tm_wday = some 4 ∧
    ¬ weekdayStep (-1) ∧
    (priv_gmtime (86400 * 2147483643)).map tm.tm_wday = some 1 ∧
    (priv_gmtime (86400 * 2147483643 + 86400)).map tm.tm_wday = some (-2) ∧
    ¬ weekdayStep (86400 * 2147483643) := by
  refine ⟨by decide, by decide, ?_, by decide, by decide, ?_⟩
  · rintro ⟨a, b, ha, hb, h⟩
    rw [priv_gmtime_wday _ _ ha, priv_gmtime_wday _ _ hb] at h
    revert h
    decide
  · rintro ⟨a, b, ha, hb, h⟩
    rw [priv_gmtime_wday _ _ ha, priv_gmtime_wday _ _ hb] at h
    revert h
    decide

/-- Claim C7, amended.  For every epoch value `t ≥ 0` such that the day number of
`t + 86400` plus 4 fits an `int`, the weekday that `priv_gmtime` reports for `t + 86400`
is congruent modulo 7 to the weekday it reports for `t`, plus 1. -/
theorem weekdayStep_of_nonneg (t : Int) (h0 : 0 ≤ t) (h1 : t + 86400 < 86400 * 2147483644) :
    weekdayStep t := by
  obtain ⟨a, ha, _⟩ := priv_gmtime_total t
  obtain ⟨b, hb, _⟩ := priv_gmtime_total (t + 86400)
  refine ⟨a, b, ha, hb, ?_⟩
  rw [priv_gmtime_wday _ _ ha, priv_gmtime_wday _ _ hb,
    wday_of_day_number t h0 (by linarith), wday_of_day_number (t + 86400) (by linarith) h1]
  have e : (t + 86400) / 86400 = t / 86400 + 1 := by
    have := Int.add_mul_ediv_right t 1 (show (86400 : Int) ≠ 0 by decide)
    rw [one_mul] at this
    exact this
  rw [e]
  have m1 : (t / 86400 + 1 + 4) % 7 ≡ t / 86400 + 1 + 4 [ZMOD 7] := Int.mod_modEq _ _
  have m2 : (t / 86400 + 4) % 7 + 1 ≡ t / 86400 + 4 + 1 [ZMOD 7] :=
    (Int.mod_modEq _ _).add_right 1
  have m3 : (t / 86400 + 1 + 4) % 7 ≡ (t / 86400 + 4) % 7 + 1 [ZMOD 7] :=
    m1.trans (by rw [show t / 86400 + 1 + 4 = t / 86400 + 4 + 1 by ring]; exact m2.symm)
  exact Int.emod_eq_zero_of_dvd (Int.modEq_iff_dvd.mp m3.symm)

theorem weekdayStep_of_nonneg_witness : weekdayStep 951826530 :=
  weekdayStep_of_nonneg 951826530 (by decide) (by decide)

/-! ## Evaluations at the inputs where the code departs from the specification -/

/-- Claim C1, at failing inputs.  For 1 March 2100 00:00:00 under zone offset 0 the `int`
product `86400 * 47541` of `priv_mktime` does not fit 32 bits: the value returned is
-187424896 and `priv_gmtime` decodes it to a record of year 1966 with day of month -707.
At the exact second count 4107542400 of that date `priv_gmtime` returns 29 February 2100,
since its leap test is `tm_year & 3` while `is_leap(2100)` is 0.  The first record whose
encoding wraps is 19 January 2038 03:14:08, which encodes to -2147483648. -/
theorem roundtrip_fails_2100_03_01 :
    priv_mktime 0 tm_2100_03_01 = some (-187424896) ∧
    priv_gmtime (-187424896) = some
      { tm_sec := -16, tm_min := -28, tm_hour := -6, tm_mday := -707, tm_mon := 0,
        tm_year := 66, tm_wday := -2, tm_yday := -708, tm_isdst := 0 } ∧
    86400 * (days_from_1970 2100 + 59) = 4107542400 ∧
    is_leap 2100 = 0 ∧
    priv_gmtime 4107542400 = some
      { tm_sec := 0, tm_min := 0, tm_hour := 0, tm_mday := 29, tm_mon := 1, tm_year := 200,
        tm_wday := 1, tm_yday := 59, tm_isdst := 0 } ∧
    priv_mktime 0 tm_2038_01_19 = some (-2147483648) ∧
    priv_gmtime (-2147483648) = some
      { tm_sec := -8, tm_min := -14, tm_hour := -3, tm_mday := -17, tm_mon := 0,
        tm_year := 2, tm_wday := -1, tm_yday := -18, tm_isdst := 0 } := by
  decide

/-- Claim C8, at failing inputs.  For 1 March 2101 00:00:00 under zone offset 0, a year
that is not leap, `priv_mktime` returns the wrapped value -155888896, which `priv_gmtime`
decodes with day of year -343; at the exact second count 4139078400 of that date
`priv_gmtime` returns day of year 58, not 59, since it has counted 2100 as a leap year.
For 1 March 2038 the encoding wraps to -2143952896 and the decoded day of year is
-1438. -/
theorem march_1_yday_fails_2101 :
    is_leap 2101 = 0 ∧
    priv_mktime 0 tm_2101_03_01 = some (-155888896) ∧
    (priv_gmtime (-155888896)).map tm.tm_yday = some (-343) ∧
    86400 * (days_from_1970 2101 + 59) = 4139078400 ∧
    priv_gmtime 4139078400 = some
      { tm_sec := 0, tm_min := 0, tm_hour := 0, tm_mday := 28, tm_mon := 1, tm_year := 201,
        tm_wday := 2, tm_yday := 58, tm_isdst := 0 } ∧
    is_leap 2038 = 0 ∧
    priv_mktime 0 tm_2038_03_01 = some (-2143952896) ∧
    (priv_gmtime (-2143952896)).map tm.tm_yday = some (-1438) := by
  decide

/-- Claim C2, at failing inputs.  With capacity 16, `"%c"` stores its 24 characters and
the terminator at the indices 0 to 24 and returns 24: the indices 16 to 24 are outside
the capacity.  With capacity 16, a format of 16 literal characters stores the terminator
at index 16. -/
theorem priv_strftime_writes_past_capacity (str : List Nat) :
    priv_strftime (some str) 16 (some (bytes "%c")) (some tm_epoch_1)
      = Outcome.ret 24 (seqLog 0 (bytes "Thu Jan  1 00:00:01 1970" ++ [0])) ∧
    (24, 0) ∈ seqLog 0 (bytes "Thu Jan  1 00:00:01 1970" ++ [0]) ∧
    priv_strftime (some str) 16 (some (bytes "0123456789abcdef")) (some tm_epoch_1)
      = Outcome.ret 16 (seqLog 0 (bytes "0123456789abcdef" ++ [0])) ∧
    (16, 0) ∈ seqLog 0 (bytes "0123456789abcdef" ++ [0]) := by
  refine ⟨?_, by decide, ?_, by decide⟩
  · simp only [priv_strftime]; decide
  · simp only [priv_strftime]; decide

/-- Claim C3, at failing inputs.  The complete rendering of `"%c"` has 24 characters and
that of a format of 16 literal characters has 16 (capacity 256); with capacity 16 the
write index reaches the capacity during both expansions, and `priv_strftime` returns 24
and 16, not -2.  It returns -2 when characters of the format are left once the index has
reached the capacity, as for `"%c%c"`. -/
theorem priv_strftime_truncation_unreported (str : List Nat) :
    (∃ log, priv_strftime (some str) 256 (some (bytes "%c")) (some tm_epoch_1)
      = Outcome.ret 24 log) ∧
    (∃ log, priv_strftime (some str) 16 (some (bytes "%c")) (some tm_epoch_1)
      = Outcome.ret 24 log) ∧
    (∃ log, priv_strftime (some str) 256 (some (bytes "0123456789abcdef")) (some tm_epoch_1)
      = Outcome.ret 16 log) ∧
    (∃ log, priv_strftime (some str) 16 (some (bytes "0123456789abcdef")) (some tm_epoch_1)
      = Outcome.ret 16 log) ∧
    (∃ log, priv_strftime (some str) 16 (some (bytes "%c%c")) (some tm_epoch_1)
      = Outcome.ret (-2) log) := by
  refine ⟨⟨seqLog 0 (bytes "Thu Jan  1 00:00:01 1970" ++ [0]), ?_⟩,
    ⟨seqLog 0 (bytes "Thu Jan  1 00:00:01 1970" ++ [0]), ?_⟩,
    ⟨seqLog 0 (bytes "0123456789abcdef" ++ [0]), ?_⟩,
    ⟨seqLog 0 (bytes "0123456789abcdef" ++ [0]), ?_⟩,
    ⟨seqLog 0 (bytes "Thu Jan  1 00:00:01 1970"), ?_⟩⟩ <;>
    (simp only [priv_strftime]; decide)

/-! ## Decoding an encoded record, for the years 1970 to 2037 -/

/-- Quotient and remainder of `b * q + r` by `b`, for `0 ≤ r < b` and `0 ≤ q`. -/
theorem cdiv_cmod_of_decomp (b q r : Int) (hq : 0 ≤ q) (hr0 : 0 ≤ r) (hr : r < b) :
    cdiv (b * q + r) b = q ∧ cmod (b * q + r) b = r := by
  have hb : 0 < b := lt_of_le_of_lt hr0 hr
  have hn : 0 ≤ b * q + r := add_nonneg (mul_nonneg (le_of_lt hb) hq) hr0
  rw [cdiv_nonneg _ _ hn (le_of_lt hb), cmod_nonneg _ _ hn (le_of_lt hb)]
  constructor
  · rw [add_comm, Int.add_mul_ediv_left _ _ (ne_of_gt hb), Int.ediv_eq_zero_of_lt hr0 hr,
      zero_add]
  · rw [add_comm, Int.add_mul_emod_self_left, Int.emod_eq_of_lt hr0 hr]

/-- The encoder's day count and leap test on the years 1970 to 2101, by 4-year blocks:
year `k` of block `f` starts `1461 * f + blockOffset k` days after the epoch, and
`is_leap` holds for year 2 of each block except the block of 2100. -/
theorem year_facts : ∀ f : Nat, f < 33 → ∀ k : Nat, k < 4 →
    days_from_1970 (1970 + 4 * (f : Int) + (k : Int))
      = 1461 * (f : Int) + blockOffset k - (if 32 ≤ f ∧ 3 ≤ k then 1 else 0) ∧
    is_leap (1970 + 4 * (f : Int) + (k : Int)) = (if k = 2 ∧ f < 32 then 1 else 0) := by
  decide

theorem blockOffset_bounds (k : Nat) (hk : k < 4) :
    0 ≤ blockOffset k ∧ blockOffset k ≤ 1096 := by
  interval_cases k <;> decide

/-- The year that `priv_gmtime` starts its year loop from, for block number `f`. -/
theorem first_year_of_block (f : Nat) (hf : f < 1000000) :
    wrapInt (wrapUInt (wrapUInt (wrapUInt (f : Int) * 4) + 70)) = 70 + 4 * (f : Int) := by
  have h0 : (0 : Int) ≤ f := Int.ofNat_nonneg f
  have h1 : (f : Int) < 1000000 := by exact_mod_cast hf
  have e1 : wrapUInt (f : Int) = f := Int.emod_eq_of_lt h0 (by linarith)
  have e2 : wrapUInt ((f : Int) * 4) = f * 4 := Int.emod_eq_of_lt (by linarith) (by linarith)
  have e3 : wrapUInt ((f : Int) * 4 + 70) = f * 4 + 70 :=
    Int.emod_eq_of_lt (by linarith) (by linarith)
  rw [e1, e2, e3, wrapInt_id _ (by linarith) (by linarith)]
  ring

theorem yearWalk_fuel_indep (n : Nat) : ∀ (m : Nat) (y ts : Int), ts < 8760 * (n : Int) →
    ts < 8760 * (m : Int) → yearWalk n y ts = yearWalk m y ts := by
  induction n with
  | zero =>
    intro m y ts hn hm
    simp only [Nat.cast_zero, mul_zero] at hn
    cases m with
    | zero => rfl
    | succ m =>
      have h1 : 8760 ≤ one_year_hours y := by
        rcases one_year_hours_cases y with e | e <;> simp [e]
      simp only [yearWalk]
      rw [if_pos (by linarith)]
  | succ n ih =>
    intro m y ts hn hm
    have h1 : 8760 ≤ one_year_hours y := by
      rcases one_year_hours_cases y with e | e <;> simp [e]
    cases m with
    | zero =>
      simp only [Nat.cast_zero, mul_zero] at hm
      simp only [yearWalk]
      rw [if_pos (by linarith)]
    | succ m =>
      push_cast at hn hm
      simp only [yearWalk]
      split
      · rfl
      · exact ih m _ _ (by linarith) (by linarith)

theorem one_year_hours_block (f k : Nat) :
    one_year_hours (70 + 4 * (f : Int) + (k : Int))
      = if (k + 2) % 4 = 0 then 8784 else 8760 := by
  have e : (70 + 4 * (f : Int) + (k : Int)) % 4 = (((k + 2) % 4 : Nat) : Int) := by
    have : 70 + 4 * (f : Int) + (k : Int) = ((k + 2 : Nat) : Int) + 4 * ((f : Int) + 17) := by
      push_cast; ring
    rw [this, Int.add_mul_emod_self_left]
    norm_cast
  unfold one_year_hours HOURS_1_YEAR
  rw [e]
  norm_cast

theorem yearWalk_stop (n : Nat) (y ts : Int) (h : ts < one_year_hours y) :
    yearWalk (n + 1) y ts = (y, ts) := by
  simp only [yearWalk, if_pos h]

theorem yearWalk_step (n : Nat) (y ts : Int) (h : one_year_hours y ≤ ts) :
    yearWalk (n + 1) y ts = yearWalk n (wrapInt (y + 1)) (ts - one_year_hours y) := by
  simp only [yearWalk, if_neg (not_lt.mpr h)]

/-- The year loop of `priv_gmtime`, started on the first year of a 4-year block with the
hours up to hour `x` of year `k` of the block, stops in year `k` with `x` hours left. -/
theorem yearWalk_block (f k : Nat) (hf : f < 1000000) (hk : k < 4) (n : Nat) (x : Int)
    (hx0 : 0 ≤ x) (hx : x < one_year_hours (70 + 4 * (f : Int) + (k : Int))) :
    yearWalk (n + 1 + k) (70 + 4 * (f : Int)) (24 * blockOffset k + x)
      = (70 + 4 * (f : Int) + (k : Int), x) := by
  have h1 : (f : Int) < 1000000 := by exact_mod_cast hf
  have h0 : (0 : Int) ≤ f := Int.ofNat_nonneg f
  have o0 : one_year_hours (70 + 4 * (f : Int)) = 8760 := by
    simpa using one_year_hours_block f 0
  have o1 : one_year_hours (70 + 4 * (f : Int) + 1) = 8760 := by
    simpa using one_year_hours_block f 1
  have o2 : one_year_hours (70 + 4 * (f : Int) + 2) = 8784 := by
    simpa using one_year_hours_block f 2
  have w0 : wrapInt (70 + 4 * (f : Int) + 1) = 70 + 4 * (f : Int) + 1 :=
    wrapInt_id _ (by linarith) (by linarith)
  have w1 : wrapInt (70 + 4 * (f : Int) + 1 + 1) = 70 + 4 * (f : Int) + 2 := by
    rw [wrapInt_id _ (by linarith) (by linarith)]; ring
  have w2 : wrapInt (70 + 4 * (f : Int) + 2 + 1) = 70 + 4 * (f : Int) + 3 := by
    rw [wrapInt_id _ (by linarith) (by linarith)]; ring
  interval_cases k
  · simp only [Nat.cast_zero, add_zero] at hx ⊢
    rw [show (24 : Int) * blockOffset 0 + x = x by simp [blockOffset]]
    exact yearWalk_stop n _ _ hx
  · simp only [Nat.cast_one] at hx ⊢
    rw [show (24 : Int) * blockOffset 1 + x = 8760 + x by simp [blockOffset]]
    rw [yearWalk_step _ _ _ (by rw [o0]; linarith), w0, o0,
      show (8760 : Int) + x - 8760 = x by ring]
    exact yearWalk_stop n _ _ hx
  · simp only [Nat.cast_ofNat] at hx ⊢
    rw [show (24 : Int) * blockOffset 2 + x = 17520 + x by simp [blockOffset]]
    rw [show n + 1 + 2 = (n + 1 + 1) + 1 by ring,
      yearWalk_step _ _ _ (by rw [o0]; linarith), w0, o0,
      yearWalk_step _ _ _ (by rw [o1]; linarith), w1, o1,
      show (17520 : Int) + x - 8760 - 8760 = x by ring]
    exact yearWalk_stop n _ _ hx
  · simp only [Nat.cast_ofNat] at hx ⊢
    rw [show (24 : Int) * blockOffset 3 + x = 26304 + x by simp [blockOffset]]
    rw [show n + 1 + 3 = (n + 1 + 1 + 1) + 1 by ring,
      yearWalk_step _ _ _ (by rw [o0]; linarith), w0, o0,
      yearWalk_step _ _ _ (by rw [o1]; linarith), w1, o1,
      yearWalk_step _ _ _ (by rw [o2]; linarith), w2, o2,
      show (26304 : Int) + x - 8760 - 8760 - 8784 = x by ring]
    exact yearWalk_stop n _ _ hx

/-- The month loop on a row of month lengths that are not negative: for a day count `x`
that falls in entry `i` of the row, the loop stops at `i` with the day of the month. -/
theorem monthWalk_spec (row : List Int) : ∀ (m x : Int) (i : Nat), (∀ d ∈ row, 0 ≤ d) →
    i < row.length → (row.take i).sum < x → x ≤ (row.take (i + 1)).sum →
    monthWalk row m x = some (m + i, x - (row.take i).sum) := by
  induction row with
  | nil => intro m x i _ hi; simp at hi
  | cons d rest ih =>
    intro m x i hpos hi hlo hhi
    cases i with
    | zero =>
      simp only [List.take_zero, List.sum_nil, List.take_succ_cons, List.sum_cons,
        add_zero] at hlo hhi
      simp only [monthWalk, if_neg (not_lt.mpr hhi), Nat.cast_zero, add_zero, List.take_zero,
        List.sum_nil, sub_zero]
    | succ i =>
      simp only [List.take_succ_cons, List.sum_cons] at hlo hhi
      have hrest : ∀ e ∈ rest, 0 ≤ e := fun e he => hpos e (List.mem_cons_of_mem _ he)
      have hp : 0 ≤ (rest.take i).sum :=
        List.sum_nonneg (fun e he => hrest e (List.mem_of_mem_take he))
      simp only [monthWalk, if_pos (show d < x by linarith)]
      rw [ih (m + 1) (x - d) i hrest (by simpa using hi) (by linarith) (by linarith)]
      simp only [List.take_succ_cons, List.sum_cons, Nat.cast_succ]
      congr 2 <;> ring

/-- The tables of `g_days`: row 0 and row 1 hold the sums of the month lengths of row 2
in front of each month, row 1 with the leap day from March on; the lengths are those of
`daysInMonth`, and a year that is not leap has 365 days. -/
theorem g_days_rows : ∀ i : Nat, i < 12 →
    tableGet g_days 0 = some [0, 31, 59, 90, 120, 151, 181, 212, 243, 273, 304, 334] ∧
    tableGet g_days 1 = some [0, 31, 60, 91, 121, 152, 182, 213, 244, 274, 305, 335] ∧
    tableGet [0, 31, 59, 90, 120, 151, 181, 212, 243, 273, 304, 334] (i : Int)
      = some (daysBefore i) ∧
    tableGet [0, 31, 60, 91, 121, 152, 182, 213, 244, 274, 305, 335] (i : Int)
      = some (daysBefore i + (if 2 ≤ i then 1 else 0)) ∧
    daysBefore (i + 1) = daysBefore i + daysInMonth 0 i ∧
    daysBefore i + daysInMonth 0 i ≤ 365 ∧
    0 ≤ daysBefore i ∧
    (2 ≤ i → 59 ≤ daysBefore i) ∧
    (i = 1 → daysBefore i = 31) ∧
    (i = 0 → daysBefore i = 0) ∧
    (i ≠ 1 → daysInMonth 1 i = daysInMonth 0 i) ∧
    1 ≤ daysInMonth 0 i ∧ daysInMonth 0 i ≤ 31 := by
  decide

/-- The month loop of `priv_gmtime` on day `mday` of month `i`, the days counted from
1 January as day 1 in a year that is not leap. -/
theorem monthOf_day (i : Nat) (hi : i < 12) (mday : Int) (h1 : 1 ≤ mday)
    (h2 : mday ≤ daysInMonth 0 i) :
    monthOf (daysBefore i + mday) = some ((i : Int), mday) := by
  obtain ⟨_, _, _, _, f5, _, _, _, _, _, _, _, f13⟩ := g_days_rows i hi
  have hw : wrapInt mday = mday := wrapInt_id _ (by linarith) (by linarith)
  have hlo : daysBefore i < daysBefore i + mday := by linarith
  have hhi : daysBefore i + mday ≤ daysBefore (i + 1) := by rw [f5]; linarith
  unfold monthOf
  rw [g_days_row2]
  simp only
  rw [monthWalk_spec _ 0 _ i (by decide) (by simpa using hi) hlo hhi]
  show some ((0 : Int) + i, wrapInt (daysBefore i + mday - daysBefore i)) = _
  rw [zero_add, add_sub_cancel_left, hw]

theorem days_from_1jan_eq (year month day : Int) (row : List Int) (d : Int)
    (h1 : tableGet g_days (is_leap year) = some row)
    (h2 : tableGet row (wrapInt (month - 1)) = some d) :
    days_from_1jan year month day = some (wrapInt (wrapInt (d + day) - 1)) := by
  unfold days_from_1jan
  rw [h1]
  simp only [h2]

/-- Encoding the date and decoding it within a year: the day of year that
`days_from_1jan` computes for day `mday` of month `mon`, and the month and day that the
end of `priv_gmtime` recovers from it, when the decoder's leap test `tmy & 3` agrees with
`is_leap`. -/
theorem month_roundtrip (Y tmy L mon mday : Int) (hL : is_leap Y = L) (hL01 : L = 0 ∨ L = 1)
    (h4 : tmy % 4 = 0 ↔ L = 1) (hmon : 0 ≤ mon ∧ mon ≤ 11)
    (hd : 1 ≤ mday ∧ mday ≤ daysInMonth L mon) :
    ∃ yd, days_from_1jan Y (wrapInt (mon + 1)) mday = some yd ∧ 0 ≤ yd ∧ yd ≤ 364 + L ∧
      monthDay tmy (yd + 1) = some (mon, mday) := by
  obtain ⟨i, rfl⟩ := Int.eq_ofNat_of_zero_le hmon.1
  have hi : i < 12 := by
    have : (i : Int) < 12 := by linarith [hmon.2]
    exact_mod_cast this
  obtain ⟨f1, f2, f3, f4, f5, f6, f7, f8, f9, f10, f11, f12, f13⟩ := g_days_rows i hi
  obtain ⟨h1, h2⟩ := hd
  have hm : wrapInt (wrapInt ((i : Int) + 1) - 1) = i := by
    rw [wrapInt_id ((i : Int) + 1) (by linarith [hmon.1]) (by linarith [hmon.2]),
      wrapInt_id _ (by linarith [hmon.1]) (by linarith [hmon.2])]
    ring
  rcases hL01 with rfl | rfl
  · have hy : ¬ tmy % 4 = 0 := fun h => absurd (h4.mp h) (by decide)
    refine ⟨daysBefore i
      + mday - 1, ?_, by linarith, by linarith, ?_⟩
    · rw [days_from_1jan_eq Y _ mday _ _ (by rw [hL]; exact f1) (by rw [hm]; exact f3),
        wrapInt_id (daysBefore i + mday) (by linarith) (by linarith),
        wrapInt_id _ (by linarith) (by linarith)]
    · unfold monthDay
      rw [if_neg hy, sub_add_cancel]
      exact monthOf_day i hi mday h1 h2
  · have hy : tmy % 4 = 0 := h4.mpr rfl
    have hc : (0 : Int) ≤ (if 2 ≤ i then 1 else 0) ∧ (if 2 ≤ i then (1 : Int) else 0) ≤ 1 := by
      split <;> decide
    have hlen : mday ≤ daysInMonth 0 i + 1 := by
      by_cases h : i = 1
      · subst h
        exact h2
      · rw [f11 h] at h2
        linarith
    have hcm : (if 2 ≤ i then (1 : Int) else 0) + mday ≤ daysInMonth 0 i + 1 := by
      by_cases h : i = 1
      · subst h
        rw [if_neg (by decide)]
        linarith
      · rw [f11 h] at h2
        linarith
    refine ⟨daysBefore i
      + (if 2 ≤ i then 1 else 0) + mday - 1, ?_, by linarith, by linarith, ?_⟩
    · rw [days_from_1jan_eq Y _ mday _ _ (by rw [hL]; exact f2) (by rw [hm]; exact f4),
        wrapInt_id (daysBefore i + (if 2 ≤ i then 1 else 0) + mday) (by linarith)
          (by linarith),
        wrapInt_id _ (by linarith) (by linarith)]
    · unfold monthDay
      rw [if_pos hy, sub_add_cancel]
      by_cases h2i : 2 ≤ i
      · have h59 := f8 h2i
        have hne : i ≠ 1 := by
          intro h; rw [h] at h2i; exact absurd h2i (by decide)
        rw [f11 hne] at h2
        rw [if_pos h2i, if_pos (by linarith)]
        rw [show daysBefore i
          + 1 + mday - 1
          = daysBefore i + mday
          by ring]
        exact monthOf_day i hi mday h1 h2
      · rw [if_neg h2i, add_zero]
        have hi01 : i = 0 ∨ i = 1 := by
          have : i < 2 := not_le.mp h2i
          interval_cases i <;> simp
        rcases hi01 with h0 | h1i
        · have hP := f10 h0
          have hne : i ≠ 1 := by rw [h0]; decide
          rw [f11 hne] at h2
          rw [if_neg (by linarith), if_neg (by linarith)]
          exact monthOf_day i hi mday h1 h2
        · have hP := f9 h1i
          subst h1i
          have h29 : mday ≤ 29 := h2
          rw [if_neg (by linarith)]
          by_cases h60 : daysBefore 1 + mday = 60
          · rw [if_pos h60]
            have : mday = 29 := by linarith
            rw [this]
            rfl
          · rw [if_neg h60]
            have h28 : mday ≤ 28 := by
              have : mday ≠ 29 := fun h => h60 (by rw [hP, h]; rfl)
              have := lt_of_le_of_ne h29 this
              linarith
            exact monthOf_day 1 hi mday h1 h28

theorem block_hours (f k : Nat) (hk : k < 4) :
    24 * blockOffset k + one_year_hours (70 + 4 * (f : Int) + (k : Int)) ≤ 35064 := by
  rw [one_year_hours_block]
  interval_cases k <;> decide

theorem block_fuel (f k : Nat) (hk : k < 4) :
    24 * blockOffset k + one_year_hours (70 + 4 * (f : Int) + (k : Int))
      ≤ 8760 * ((1 + 1 + k : Nat) : Int) := by
  rw [one_year_hours_block]
  interval_cases k <;> decide

/-- The record that `priv_gmtime` returns for second `s` of minute `mi` of hour `h` of day
`yd` (counted from 0) of year `k` of the 4-year block `f` after 1970, given the month and
day that the end of the function derives from the day of the year. -/
theorem priv_gmtime_of_parts (f k : Nat) (hf : f < 1000000) (hk : k < 4)
    (yd h mi s mon mday : Int) (hyd : 0 ≤ yd)
    (hyh : 24 * yd + h < one_year_hours (70 + 4 * (f : Int) + (k : Int)))
    (hh : 0 ≤ h ∧ h < 24) (hmi : 0 ≤ mi ∧ mi < 60) (hs : 0 ≤ s ∧ s < 60)
    (hmd : monthDay (70 + 4 * (f : Int) + (k : Int)) (yd + 1) = some (mon, mday)) :
    priv_gmtime (86400 * (1461 * (f : Int) + blockOffset k + yd) + 3600 * h + 60 * mi + s)
      = some { tm_sec := s, tm_min := mi, tm_hour := h, tm_mday := mday, tm_mon := mon,
               tm_year := 70 + 4 * (f : Int) + (k : Int),
               tm_wday := cmod (wrapInt (1461 * (f : Int) + blockOffset k + yd + 4)) 7,
               tm_yday := yd, tm_isdst := 0 } := by
  have f0 : (0 : Int) ≤ f := Int.ofNat_nonneg f
  have f1 : (f : Int) < 1000000 := by exact_mod_cast hf
  obtain ⟨b0, b1⟩ := blockOffset_bounds k hk
  have hblock := block_hours f k hk
  have hD : 0 ≤ 1461 * (f : Int) + blockOffset k + yd := by linarith
  have hH : 0 ≤ 24 * (1461 * (f : Int) + blockOffset k + yd) + h := by linarith
  have hM : 0 ≤ 60 * (24 * (1461 * (f : Int) + blockOffset k + yd) + h) + mi := by linarith
  have hx0 : 0 ≤ 24 * blockOffset k + (24 * yd + h) := by linarith
  have hx1 : 24 * blockOffset k + (24 * yd + h) < 35064 := by linarith
  have eT : 86400 * (1461 * (f : Int) + blockOffset k + yd) + 3600 * h + 60 * mi + s
      = 60 * (60 * (24 * (1461 * (f : Int) + blockOffset k + yd) + h) + mi) + s := by ring
  have eH : 24 * (1461 * (f : Int) + blockOffset k + yd) + h
      = 35064 * (f : Int) + (24 * blockOffset k + (24 * yd + h)) := by ring
  obtain ⟨a1, a2⟩ := cdiv_cmod_of_decomp 60 _ s hM hs.1 hs.2
  obtain ⟨a3, a4⟩ := cdiv_cmod_of_decomp 60 _ mi hH hmi.1 hmi.2
  obtain ⟨a5, _⟩ := cdiv_cmod_of_decomp 24 _ h hD hh.1 hh.2
  obtain ⟨a6, a7⟩ := cdiv_cmod_of_decomp 35064 _ _ f0 hx0 hx1
  obtain ⟨a8, a9⟩ := cdiv_cmod_of_decomp 24 _ h hyd hh.1 hh.2
  rw [← eH] at a6 a7
  have a10 := first_year_of_block f hf
  have a11 : yearWalk ((24 * blockOffset k + (24 * yd + h)).toNat / 8760 + 1)
      (70 + 4 * (f : Int)) (24 * blockOffset k + (24 * yd + h))
      = (70 + 4 * (f : Int) + (k : Int), 24 * yd + h) := by
    rw [yearWalk_fuel_indep _ (1 + 1 + k) _ _ (yearWalk_fuel _) (by
      have := block_fuel f k hk
      linarith)]
    exact yearWalk_block f k hf hk 1 _ (by linarith) hyh
  have o8 : one_year_hours (70 + 4 * (f : Int) + (k : Int)) ≤ 8784 := by
    rcases one_year_hours_cases (70 + 4 * (f : Int) + (k : Int)) with e | e <;> simp [e]
  rw [eT]
  dsimp only [priv_gmtime, HOURS_4_YEAR]
  rw [a2, a1, a4, a3, a5, a6, a7, a10, a11]
  dsimp only
  rw [a8, a9, hmd]
  dsimp only
  rw [wrapInt_id s (by linarith) (by linarith), wrapInt_id mi (by linarith) (by linarith),
    wrapInt_id h (by linarith) (by linarith), add_sub_cancel_right,
    wrapInt_id yd (by linarith) (by linarith)]

theorem seconds_constants :
    SECONDS_1_DAY = 86400 ∧ SECONDS_1_HOUR = 3600 ∧ SECONDS_1_MINUTE = 60 := by decide

/-- The value that `priv_mktime` returns under zone offset 0 for a record of year `k` of
the block `f` (1970 to 2037) whose day of the year is `yd`: no operation wraps. -/
theorem priv_mktime_of_parts (r : tm) (f k : Nat) (hf : f < 17) (hk : k < 4)
    (hr : r.tm_year = 70 + 4 * (f : Int) + (k : Int)) (yd : Int)
    (hyd : days_from_1jan (1970 + 4 * (f : Int) + (k : Int)) (wrapInt (r.tm_mon + 1)) r.tm_mday
      = some yd)
    (hyd0 : 0 ≤ yd ∧ yd ≤ 365) (hh : 0 ≤ r.tm_hour ∧ r.tm_hour ≤ 23)
    (hmi : 0 ≤ r.tm_min ∧ r.tm_min ≤ 59) (hs : 0 ≤ r.tm_sec ∧ r.tm_sec ≤ 59) :
    priv_mktime 0 r = some (86400 * (1461 * (f : Int) + blockOffset k + yd)
      + 3600 * r.tm_hour + 60 * r.tm_min + r.tm_sec) := by
  have f0 : (0 : Int) ≤ f := Int.ofNat_nonneg f
  have f1 : (f : Int) ≤ 16 := by
    have : (f : Int) < 17 := by exact_mod_cast hf
    linarith
  have k0 : (0 : Int) ≤ k := Int.ofNat_nonneg k
  have k1 : (k : Int) < 4 := by exact_mod_cast hk
  obtain ⟨b0, b1⟩ := blockOffset_bounds k hk
  obtain ⟨c1, c2, c3⟩ := seconds_constants
  have eY : wrapInt (r.tm_year + 1900) = 1970 + 4 * (f : Int) + (k : Int) := by
    rw [hr, wrapInt_id _ (by linarith) (by linarith)]; ring
  have eD : days_from_1970 (1970 + 4 * (f : Int) + (k : Int))
      = 1461 * (f : Int) + blockOffset k := by
    rw [(year_facts f (by linarith) k hk).1,
      if_neg (fun h => absurd (lt_of_lt_of_le hf (by decide : 17 ≤ 32)) (not_lt.mpr h.1))]
    ring
  dsimp only [priv_mktime]
  rw [eY, hyd]
  dsimp only
  rw [eD, c1, c2, c3,
    wrapInt_id (1461 * (f : Int) + blockOffset k + yd) (by linarith) (by linarith),
    wrapInt_id (86400 * (1461 * (f : Int) + blockOffset k + yd)) (by linarith) (by linarith),
    wrapInt_id (3600 * r.tm_hour) (by linarith) (by linarith),
    wrapInt_id (60 * r.tm_min) (by linarith) (by linarith),
    wrapInt_id (86400 * (1461 * (f : Int) + blockOffset k + yd) + 3600 * r.tm_hour)
      (by linarith) (by linarith),
    wrapInt_id (86400 * (1461 * (f : Int) + blockOffset k + yd) + 3600 * r.tm_hour
      + 60 * r.tm_min) (by linarith) (by linarith),
    wrapInt_id (86400 * (1461 * (f : Int) + blockOffset k + yd) + 3600 * r.tm_hour
      + 60 * r.tm_min + r.tm_sec) (by linarith) (by linarith),
    sub_zero, wrapTime_id _ (by linarith) (by linarith)]

/-- Round trip on the years 1970 to 2037.  Under zone offset 0, for a record in canonical
ranges whose year is 1970 to 2037, `priv_mktime` returns the exact second count, which
fits an `int`, and `priv_gmtime` of it returns the year, month, day, hour, minute and
second of the record, the day of the year that `days_from_1jan` computes, and daylight
flag 0. -/
theorem priv_gmtime_mktime_1970_2037 (r : tm) (hc : Canonical r)
    (hy : 1970 ≤ r.tm_year + 1900 ∧ r.tm_year + 1900 ≤ 2037) :
    ∃ t q, priv_mktime 0 r = some t ∧ 0 ≤ t ∧ t < 2147483648 ∧ priv_gmtime t = some q ∧
      q.tm_year = r.tm_year ∧ q.tm_mon = r.tm_mon ∧ q.tm_mday = r.tm_mday ∧
      q.tm_hour = r.tm_hour ∧ q.tm_min = r.tm_min ∧ q.tm_sec = r.tm_sec ∧
      days_from_1jan (r.tm_year + 1900) (r.tm_mon + 1) r.tm_mday = some q.tm_yday ∧
      q.tm_isdst = 0 := by
  obtain ⟨hmon, hd, hh, hmi, hs⟩ := hc
  obtain ⟨n, hn⟩ := Int.eq_ofNat_of_zero_le (show 0 ≤ r.tm_year - 70 by linarith [hy.1])
  have hn67 : n < 68 := by
    have : (n : Int) < 68 := by rw [← hn]; linarith [hy.2]
    exact_mod_cast this
  have hk : n % 4 < 4 := Nat.mod_lt _ (by decide)
  have hf : n / 4 < 17 := Nat.div_lt_of_lt_mul (by linarith)
  have hr : r.tm_year = 70 + 4 * ((n / 4 : Nat) : Int) + ((n % 4 : Nat) : Int) := by
    have e : (n : Int) = 4 * ((n / 4 : Nat) : Int) + ((n % 4 : Nat) : Int) := by
      exact_mod_cast (Nat.div_add_mod n 4).symm
    linarith
  have eY : r.tm_year + 1900 = 1970 + 4 * ((n / 4 : Nat) : Int) + ((n % 4 : Nat) : Int) := by
    rw [hr]; ring
  have f0 : (0 : Int) ≤ ((n / 4 : Nat) : Int) := Int.ofNat_nonneg _
  have f1 : ((n / 4 : Nat) : Int) < 17 := by exact_mod_cast hf
  have k0 : (0 : Int) ≤ ((n % 4 : Nat) : Int) := Int.ofNat_nonneg _
  have k1 : ((n % 4 : Nat) : Int) < 4 := by exact_mod_cast hk
  have hleap := (year_facts (n / 4) (by linarith) (n % 4) hk).2
  rw [← eY] at hleap
  have hL01 : is_leap (r.tm_year + 1900) = 0 ∨ is_leap (r.tm_year + 1900) = 1 := by
    rw [hleap]; split
    · exact Or.inr rfl
    · exact Or.inl rfl
  have h4 : r.tm_year % 4 = 0 ↔ is_leap (r.tm_year + 1900) = 1 := by
    have e : r.tm_year % 4 = (((n % 4 + 2) % 4 : Nat) : Int) := by
      have : r.tm_year = ((n % 4 + 2 : Nat) : Int) + 4 * (((n / 4 : Nat) : Int) + 17) := by
        rw [hr]; push_cast; ring
      rw [this, Int.add_mul_emod_self_left]
      norm_cast
    rw [e, hleap]
    have h32 : n / 4 < 32 := lt_of_lt_of_le hf (by decide)
    simp only [h32, and_true]
    have hk' := hk
    revert hk'
    generalize n % 4 = k
    intro hk'
    interval_cases k <;> decide
  obtain ⟨yd, y1, y2, y3, y4⟩ := month_roundtrip (r.tm_year + 1900) r.tm_year
    (is_leap (r.tm_year + 1900)) r.tm_mon r.tm_mday rfl hL01 h4 hmon hd
  have hm1 : wrapInt (r.tm_mon + 1) = r.tm_mon + 1 :=
    wrapInt_id _ (by linarith [hmon.1]) (by linarith [hmon.2])
  have hL1 : is_leap (r.tm_year + 1900) ≤ 1 := by
    rcases hL01 with e | e <;> linarith
  have hmk := priv_mktime_of_parts r (n / 4) (n % 4) hf hk hr yd (by rw [← eY]; exact y1)
    ⟨y2, by linarith⟩ hh hmi hs
  have hyh : 24 * yd + r.tm_hour
      < one_year_hours (70 + 4 * ((n / 4 : Nat) : Int) + ((n % 4 : Nat) : Int)) := by
    rw [← hr]
    unfold one_year_hours HOURS_1_YEAR
    by_cases h : r.tm_year % 4 = 0
    · rw [if_pos h]
      linarith [hh.2]
    · rw [if_neg h]
      have : is_leap (r.tm_year + 1900) = 0 := by
        rcases hL01 with e | e
        · exact e
        · exact absurd (h4.mpr e) h
      linarith [hh.2]
  have hgm := priv_gmtime_of_parts (n / 4) (n % 4) (by linarith) hk yd r.tm_hour r.tm_min
    r.tm_sec r.tm_mon r.tm_mday y2 hyh ⟨hh.1, by linarith [hh.2]⟩ ⟨hmi.1, by linarith [hmi.2]⟩
    ⟨hs.1, by linarith [hs.2]⟩ (by rw [← hr]; exact y4)
  obtain ⟨b0, b1⟩ := blockOffset_bounds (n % 4) hk
  refine ⟨_, _, hmk, by linarith [hh.1, hmi.1, hs.1], by linarith [hh.2, hmi.2, hs.2], hgm,
    hr.symm, rfl, rfl, rfl, rfl, rfl, ?_, rfl⟩
  rw [← hm1]
  exact y1

theorem is_leap_cases (year : Int) : is_leap year = 0 ∨ is_leap year = 1 := by
  unfold is_leap
  split
  · exact Or.inr rfl
  · split
    · exact Or.inl rfl
    · split
      · exact Or.inr rfl
      · exact Or.inl rfl

/-- The function `is_leap` is the Gregorian rule: a year is leap when it is divisible by
400, or by 4 and not by 100. -/
theorem is_leap_iff (year : Int) (h0 : 0 ≤ year) :
    is_leap year = 1 ↔ (year % 400 = 0 ∨ (year % 4 = 0 ∧ year % 100 ≠ 0)) := by
  unfold is_leap
  rw [cmod_nonneg year 400 h0 (by decide), cmod_nonneg year 100 h0 (by decide),
    cmod_nonneg year 4 h0 (by decide)]
  by_cases h400 : year % 400 = 0
  · simp [h400]
  · by_cases h100 : year % 100 = 0
    · simp [h400, h100]
    · by_cases h4 : year % 4 = 0
      · simp [h400, h100, h4]
      · simp [h400, h100, h4]

/-- Day of the year of 1 March, on the years 1970 to 2037.  Under zone offset 0, decoding
the encoding of 1 March of such a year, at any time of the day, gives day of year 60 when
the year is a Gregorian leap year and 59 otherwise. -/
theorem march_1_yday_1970_2037 (r : tm) (hmon : r.tm_mon = 2) (hd : r.tm_mday = 1)
    (hy : 1970 ≤ r.tm_year + 1900 ∧ r.tm_year + 1900 ≤ 2037)
    (hh : 0 ≤ r.tm_hour ∧ r.tm_hour ≤ 23) (hmi : 0 ≤ r.tm_min ∧ r.tm_min ≤ 59)
    (hs : 0 ≤ r.tm_sec ∧ r.tm_sec ≤ 59) :
    ∃ t q, priv_mktime 0 r = some t ∧ priv_gmtime t = some q ∧
      q.tm_yday = (if (r.tm_year + 1900) % 400 = 0 ∨
        ((r.tm_year + 1900) % 4 = 0 ∧ (r.tm_year + 1900) % 100 ≠ 0) then 60 else 59) := by
  have hc : Canonical r := by
    refine ⟨by rw [hmon]; decide, ?_, hh, hmi, hs⟩
    rw [hmon, hd]
    exact ⟨le_refl _, show (1 : Int) ≤ 31 by decide⟩
  obtain ⟨t, q, h1, _, _, h2, _, _, _, _, _, _, h3, _⟩ := priv_gmtime_mktime_1970_2037 r hc hy
  refine ⟨t, q, h1, h2, ?_⟩
  rw [hmon, hd] at h3
  have hiff := is_leap_iff (r.tm_year + 1900) (by linarith [hy.1])
  rcases is_leap_cases (r.tm_year + 1900) with e | e
  · have hn : ¬ ((r.tm_year + 1900) % 400 = 0 ∨
        ((r.tm_year + 1900) % 4 = 0 ∧ (r.tm_year + 1900) % 100 ≠ 0)) := by
      intro h
      have := hiff.mpr h
      rw [e] at this
      exact absurd this (by decide)
    rw [if_neg hn]
    rw [days_from_1jan_eq _ _ _ [0, 31, 59, 90, 120, 151, 181, 212, 243, 273, 304, 334] 59
      (by rw [e]; decide) (by decide)] at h3
    exact (Option.some.inj h3).symm
  · rw [if_pos (hiff.mp e)]
    rw [days_from_1jan_eq _ _ _ [0, 31, 60, 91, 121, 152, 182, 213, 244, 274, 305, 335] 60
      (by rw [e]; decide) (by decide)] at h3
    exact (Option.some.inj h3).symm

theorem priv_gmtime_mktime_1970_2037_example :
    ∃ t q, priv_mktime 0 tm_2000_02_29 = some t ∧ priv_gmtime t = some q ∧
      q.tm_year = 100 ∧ q.tm_mon = 1 ∧ q.tm_mday = 29 ∧ q.tm_hour = 12 ∧ q.tm_min = 15 ∧
      q.tm_sec = 30 := by
  obtain ⟨t, q, h1, _, _, h2, h3, h4, h5, h6, h7, h8, _, _⟩ :=
    priv_gmtime_mktime_1970_2037 tm_2000_02_29 (by decide) (by decide)
  exact ⟨t, q, h1, h2, h3, h4, h5, h6, h7, h8⟩

theorem directive_p (r : tm) (a : List Nat) :
    directive r 112 (Buf.ofList a)
      = some (Buf.ofList (a ++ (if r.tm_hour < 12 then bytes "AM" else bytes "PM"))) := by
  simp only [directive, Char.reduceToNat, Nat.reduceEqDiff, if_false, if_true]
  split
  · simp only [Buf.ofList_put, List.append_assoc]
    rfl
  · simp only [Buf.ofList_put, List.append_assoc]
    rfl

theorem directiveLetters_eq : directiveLetters
    = [97, 65, 98, 66, 99, 100, 119, 72, 73, 106, 109, 77, 112, 83, 87, 85, 120, 121, 89, 90] := by
  decide

theorem directive_default (r : tm) (c : Nat) (hc : c ∉ directiveLetters) (b : Buf) :
    directive r c b = some (b.put c) := by
  rw [directiveLetters_eq] at hc
  simp only [List.mem_cons, List.mem_singleton, not_or, List.not_mem_nil, not_false_eq_true,
    and_true] at hc
  obtain ⟨h1, h2, h3, h4, h5, h6, h7, h8, h9, h10, h11, h12, h13, h14, h15, h16, h17, h18, h19,
    h20⟩ := hc
  simp only [directive, Char.reduceToNat, h1, h2, h3, h4, h5, h6, h7, h8, h9, h10, h11, h12,
    h13, h14, h15, h16, h17, h18, h19, h20, if_false]

theorem formatLoop_literals (t : tm) (maxsize : Nat) (format : List Nat) :
    ∀ a : List Nat, (∀ c ∈ format, c ≠ 0 ∧ c ≠ 37) → a.length + format.length < maxsize →
    formatLoop t maxsize format (Buf.ofList a)
      = Outcome.ret ((a ++ format).length : Nat) (seqLog 0 (a ++ format ++ [0])) := by
  induction format with
  | nil =>
    intro a _ _
    rw [formatLoop_nil, List.append_nil]
  | cons c rest ih =>
    intro a hc hlen
    simp only [List.length_cons] at hlen
    have h1 := hc c (List.mem_cons_self _ _)
    rw [formatLoop_literal t maxsize c rest _ (show (Buf.ofList a).idx < maxsize by
      show a.length < maxsize
      linarith) h1.1 h1.2, Buf.ofList_put,
      ih (a ++ [c]) (fun d hd => hc d (List.mem_cons_of_mem _ hd)) (by
        simp only [List.length_append, List.length_singleton]; linarith)]
    simp only [List.append_assoc, List.singleton_append]

/-! ## The encoder reads six fields -/

/-- Claim C11.  Two records that agree on `tm_year`, `tm_mon`, `tm_mday`, `tm_hour`,
`tm_min` and `tm_sec`, whatever their `tm_wday`, `tm_yday` and `tm_isdst`, get the same
result from `priv_mktime` under the same zone offset, and the call leaves each record as
it was. -/
theorem priv_mktime_ignores_derived (z : Int) (r1 r2 : tm) (hy : r1.tm_year = r2.tm_year)
    (hmon : r1.tm_mon = r2.tm_mon) (hd : r1.tm_mday = r2.tm_mday)
    (hh : r1.tm_hour = r2.tm_hour) (hmi : r1.tm_min = r2.tm_min)
    (hs : r1.tm_sec = r2.tm_sec) :
    priv_mktime z r1 = priv_mktime z r2 ∧
    (priv_mktime_call z r1).2 = (priv_mktime_call z r2).2 ∧
    (priv_mktime_call z r1).1 = r1 ∧ (priv_mktime_call z r2).1 = r2 := by
  have h : priv_mktime z r1 = priv_mktime z r2 := by
    simp only [priv_mktime, hy, hmon, hd, hh, hmi, hs]
  exact ⟨h, h, rfl, rfl⟩

theorem priv_mktime_ignores_derived_witness :
    priv_mktime 28800 tm_2000_02_29
      = priv_mktime 28800 { tm_2000_02_29 with tm_wday := 6, tm_yday := 400, tm_isdst := 1 } ∧
    priv_mktime 28800 tm_2000_02_29 = some 951797730 :=
  ⟨(priv_mktime_ignores_derived 28800 tm_2000_02_29
      { tm_2000_02_29 with tm_wday := 6, tm_yday := 400, tm_isdst := 1 }
      rfl rfl rfl rfl rfl rfl).1, by decide⟩

/-! ## Literal text and the fallback of the directive switch -/

/-- Claim C13.  For a capacity of at least 16, any record, and a format string without
`%` that is shorter than the capacity, `priv_strftime` stores the characters of the
format from index 0 on and a terminating zero after them, and returns the length of the
format: a destination of at least `maxsize` bytes then holds the format as a C string. -/
theorem priv_strftime_literal (str : List Nat) (maxsize : Nat) (r : tm) (format : List Nat)
    (hmax : 16 ≤ maxsize) (hz : ∀ c ∈ format, c ≠ 0) (hp : ∀ c ∈ format, c ≠ '%'.toNat)
    (hlen : format.length < maxsize) (hstr : maxsize ≤ str.length) :
    priv_strftime (some str) maxsize (some format) (some r)
      = Outcome.ret format.length (seqLog 0 (format ++ [0])) ∧
    store str (seqLog 0 (format ++ [0]))
      = some (format ++ [0] ++ str.drop (format.length + 1)) ∧
    cstring (format ++ [0] ++ str.drop (format.length + 1)) = format := by
  have hb : ({ idx := 0, log := [] } : Buf) = Buf.ofList [] := rfl
  refine ⟨?_, ?_, ?_⟩
  · simp only [priv_strftime, if_neg (not_lt.mpr hmax), hb]
    rw [formatLoop_literals r maxsize format [] (fun c hc => ⟨hz c hc, hp c hc⟩) (by
      simp only [List.length_nil, zero_add]; exact hlen)]
    simp only [List.nil_append]
  · rw [store_seqLog _ 0 str (by
      simp only [List.length_append, List.length_singleton, zero_add]; linarith)]
    simp only [List.take_zero, List.nil_append, zero_add, List.length_append,
      List.length_singleton]
  · rw [List.append_assoc, List.singleton_append]
    exact cstring_append_zero format _ hz

theorem priv_strftime_literal_witness :
    priv_strftime (some (List.replicate 16 255)) 16 (some (bytes "12:00 o clock")) (some tm_epoch_1)
      = Outcome.ret 13 (seqLog 0 (bytes "12:00 o clock" ++ [0])) :=
  (priv_strftime_literal (List.replicate 16 255) 16 tm_epoch_1 (bytes "12:00 o clock") (by decide)
    (by decide) (by decide) (by decide) (by decide)).1

/-- Claim C14.  For a capacity of at least 16, any record, and any character `c` that is
none of the 20 directive letters (`%` is such a character), `priv_strftime` on the format
`%` followed by `c` stores `c` at index 0 and the terminator at index 1, and returns 1:
the `%` is not stored.  For `c` other than zero the two bytes are the whole format
string. -/
theorem priv_strftime_unrecognized (str : List Nat) (maxsize : Nat) (r : tm) (c : Nat)
    (hmax : 16 ≤ maxsize) (hc : c ∉ directiveLetters) :
    priv_strftime (some str) maxsize (some ('%'.toNat :: [c])) (some r)
      = Outcome.ret 1 [(0, c), (1, 0)] := by
  have hb : ({ idx := 0, log := [] } : Buf) = Buf.ofList [] := rfl
  simp only [priv_strftime, if_neg (not_lt.mpr hmax), hb, Char.reduceToNat]
  rw [formatLoop_directive _ _ _ _ _ (show (Buf.ofList []).idx < maxsize from
    lt_of_lt_of_le (by decide) hmax), directive_default r c hc]
  simp only [Buf.ofList_put, formatLoop_nil, List.nil_append]
  rfl

theorem priv_strftime_unrecognized_witness :
    priv_strftime (some []) 16 (some (bytes "%%")) (some tm_epoch_1)
      = Outcome.ret 1 [(0, '%'.toNat), (1, 0)] :=
  priv_strftime_unrecognized [] 16 tm_epoch_1 '%'.toNat (by decide) (by decide)

/-! ## The 12-hour clock and the week numbers -/

theorem hour12_facts : ∀ h : Nat, h < 24 →
    (1 : Int) ≤ (if (h : Int) % 12 = 0 then 12 else (h : Int) % 12) ∧
    (if (h : Int) % 12 = 0 then 12 else (h : Int) % 12) ≤ 12 ∧
    (h : Int) = (if (h : Int) % 12 = 0 then 12 else (h : Int) % 12) % 12
      + (if (h : Int) < 12 then 0 else 12) ∧
    (((h : Int) = 0 ∨ (h : Int) = 12) →
      zeroPad 2 (if (h : Int) % 12 = 0 then 12 else (h : Int) % 12).toNat = bytes "12") := by
  decide

/-- Claim C15.  For a record whose hour `h` is 0 to 23 and a capacity of at least 16, `%I`
renders the two digits of a number `n` from 1 to 12, which is 12 for the hours 0 and 12;
`%p` renders `AM` when `h < 12` and `PM` otherwise; and `h` is `n mod 12`, plus 12 when
the marker is `PM`. -/
theorem twelve_hour_clock (maxsize : Nat) (r : tm) (hmax : 16 ≤ maxsize)
    (hh : 0 ≤ r.tm_hour ∧ r.tm_hour ≤ 23) :
    ∃ (n : Int) (s : List Nat), Renders maxsize r "%I" s ∧ ZeroPadded 2 n s ∧
      1 ≤ n ∧ n ≤ 12 ∧ ((r.tm_hour = 0 ∨ r.tm_hour = 12) → s = bytes "12") ∧
      Renders maxsize r "%p" (if r.tm_hour < 12 then bytes "AM" else bytes "PM") ∧
      r.tm_hour = n % 12 + (if r.tm_hour < 12 then 0 else 12) := by
  obtain ⟨h, eh⟩ := Int.eq_ofNat_of_zero_le hh.1
  have h24 : h < 24 := by
    have : (h : Int) < 24 := by rw [← eh]; linarith [hh.2]
    exact_mod_cast this
  obtain ⟨f1, f2, f3, f4⟩ := hour12_facts h h24
  rw [← eh] at f1 f2 f3 f4
  exact ⟨_, _, renders_single maxsize hmax r "%I" 73 (by decide) _ (directive_I r hh []),
    zeroPadded_zeroPad 2 _ (by linarith) (by linarith), f1, f2, f4,
    renders_single maxsize hmax r "%p" 112 (by decide) _ (directive_p r []), f3⟩

theorem twelve_hour_clock_witness :
    ∃ (n : Int) (s : List Nat), Renders 16 tm_2000_02_29 "%I" s ∧ ZeroPadded 2 n s ∧
      1 ≤ n ∧ n ≤ 12 ∧ ((tm_2000_02_29.tm_hour = 0 ∨ tm_2000_02_29.tm_hour = 12)
        → s = bytes "12") ∧
      Renders 16 tm_2000_02_29 "%p"
        (if tm_2000_02_29.tm_hour < 12 then bytes "AM" else bytes "PM") ∧
      tm_2000_02_29.tm_hour = n % 12 + (if tm_2000_02_29.tm_hour < 12 then 0 else 12) :=
  twelve_hour_clock 16 tm_2000_02_29 (by decide) (by decide)

theorem week_small : ∀ w : Nat, w < 7 → ∀ r : Nat, r < 7 →
    ((r : Int) + 6 - (w : Int)) / 7 = (if (w : Int) < (r : Int) then 1 else 0) ∧
    ((r : Int) + 6 - ((w : Int) + 6) % 7) / 7
      = (if 0 < (w : Int) ∧ (w : Int) ≤ (r : Int) then 1 else 0) := by
  decide

/-- The week numbers that `%U` and `%W` compute are the quotients of the standard
definitions. -/
theorem week_number_facts (y w : Int) (hw : 0 ≤ w ∧ w ≤ 6) :
    (if w < (y + 1) % 7 then (y + 1) / 7 + 1 else (y + 1) / 7) = (y + 7 - w) / 7 ∧
    (if 0 < w ∧ w ≤ (y + 1) % 7 then (y + 1) / 7 + 1 else (y + 1) / 7)
      = (y + 7 - (w + 6) % 7) / 7 := by
  have hr0 : 0 ≤ (y + 1) % 7 := Int.emod_nonneg _ (by decide)
  have hr7 : (y + 1) % 7 < 7 := Int.emod_lt_of_pos _ (by decide)
  have hdec : 7 * ((y + 1) / 7) + (y + 1) % 7 = y + 1 := Int.ediv_add_emod (y + 1) 7
  obtain ⟨r, er⟩ := Int.eq_ofNat_of_zero_le hr0
  obtain ⟨v, ev⟩ := Int.eq_ofNat_of_zero_le hw.1
  have hr : r < 7 := by
    have : (r : Int) < 7 := by rw [← er]; exact hr7
    exact_mod_cast this
  have hv : v < 7 := by
    have : (v : Int) < 7 := by rw [← ev]; linarith [hw.2]
    exact_mod_cast this
  obtain ⟨s1, s2⟩ := week_small v hv r hr
  rw [← er, ← ev] at s1 s2
  have e1 : y + 7 - w = ((y + 1) % 7 + 6 - w) + 7 * ((y + 1) / 7) := by linarith
  have e2 : y + 7 - (w + 6) % 7 = ((y + 1) % 7 + 6 - (w + 6) % 7) + 7 * ((y + 1) / 7) := by
    linarith
  rw [e1, e2, Int.add_mul_ediv_left _ _ (by decide), Int.add_mul_ediv_left _ _ (by decide),
    s1, s2]
  constructor
  · split <;> ring
  · split <;> ring

/-- Claim C18.  For a record whose day of year is 0 to 365 and whose weekday is 0 to 6, and
a capacity of at least 16, `%U` renders the two digits of `floor((yday + 7 - wday) / 7)`
and `%W` the two digits of `floor((yday + 7 - ((wday + 6) mod 7)) / 7)`. -/
theorem week_numbers_standard (maxsize : Nat) (r : tm) (hmax : 16 ≤ maxsize)
    (hyd : 0 ≤ r.tm_yday ∧ r.tm_yday ≤ 365) (hwd : 0 ≤ r.tm_wday ∧ r.tm_wday ≤ 6) :
    (∃ s, Renders maxsize r "%U" s ∧ ZeroPadded 2 ((r.tm_yday + 7 - r.tm_wday) / 7) s) ∧
    (∃ s, Renders maxsize r "%W" s ∧
      ZeroPadded 2 ((r.tm_yday + 7 - (r.tm_wday + 6) % 7) / 7) s) := by
  obtain ⟨_, _, _, q0, q1⟩ := week_parts r hyd
  obtain ⟨w1, w2⟩ := week_number_facts r.tm_yday r.tm_wday hwd
  refine ⟨⟨_, renders_single maxsize hmax r "%U" 85 (by decide) _ (directive_U r hyd []), ?_⟩,
    ⟨_, renders_single maxsize hmax r "%W" 87 (by decide) _ (directive_W r hyd []), ?_⟩⟩
  · rw [← w1]
    exact zeroPadded_zeroPad 2 _ (by split <;> linarith) (by split <;> linarith)
  · rw [← w2]
    exact zeroPadded_zeroPad 2 _ (by split <;> linarith) (by split <;> linarith)

theorem week_numbers_standard_witness :
    (∃ s, Renders 16 tm_2000_02_29 "%U" s ∧ ZeroPadded 2 9 s) ∧
    (∃ s, Renders 16 tm_2000_02_29 "%W" s ∧ ZeroPadded 2 9 s) :=
  week_numbers_standard 16 tm_2000_02_29 (by decide) (by decide) (by decide)

/-! ## The ranges of a decoded record -/

theorem yearWalk_nonneg (n : Nat) : ∀ (y ts : Int), 0 ≤ ts → 0 ≤ (yearWalk n y ts).2 := by
  induction n with
  | zero => intro y ts h; exact h
  | succ n ih =>
    intro y ts h
    simp only [yearWalk]
    split
    · exact h
    · rename_i hlt
      exact ih _ _ (by linarith [not_lt.mp hlt])

/-- The month loop read backwards: when it stops with the pair `(m1, d)`, it stops at an
entry `i` of the row, `d` is a day of that entry, and the day count is the sum of the
entries in front plus `d`. -/
theorem monthWalk_inv (row : List Int) : ∀ (m x m1 d : Int), 1 ≤ x →
    monthWalk row m x = some (m1, d) →
    ∃ i : Nat, i < row.length ∧ m1 = m + i ∧ x = (row.take i).sum + d ∧ 1 ≤ d ∧
      d ≤ row.getD i 0 := by
  induction row with
  | nil => intro m x m1 d _ h; simp [monthWalk] at h
  | cons e rest ih =>
    intro m x m1 d hx h
    simp only [monthWalk] at h
    split at h
    · rename_i hlt
      obtain ⟨i, hi, h1, h2, h3, h4⟩ := ih (m + 1) (x - e) m1 d (by linarith) h
      refine ⟨i + 1, by simpa using hi, ?_, ?_, h3, ?_⟩
      · rw [h1]; push_cast; ring
      · simp only [List.take_succ_cons, List.sum_cons]; linarith
      · simpa using h4
    · rename_i hlt
      simp only [Option.some.injEq, Prod.mk.injEq] at h
      obtain ⟨rfl, rfl⟩ := h
      exact ⟨0, by simp, by simp, by simp, hx, by simpa using not_lt.mp hlt⟩

theorem row2_facts : ∀ i : Nat, i < 12 →
    ([31, 28, 31, 30, 31, 30, 31, 31, 30, 31, 30, 31] : List Int).getD i 0 = daysInMonth 0 i ∧
    (i ≤ 1 → daysBefore i + daysInMonth 0 i ≤ 59) := by
  decide

/-- The month loop of `priv_gmtime` read backwards, on a day count from 1 on. -/
theorem monthOf_inv (x mon mday : Int) (hx : 1 ≤ x) (h : monthOf x = some (mon, mday)) :
    ∃ i : Nat, i < 12 ∧ mon = i ∧ x = daysBefore i + mday ∧ 1 ≤ mday ∧
      mday ≤ daysInMonth 0 i := by
  unfold monthOf at h
  rw [g_days_row2] at h
  simp only at h
  cases hw : monthWalk [31, 28, 31, 30, 31, 30, 31, 31, 30, 31, 30, 31] 0 x with
  | none => rw [hw] at h; cases h
  | some p =>
    obtain ⟨m1, d⟩ := p
    rw [hw] at h
    simp only [Option.some.injEq, Prod.mk.injEq] at h
    obtain ⟨i, hi, h1, h2, h3, h4⟩ := monthWalk_inv _ 0 x m1 d hx hw
    have hi12 : i < 12 := by simpa using hi
    rw [(row2_facts i hi12).1] at h4
    obtain ⟨_, _, _, _, _, _, _, _, _, _, _, _, f13⟩ := g_days_rows i hi12
    have hd : wrapInt d = d := wrapInt_id _ (by linarith) (by linarith)
    refine ⟨i, hi12, ?_, ?_, ?_, ?_⟩
    · rw [← h.1, h1, zero_add]
    · rw [← h.2, hd]; exact h2
    · rw [← h.2, hd]; exact h3
    · rw [← h.2, hd]; exact h4

theorem monthDay_range (y x mon mday : Int) (hx : 1 ≤ x)
    (h : monthDay y x = some (mon, mday)) :
    (0 ≤ mon ∧ mon ≤ 11) ∧ (1 ≤ mday ∧ mday ≤ 31) := by
  have key : ∀ x1 : Int, 1 ≤ x1 → monthOf x1 = some (mon, mday) →
      (0 ≤ mon ∧ mon ≤ 11) ∧ (1 ≤ mday ∧ mday ≤ 31) := by
    intro x1 hx1 h1
    obtain ⟨i, hi, e1, _, e3, e4⟩ := monthOf_inv x1 mon mday hx1 h1
    obtain ⟨_, _, _, _, _, _, _, _, _, _, _, _, f13⟩ := g_days_rows i hi
    have i0 : (0 : Int) ≤ i := Int.ofNat_nonneg i
    have i1 : (i : Int) < 12 := by exact_mod_cast hi
    exact ⟨⟨by linarith, by linarith⟩, e3, by linarith⟩
  unfold monthDay at h
  split at h
  · split at h
    · rename_i h60
      exact key _ (by linarith) h
    · split at h
      · simp only [Option.some.injEq, Prod.mk.injEq] at h
        rw [← h.1, ← h.2]
        decide
      · exact key _ hx h
  · exact key _ hx h

/-- Claim C12, at an input where it fails.  The epoch value `86400 * 2147483644` is not
negative and fits a 64-bit `time_t`; its day number plus 4 does not fit an `int`, and
`priv_gmtime` returns weekday -2 for it. -/
theorem priv_gmtime_wday_out_of_range :
    (0 : Int) ≤ 86400 * 2147483644 ∧ (86400 * 2147483644 : Int) < 2 ^ 63 ∧
    (priv_gmtime (86400 * 2147483644)).map tm.tm_wday = some (-2) := by
  decide

/-- Claim C12, amended.  For every epoch value `t ≥ 0`, `priv_gmtime` returns a record
with second and minute 0 to 59, hour 0 to 23, day of month 1 to 31, month index 0 to 11,
day of year 0 to 365 and daylight flag 0; its weekday is 0 to 6 when the day number of
`t` plus 4 fits an `int`, that is for `t < 86400 * 2147483644`. -/
theorem priv_gmtime_canonical (t : Int) (h0 : 0 ≤ t) :
    ∃ r, priv_gmtime t = some r ∧ (0 ≤ r.tm_sec ∧ r.tm_sec ≤ 59) ∧
      (0 ≤ r.tm_min ∧ r.tm_min ≤ 59) ∧ (0 ≤ r.tm_hour ∧ r.tm_hour ≤ 23) ∧
      (1 ≤ r.tm_mday ∧ r.tm_mday ≤ 31) ∧ (0 ≤ r.tm_mon ∧ r.tm_mon ≤ 11) ∧
      (0 ≤ r.tm_yday ∧ r.tm_yday ≤ 365) ∧ r.tm_isdst = 0 ∧
      (t < 86400 * 2147483644 → 0 ≤ r.tm_wday ∧ r.tm_wday ≤ 6) := by
  have hM : 0 ≤ cdiv t 60 := by
    rw [cdiv_nonneg t 60 h0 (by decide)]; exact Int.ediv_nonneg h0 (by decide)
  have hH : 0 ≤ cdiv (cdiv t 60) 60 := by
    rw [cdiv_nonneg _ 60 hM (by decide)]; exact Int.ediv_nonneg hM (by decide)
  have s0 : 0 ≤ cmod t 60 := by
    rw [cmod_nonneg t 60 h0 (by decide)]; exact Int.emod_nonneg _ (by decide)
  have s1 : cmod t 60 < 60 := by
    rw [cmod_nonneg t 60 h0 (by decide)]; exact Int.emod_lt_of_pos _ (by decide)
  have m0 : 0 ≤ cmod (cdiv t 60) 60 := by
    rw [cmod_nonneg _ 60 hM (by decide)]; exact Int.emod_nonneg _ (by decide)
  have m1 : cmod (cdiv t 60) 60 < 60 := by
    rw [cmod_nonneg _ 60 hM (by decide)]; exact Int.emod_lt_of_pos _ (by decide)
  have x0 : 0 ≤ cmod (cdiv (cdiv t 60) 60) HOURS_4_YEAR := by
    rw [cmod_nonneg _ _ hH (by decide)]; exact Int.emod_nonneg _ (by decide)
  have hwd : t < 86400 * 2147483644 →
      0 ≤ cmod (wrapInt (cdiv (cdiv (cdiv t 60) 60) 24 + 4)) 7 ∧
      cmod (wrapInt (cdiv (cdiv (cdiv t 60) 60) 24 + 4)) 7 ≤ 6 := by
    intro h1
    rw [wday_of_day_number t h0 h1]
    have := Int.emod_lt_of_pos (t / 86400 + 4) (show (0 : Int) < 7 by decide)
    exact ⟨Int.emod_nonneg _ (by decide), by linarith⟩
  dsimp only [priv_gmtime]
  generalize cmod (cdiv (cdiv t 60) 60) HOURS_4_YEAR = ts at x0 ⊢
  generalize wrapInt (wrapUInt (wrapUInt (wrapUInt (cdiv (cdiv (cdiv t 60) 60) HOURS_4_YEAR)
    * 4) + 70)) = y0
  have hx := yearWalk_exit (ts.toNat / 8760 + 1) y0 ts (yearWalk_fuel ts)
  have hn := yearWalk_nonneg (ts.toNat / 8760 + 1) y0 ts x0
  generalize yearWalk (ts.toNat / 8760 + 1) y0 ts = w at hx hn ⊢
  have hw8 : w.2 < 8784 := by
    rcases one_year_hours_cases w.1 with e | e <;> rw [e] at hx <;> linarith [hx.1]
  have c0 : 0 ≤ w.2 / 24 := Int.ediv_nonneg hn (by decide)
  have c1 : w.2 / 24 < 366 := Int.ediv_lt_of_lt_mul (by decide) (by linarith)
  have r0 : 0 ≤ w.2 % 24 := Int.emod_nonneg _ (by decide)
  have r1 : w.2 % 24 < 24 := Int.emod_lt_of_pos _ (by decide)
  obtain ⟨p, hp⟩ := monthDay_some _ _ hx.1
  obtain ⟨mon, mday⟩ := p
  have hr := monthDay_range _ _ mon mday (by
    rw [cdiv_nonneg _ 24 hn (by decide)]; linarith) hp
  rw [hp]
  refine ⟨_, rfl, ?_, ?_, ?_, hr.2, hr.1, ?_, rfl, hwd⟩
  · dsimp only
    rw [wrapInt_id _ (by linarith) (by linarith)]
    exact ⟨s0, by linarith⟩
  · dsimp only
    rw [wrapInt_id _ (by linarith) (by linarith)]
    exact ⟨m0, by linarith⟩
  · dsimp only
    rw [cmod_nonneg _ 24 hn (by decide), wrapInt_id _ (by linarith) (by linarith)]
    exact ⟨r0, by linarith⟩
  · dsimp only
    rw [cdiv_nonneg _ 24 hn (by decide), add_sub_cancel_right,
      wrapInt_id _ (by linarith) (by linarith)]
    exact ⟨c0, by linarith⟩

theorem priv_gmtime_canonical_witness :
    ∃ r, priv_gmtime 951826530 = some r ∧ (0 ≤ r.tm_sec ∧ r.tm_sec ≤ 59) ∧
      (1 ≤ r.tm_mday ∧ r.tm_mday ≤ 31) ∧ (0 ≤ r.tm_wday ∧ r.tm_wday ≤ 6) := by
  obtain ⟨r, h, hs, _, _, hd, _, _, _, hw⟩ := priv_gmtime_canonical 951826530 (by decide)
  exact ⟨r, h, hs, hd, hw (by decide)⟩

/-! ## Encoding a decoded record, for the epoch values below 2^31 -/

/-- The year of a 4-year block that an hour count `x` of the block falls in. -/
theorem year_of_block_hours (f : Nat) (x : Int) (hx0 : 0 ≤ x) (hx : x < 35064) :
    ∃ k : Nat, k < 4 ∧ 0 ≤ x - 24 * blockOffset k ∧
      x - 24 * blockOffset k < one_year_hours (70 + 4 * (f : Int) + (k : Int)) := by
  have b0 : blockOffset 0 = 0 := by decide
  have b1 : blockOffset 1 = 365 := by decide
  have b2 : blockOffset 2 = 730 := by decide
  have b3 : blockOffset 3 = 1096 := by decide
  by_cases h1 : x < 8760
  · refine ⟨0, by decide, by rw [b0]; linarith, ?_⟩
    rw [one_year_hours_block f 0, b0, if_neg (by decide)]
    linarith
  · by_cases h2 : x < 17520
    · refine ⟨1, by decide, by rw [b1]; linarith [not_lt.mp h1], ?_⟩
      rw [one_year_hours_block f 1, b1, if_neg (by decide)]
      linarith
    · by_cases h3 : x < 26304
      · refine ⟨2, by decide, by rw [b2]; linarith [not_lt.mp h2], ?_⟩
        rw [one_year_hours_block f 2, b2, if_pos (by decide)]
        linarith
      · refine ⟨3, by decide, by rw [b3]; linarith [not_lt.mp h3], ?_⟩
        rw [one_year_hours_block f 3, b3, if_neg (by decide)]
        linarith

/-- An epoch value that is not negative, split into the 4-year block, the year of the
block, the day of the year, and the hour, minute and second of the day. -/
theorem parts_of_epoch (T : Int) (h0 : 0 ≤ T) (h1 : T < 126230400000000) :
    ∃ (f k : Nat) (yd h mi s : Int), f < 1000000 ∧ k < 4 ∧ 0 ≤ yd ∧
      24 * yd + h < one_year_hours (70 + 4 * (f : Int) + (k : Int)) ∧
      (0 ≤ h ∧ h < 24) ∧ (0 ≤ mi ∧ mi < 60) ∧ (0 ≤ s ∧ s < 60) ∧
      T = 86400 * (1461 * (f : Int) + blockOffset k + yd) + 3600 * h + 60 * mi + s := by
  have eT : 60 * (T / 60) + T % 60 = T := Int.ediv_add_emod T 60
  have s0 : 0 ≤ T % 60 := Int.emod_nonneg _ (by decide)
  have s1 : T % 60 < 60 := Int.emod_lt_of_pos _ (by decide)
  have hM : 0 ≤ T / 60 := Int.ediv_nonneg h0 (by decide)
  generalize T / 60 = M at eT hM
  have eM : 60 * (M / 60) + M % 60 = M := Int.ediv_add_emod M 60
  have m0 : 0 ≤ M % 60 := Int.emod_nonneg _ (by decide)
  have m1 : M % 60 < 60 := Int.emod_lt_of_pos _ (by decide)
  have hH : 0 ≤ M / 60 := Int.ediv_nonneg hM (by decide)
  generalize M / 60 = H at eM hH
  have eH : 35064 * (H / 35064) + H % 35064 = H := Int.ediv_add_emod H 35064
  have x0 : 0 ≤ H % 35064 := Int.emod_nonneg _ (by decide)
  have x1 : H % 35064 < 35064 := Int.emod_lt_of_pos _ (by decide)
  have hF : 0 ≤ H / 35064 := Int.ediv_nonneg hH (by decide)
  obtain ⟨f, ef⟩ := Int.eq_ofNat_of_zero_le hF
  rw [ef] at eH
  have hf : f < 1000000 := by
    have : (f : Int) < 1000000 := by linarith
    exact_mod_cast this
  obtain ⟨k, hk, k0, k1⟩ := year_of_block_hours f (H % 35064) x0 x1
  generalize H % 35064 = x at eH k0 k1
  have eX : 24 * ((x - 24 * blockOffset k) / 24) + (x - 24 * blockOffset k) % 24
      = x - 24 * blockOffset k := Int.ediv_add_emod _ 24
  have c0 : 0 ≤ (x - 24 * blockOffset k) % 24 := Int.emod_nonneg _ (by decide)
  have c1 : (x - 24 * blockOffset k) % 24 < 24 := Int.emod_lt_of_pos _ (by decide)
  have d0 : 0 ≤ (x - 24 * blockOffset k) / 24 := Int.ediv_nonneg k0 (by decide)
  exact ⟨f, k, (x - 24 * blockOffset k) / 24, (x - 24 * blockOffset k) % 24, M % 60, T % 60,
    hf, hk, d0, by rw [eX]; exact k1, ⟨c0, c1⟩, ⟨m0, m1⟩, ⟨s0, s1⟩, by linarith⟩

theorem leap_month_facts : ∀ i : Nat, i < 12 →
    daysInMonth 0 i ≤ daysInMonth 1 i ∧ daysInMonth 1 1 = 29 := by
  decide

/-- Decoding the date and encoding it within a year: the month and day that the end of
`priv_gmtime` derives from day `yd` of the year (counted from 0) are a day of the
calendar, and `days_from_1jan` maps them back to `yd`, when the decoder's leap test
`tmy & 3` agrees with `is_leap`. -/
theorem monthDay_inv (Y tmy L yd mon mday : Int) (hL : is_leap Y = L)
    (hL01 : L = 0 ∨ L = 1) (h4 : tmy % 4 = 0 ↔ L = 1) (hyd : 0 ≤ yd)
    (h : monthDay tmy (yd + 1) = some (mon, mday)) :
    days_from_1jan Y (wrapInt (mon + 1)) mday = some yd ∧ (0 ≤ mon ∧ mon ≤ 11) ∧
      (1 ≤ mday ∧ mday ≤ daysInMonth L mon) := by
  have hm : ∀ i : Nat, i < 12 → wrapInt (wrapInt ((i : Int) + 1) - 1) = i := by
    intro i hi
    have i0 : (0 : Int) ≤ i := Int.ofNat_nonneg i
    have i1 : (i : Int) < 12 := by exact_mod_cast hi
    rw [wrapInt_id ((i : Int) + 1) (by linarith) (by linarith),
      wrapInt_id _ (by linarith) (by linarith)]
    ring
  have rng : ∀ i : Nat, i < 12 → (0 : Int) ≤ i ∧ (i : Int) ≤ 11 := by
    intro i hi
    have i1 : (i : Int) < 12 := by exact_mod_cast hi
    exact ⟨Int.ofNat_nonneg i, by linarith⟩
  rcases hL01 with rfl | rfl
  · have hy : ¬ tmy % 4 = 0 := fun h => absurd (h4.mp h) (by decide)
    unfold monthDay at h
    rw [if_neg hy] at h
    obtain ⟨i, hi, rfl, e2, e3, e4⟩ := monthOf_inv _ mon mday (by linarith) h
    obtain ⟨f1, f2, f3, f4, f5, f6, f7, f8, f9, f10, f11, f12, f13⟩ := g_days_rows i hi
    refine ⟨?_, rng i hi, e3, e4⟩
    rw [days_from_1jan_eq Y _ mday _ _ (by rw [hL]; exact f1) (by rw [hm i hi]; exact f3),
      wrapInt_id (daysBefore i + mday) (by linarith) (by linarith),
      wrapInt_id _ (by linarith) (by linarith)]
    exact congrArg some (by linarith)
  · have hy : tmy % 4 = 0 := h4.mpr rfl
    unfold monthDay at h
    rw [if_pos hy] at h
    split at h
    · rename_i h60
      obtain ⟨i, hi, rfl, e2, e3, e4⟩ := monthOf_inv _ mon mday (by linarith) h
      obtain ⟨f1, f2, f3, f4, f5, f6, f7, f8, f9, f10, f11, f12, f13⟩ := g_days_rows i hi
      have h2i : 2 ≤ i := by
        by_contra hc
        have := (row2_facts i hi).2 (by
          have : i < 2 := not_le.mp hc
          exact Nat.lt_succ_iff.mp this)
        linarith
      have hne : i ≠ 1 := by
        intro h; rw [h] at h2i; exact absurd h2i (by decide)
      refine ⟨?_, rng i hi, e3, by rw [f11 hne]; exact e4⟩
      rw [days_from_1jan_eq Y _ mday _ _ (by rw [hL]; exact f2) (by rw [hm i hi]; exact f4),
        if_pos h2i,
        wrapInt_id (daysBefore i + 1 + mday) (by linarith) (by linarith),
        wrapInt_id _ (by linarith) (by linarith)]
      exact congrArg some (by linarith)
    · split at h
      · rename_i h60 e60
        simp only [Option.some.injEq, Prod.mk.injEq] at h
        obtain ⟨rfl, rfl⟩ := h
        refine ⟨?_, by decide, by decide⟩
        rw [days_from_1jan_eq Y _ 29 [0, 31, 60, 91, 121, 152, 182, 213, 244, 274, 305, 335] 31
          (by rw [hL]; decide) (by decide)]
        exact congrArg some (by
          have : wrapInt (wrapInt (31 + 29) - 1) = 59 := by decide
          rw [this]; linarith)
      · rename_i h60 e60
        obtain ⟨i, hi, rfl, e2, e3, e4⟩ := monthOf_inv _ mon mday (by linarith) h
        obtain ⟨f1, f2, f3, f4, f5, f6, f7, f8, f9, f10, f11, f12, f13⟩ := g_days_rows i hi
        have h2i : ¬ 2 ≤ i := by
          intro hc
          have := f8 hc
          have hlt : yd + 1 < 60 := lt_of_le_of_ne (not_lt.mp h60) e60
          linarith
        have hle := (leap_month_facts i hi).1
        refine ⟨?_, rng i hi, e3, by linarith⟩
        rw [days_from_1jan_eq Y _ mday _ _ (by rw [hL]; exact f2) (by rw [hm i hi]; exact f4),
          if_neg h2i, add_zero,
          wrapInt_id (daysBefore i + mday) (by linarith) (by linarith),
          wrapInt_id _ (by linarith) (by linarith)]
        exact congrArg some (by linarith)

/-- The decoder's leap test `tm_year & 3` agrees with `is_leap` on the years 1970 to
2097. -/
theorem leap_test_agrees (f k : Nat) (hf : f < 32) (hk : k < 4) :
    (70 + 4 * (f : Int) + (k : Int)) % 4 = 0 ↔ is_leap (1970 + 4 * (f : Int) + (k : Int)) = 1 := by
  have e : (70 + 4 * (f : Int) + (k : Int)) % 4 = (((k + 2) % 4 : Nat) : Int) := by
    have : 70 + 4 * (f : Int) + (k : Int) = ((k + 2 : Nat) : Int) + 4 * ((f : Int) + 17) := by
      push_cast; ring
    rw [this, Int.add_mul_emod_self_left]
    norm_cast
  rw [e, (year_facts f (lt_trans hf (by decide)) k hk).2]
  simp only [hf, and_true]
  interval_cases k <;> decide

/-- The value that `priv_mktime` returns under zone offset `z` for a record of year `k` of
the block `f` whose day of the year is `yd`, when the second count of the record is below
2^31: no operation wraps. -/
theorem priv_mktime_of_parts_zone (z : Int) (hz : -2147483648 ≤ z ∧ z < 2147483648) (r : tm)
    (f k : Nat) (hf : f < 32) (hk : k < 4)
    (hr : r.tm_year = 70 + 4 * (f : Int) + (k : Int)) (yd : Int)
    (hyd : days_from_1jan (1970 + 4 * (f : Int) + (k : Int)) (wrapInt (r.tm_mon + 1)) r.tm_mday
      = some yd)
    (hyd0 : 0 ≤ yd ∧ yd ≤ 365) (hh : 0 ≤ r.tm_hour ∧ r.tm_hour ≤ 23)
    (hmi : 0 ≤ r.tm_min ∧ r.tm_min ≤ 59) (hs : 0 ≤ r.tm_sec ∧ r.tm_sec ≤ 59)
    (hT : 86400 * (1461 * (f : Int) + blockOffset k + yd) + 3600 * r.tm_hour + 60 * r.tm_min
      + r.tm_sec < 2147483648) :
    priv_mktime z r = some (86400 * (1461 * (f : Int) + blockOffset k + yd)
      + 3600 * r.tm_hour + 60 * r.tm_min + r.tm_sec - z) := by
  have f0 : (0 : Int) ≤ f := Int.ofNat_nonneg f
  have f1 : (f : Int) ≤ 31 := by
    have : (f : Int) < 32 := by exact_mod_cast hf
    linarith
  have k0 : (0 : Int) ≤ k := Int.ofNat_nonneg k
  have k1 : (k : Int) < 4 := by exact_mod_cast hk
  obtain ⟨b0, b1⟩ := blockOffset_bounds k hk
  obtain ⟨c1, c2, c3⟩ := seconds_constants
  have eY : wrapInt (r.tm_year + 1900) = 1970 + 4 * (f : Int) + (k : Int) := by
    rw [hr, wrapInt_id _ (by linarith) (by linarith)]; ring
  have eD : days_from_1970 (1970 + 4 * (f : Int) + (k : Int))
      = 1461 * (f : Int) + blockOffset k := by
    rw [(year_facts f (by linarith) k hk).1,
      if_neg (fun h => absurd hf (not_lt.mpr h.1))]
    ring
  dsimp only [priv_mktime]
  rw [eY, hyd]
  dsimp only
  rw [eD, c1, c2, c3,
    wrapInt_id (1461 * (f : Int) + blockOffset k + yd) (by linarith) (by linarith),
    wrapInt_id (86400 * (1461 * (f : Int) + blockOffset k + yd)) (by linarith) (by linarith),
    wrapInt_id (3600 * r.tm_hour) (by linarith) (by linarith),
    wrapInt_id (60 * r.tm_min) (by linarith) (by linarith),
    wrapInt_id (86400 * (1461 * (f : Int) + blockOffset k + yd) + 3600 * r.tm_hour)
      (by linarith) (by linarith),
    wrapInt_id (86400 * (1461 * (f : Int) + blockOffset k + yd) + 3600 * r.tm_hour
      + 60 * r.tm_min) (by linarith) (by linarith),
    wrapInt_id (86400 * (1461 * (f : Int) + blockOffset k + yd) + 3600 * r.tm_hour
      + 60 * r.tm_min + r.tm_sec) (by linarith) (by linarith),
    wrapTime_id _ (by linarith) (by linarith)]

/-- The record that `priv_gmtime` returns for an epoch value `T` from 0 to 2^31 - 1: its
year is year `k` of the 4-year block `f`, its fields are in canonical ranges, its day of
the year is the one that `days_from_1jan` computes from its month and day, its weekday
is the day number plus 4 modulo 7, and `T` is its second count. -/
theorem priv_gmtime_below_2_31 (T : Int) (h0 : 0 ≤ T) (h1 : T < 2147483648) :
    ∃ (f k : Nat) (r : tm), f < 18 ∧ k < 4 ∧ priv_gmtime T = some r ∧
      r.tm_year = 70 + 4 * (f : Int) + (k : Int) ∧
      days_from_1970 (1970 + 4 * (f : Int) + (k : Int)) = 1461 * (f : Int) + blockOffset k ∧
      (0 ≤ r.tm_yday ∧ r.tm_yday ≤ 365) ∧
      r.tm_wday = (1461 * (f : Int) + blockOffset k + r.tm_yday + 4) % 7 ∧
      days_from_1jan (1970 + 4 * (f : Int) + (k : Int)) (wrapInt (r.tm_mon + 1)) r.tm_mday
        = some r.tm_yday ∧
      Canonical r ∧ r.tm_isdst = 0 ∧
      T = 86400 * (1461 * (f : Int) + blockOffset k + r.tm_yday) + 3600 * r.tm_hour
        + 60 * r.tm_min + r.tm_sec := by
  obtain ⟨f, k, yd, h, mi, s, hf, hk, hyd, hyh, hh, hmi, hs, eT⟩ :=
    parts_of_epoch T h0 (by linarith)
  obtain ⟨b0, b1⟩ := blockOffset_bounds k hk
  have f0 : (0 : Int) ≤ f := Int.ofNat_nonneg f
  have hf18 : f < 18 := by
    have : (f : Int) < 18 := by linarith [hh.1, hmi.1, hs.1]
    exact_mod_cast this
  have hf32 : f < 32 := lt_trans hf18 (by decide)
  have f1 : (f : Int) < 18 := by exact_mod_cast hf18
  have o8 : one_year_hours (70 + 4 * (f : Int) + (k : Int)) ≤ 8784 := by
    rcases one_year_hours_cases (70 + 4 * (f : Int) + (k : Int)) with e | e <;> simp [e]
  have hyd365 : yd ≤ 365 := by linarith [hh.1]
  obtain ⟨p, hp⟩ := monthDay_some (70 + 4 * (f : Int) + (k : Int)) (24 * yd + h) hyh
  obtain ⟨mon, mday⟩ := p
  rw [(cdiv_cmod_of_decomp 24 yd h hyd hh.1 hh.2).1] at hp
  have hgm := priv_gmtime_of_parts f k hf hk yd h mi s mon mday hyd hyh hh hmi hs hp
  rw [← eT] at hgm
  obtain ⟨i1, i2, i3⟩ := monthDay_inv (1970 + 4 * (f : Int) + (k : Int))
    (70 + 4 * (f : Int) + (k : Int)) _ yd mon mday rfl (is_leap_cases _)
    (leap_test_agrees f k hf32 hk) hyd hp
  have eD : days_from_1970 (1970 + 4 * (f : Int) + (k : Int))
      = 1461 * (f : Int) + blockOffset k := by
    rw [(year_facts f (lt_trans hf32 (by decide)) k hk).1,
      if_neg (fun h => absurd hf32 (not_lt.mpr h.1))]
    ring
  refine ⟨f, k, _, hf18, hk, hgm, rfl, eD, ⟨hyd, hyd365⟩, ?_, i1, ?_, rfl, eT⟩
  · show cmod (wrapInt (1461 * (f : Int) + blockOffset k + yd + 4)) 7 = _
    rw [wrapInt_id _ (by linarith) (by linarith), cmod_nonneg _ 7 (by linarith) (by decide)]
  · refine ⟨i2, ?_, ⟨hh.1, by linarith [hh.2]⟩, ⟨hmi.1, by linarith [hmi.2]⟩,
      ⟨hs.1, by linarith [hs.2]⟩⟩
    show 1 ≤ mday ∧ mday ≤ daysInMonth (is_leap (70 + 4 * (f : Int) + (k : Int) + 1900)) mon
    rw [show 70 + 4 * (f : Int) + (k : Int) + 1900 = 1970 + 4 * (f : Int) + (k : Int) by ring]
    exact i3

/-- Claim C16.  For every zone offset `z` (an `int`) and every epoch value `t` with
`0 ≤ t + z < 2^31`, `priv_localtime` under `z` returns a record, the one that
`priv_gmtime` returns for `t + z`, and `priv_mktime` under the same `z` maps that record
back to `t`; with `z = 0` this is `priv_mktime(priv_gmtime(t)) = t`. -/
theorem priv_mktime_localtime (z t : Int) (hz : -2147483648 ≤ z ∧ z < 2147483648)
    (h : 0 ≤ t + z ∧ t + z < 2147483648) :
    ∃ r, priv_localtime z t = some r ∧ priv_gmtime (t + z) = some r ∧
      priv_mktime z r = some t := by
  obtain ⟨f, k, r, hf, hk, hgm, hy, _, hyd, _, h1j, hc, _, eT⟩ :=
    priv_gmtime_below_2_31 (t + z) h.1 h.2
  obtain ⟨_, _, hh, hmi, hs⟩ := hc
  refine ⟨r, ?_, hgm, ?_⟩
  · simp only [priv_localtime, wrapTime_id (t + z) (by linarith [h.1]) (by linarith [h.2])]
    exact hgm
  · rw [priv_mktime_of_parts_zone z hz r f k (lt_trans hf (by decide)) hk hy r.tm_yday h1j hyd
      hh hmi hs (by rw [← eT]; exact h.2), ← eT]
    exact congrArg some (by ring)

theorem priv_mktime_localtime_witness :
    priv_localtime 28800 951797730 = some tm_2000_02_29 ∧
    priv_mktime 28800 tm_2000_02_29 = some 951797730 := by
  obtain ⟨r, h1, _, h3⟩ := priv_mktime_localtime 28800 951797730 (by decide) (by decide)
  have e : priv_localtime 28800 951797730 = some tm_2000_02_29 := by decide
  rw [e] at h1
  cases h1
  exact ⟨e, h3⟩

/-- Claim C17.  For every epoch value `t` with `0 ≤ t < 2^31`, the record `r` that
`priv_gmtime` returns has `r.tm_yday = days_from_1jan(r.tm_year + 1900, r.tm_mon + 1,
r.tm_mday)` and `r.tm_wday = (days_from_1970(r.tm_year + 1900) + r.tm_yday + 4) mod 7`. -/
theorem priv_gmtime_derived_fields (t : Int) (h0 : 0 ≤ t) (h1 : t < 2147483648) :
    ∃ r, priv_gmtime t = some r ∧
      days_from_1jan (r.tm_year + 1900) (r.tm_mon + 1) r.tm_mday = some r.tm_yday ∧
      r.tm_wday = (days_from_1970 (r.tm_year + 1900) + r.tm_yday + 4) % 7 := by
  obtain ⟨f, k, r, _, _, hgm, hy, eD, _, hwd, h1j, hc, _, _⟩ := priv_gmtime_below_2_31 t h0 h1
  have eY : r.tm_year + 1900 = 1970 + 4 * (f : Int) + (k : Int) := by rw [hy]; ring
  have hm1 : wrapInt (r.tm_mon + 1) = r.tm_mon + 1 :=
    wrapInt_id _ (by linarith [hc.1.1]) (by linarith [hc.1.2])
  refine ⟨r, hgm, ?_, ?_⟩
  · rw [eY, ← hm1]
    exact h1j
  · rw [eY, eD]
    exact hwd

theorem priv_gmtime_derived_fields_witness :
    ∃ r, priv_gmtime 951826530 = some r ∧
      days_from_1jan (r.tm_year + 1900) (r.tm_mon + 1) r.tm_mday = some r.tm_yday ∧
      r.tm_wday = (days_from_1970 (r.tm_year + 1900) + r.tm_yday + 4) % 7 :=
  priv_gmtime_derived_fields 951826530 (by decide) (by decide)

/-! ## The exact second count and the wrap of the `int` product -/

/-- The exact second count on the years 1970 to 2037: under zone offset 0, for a record
in canonical ranges of such a year, `priv_mktime` returns `days_since_epoch * 86400
+ hour * 3600 + minute * 60 + second` with `days_since_epoch = days_from_1970(year)
+ days_from_1jan(year, month, day)`, and no operation wraps. -/
theorem priv_mktime_exact_1970_2037 (r : tm) (hc : Canonical r)
    (hy : 1970 ≤ r.tm_year + 1900 ∧ r.tm_year + 1900 ≤ 2037) :
    ∃ d, days_from_1jan (r.tm_year + 1900) (r.tm_mon + 1) r.tm_mday = some d ∧
      priv_mktime 0 r = some ((days_from_1970 (r.tm_year + 1900) + d) * 86400
        + r.tm_hour * 3600 + r.tm_min * 60 + r.tm_sec) := by
  obtain ⟨t, q, h1, _, _, h2, _, _, _, _, _, _, h3, _⟩ := priv_gmtime_mktime_1970_2037 r hc hy
  obtain ⟨hmon, hd, hh, hmi, hs⟩ := hc
  obtain ⟨n, hn⟩ := Int.eq_ofNat_of_zero_le (show 0 ≤ r.tm_year - 70 by linarith [hy.1])
  have hn67 : n < 68 := by
    have : (n : Int) < 68 := by rw [← hn]; linarith [hy.2]
    exact_mod_cast this
  have hk : n % 4 < 4 := Nat.mod_lt _ (by decide)
  have hf : n / 4 < 17 := Nat.div_lt_of_lt_mul (by linarith)
  have hr : r.tm_year = 70 + 4 * ((n / 4 : Nat) : Int) + ((n % 4 : Nat) : Int) := by
    have e : (n : Int) = 4 * ((n / 4 : Nat) : Int) + ((n % 4 : Nat) : Int) := by
      exact_mod_cast (Nat.div_add_mod n 4).symm
    linarith
  have eY : r.tm_year + 1900 = 1970 + 4 * ((n / 4 : Nat) : Int) + ((n % 4 : Nat) : Int) := by
    rw [hr]; ring
  have hm1 : wrapInt (r.tm_mon + 1) = r.tm_mon + 1 :=
    wrapInt_id _ (by linarith [hmon.1]) (by linarith [hmon.2])
  have eD : days_from_1970 (1970 + 4 * ((n / 4 : Nat) : Int) + ((n % 4 : Nat) : Int))
      = 1461 * ((n / 4 : Nat) : Int) + blockOffset (n % 4) := by
    rw [(year_facts (n / 4) (lt_trans hf (by decide)) (n % 4) hk).1,
      if_neg (fun h => absurd (lt_of_lt_of_le hf (by decide : 17 ≤ 32)) (not_lt.mpr h.1))]
    ring
  have hq : 0 ≤ q.tm_yday ∧ q.tm_yday ≤ 365 := by
    obtain ⟨yd, y1, y2, y3, _⟩ := month_roundtrip (r.tm_year + 1900) r.tm_year
      (is_leap (r.tm_year + 1900)) r.tm_mon r.tm_mday rfl (is_leap_cases _)
      (by rw [eY, hr]; exact leap_test_agrees _ _ (lt_trans hf (by decide)) hk) hmon hd
    rw [hm1, h3] at y1
    have e := Option.some.inj y1
    rw [e]
    rcases is_leap_cases (r.tm_year + 1900) with l | l <;> rw [l] at y3 <;>
      exact ⟨y2, by linarith⟩
  refine ⟨q.tm_yday, h3, ?_⟩
  rw [priv_mktime_of_parts r (n / 4) (n % 4) hf hk hr q.tm_yday
    (by rw [← eY, hm1]; exact h3) hq hh hmi hs, eY, eD]
  exact congrArg some (by ring)

/-- Claim C19, at a failing input.  The record 19 January 2038 03:14:08 is in canonical
ranges and its year is within 1970 to 9999; `days_from_1970(2038)` is 24837 and
`days_from_1jan(2038, 1, 19)` is 18, so its second count is 2147483648; under zone offset
0 `priv_mktime` returns -2147483648, the `int` product and sums having wrapped.  One
second earlier the value returned is the second count 2147483647. -/
theorem priv_mktime_wraps_2038_01_19 :
    Canonical tm_2038_01_19 ∧ tm_2038_01_19.tm_year + 1900 = 2038 ∧
    days_from_1970 2038 = 24837 ∧ days_from_1jan 2038 1 19 = some 18 ∧
    (24837 + 18) * 86400 + 3 * 3600 + 14 * 60 + 8 = (2147483648 : Int) ∧
    priv_mktime 0 tm_2038_01_19 = some (-2147483648) ∧
    priv_mktime 0 { tm_2038_01_19 with tm_sec := 7 } = some 2147483647 := by
  decide

/-! ## The day count and the leap-year predicate -/

/-- The quotient by `k` steps by 1 from `Y - 1` to `Y` exactly when `k` divides `Y`. -/
theorem ediv_step (Y k : Int) (hk : 0 < k) :
    Y / k - (Y - 1) / k = if Y % k = 0 then 1 else 0 := by
  have hdec : k * (Y / k) + Y % k = Y := Int.ediv_add_emod Y k
  have r0 : 0 ≤ Y % k := Int.emod_nonneg _ (ne_of_gt hk)
  have r1 : Y % k < k := Int.emod_lt_of_pos _ hk
  by_cases h : Y % k = 0
  · rw [if_pos h]
    have := (Int.ediv_emod_unique hk).mpr (show k - 1 + k * (Y / k - 1) = Y - 1 ∧ 0 ≤ k - 1 ∧
      k - 1 < k from ⟨by linear_combination hdec - h, by linarith, by linarith⟩)
    rw [this.1]
    ring
  · rw [if_neg h]
    have hpos : 1 ≤ Y % k := by
      have := lt_of_le_of_ne r0 (Ne.symm h)
      linarith
    have := (Int.ediv_emod_unique hk).mpr (show Y % k - 1 + k * (Y / k) = Y - 1 ∧
      0 ≤ Y % k - 1 ∧ Y % k - 1 < k from ⟨by linear_combination hdec, by linarith, by linarith⟩)
    rw [this.1]
    ring

/-- The value of `days_from_0` for the year after `Y`, while it fits an `int`: no
operation wraps. -/
theorem days_from_0_eq (Y : Int) (h0 : 0 ≤ Y) (h1 : Y ≤ 5879610) :
    days_from_0 (Y + 1) = 365 * Y + Y / 400 - Y / 100 + Y / 4 := by
  have e400 : 400 * (Y / 400) + Y % 400 = Y := Int.ediv_add_emod Y 400
  have e100 : 100 * (Y / 100) + Y % 100 = Y := Int.ediv_add_emod Y 100
  have e4 : 4 * (Y / 4) + Y % 4 = Y := Int.ediv_add_emod Y 4
  have a0 : 0 ≤ Y % 400 := Int.emod_nonneg _ (by decide)
  have a1 : Y % 400 < 400 := Int.emod_lt_of_pos _ (by decide)
  have b0 : 0 ≤ Y % 100 := Int.emod_nonneg _ (by decide)
  have b1 : Y % 100 < 100 := Int.emod_lt_of_pos _ (by decide)
  have c0 : 0 ≤ Y % 4 := Int.emod_nonneg _ (by decide)
  have c1 : Y % 4 < 4 := Int.emod_lt_of_pos _ (by decide)
  unfold days_from_0
  simp only [add_sub_cancel_right]
  rw [wrapInt_id Y (by linarith) (by linarith), if_neg (not_lt.mpr h0),
    cdiv_nonneg Y 400 h0 (by decide), cdiv_nonneg Y 100 h0 (by decide),
    cdiv_nonneg Y 4 h0 (by decide),
    wrapInt_id (365 * Y) (by linarith) (by linarith),
    wrapInt_id (365 * Y + Y / 400) (by linarith) (by linarith),
    wrapInt_id (365 * Y + Y / 400 - Y / 100) (by linarith) (by linarith),
    wrapInt_id (365 * Y + Y / 400 - Y / 100 + Y / 4) (by linarith) (by linarith)]

theorem days_from_0_step (Y : Int) (h1 : 1 ≤ Y) (h2 : Y ≤ 5879610) :
    days_from_0 (Y + 1) - days_from_0 Y = yearLength Y := by
  have e1 := days_from_0_eq Y (by linarith) h2
  have e2 := days_from_0_eq (Y - 1) (by linarith) (by linarith)
  rw [sub_add_cancel] at e2
  have s400 := ediv_step Y 400 (by decide)
  have s100 := ediv_step Y 100 (by decide)
  have s4 := ediv_step Y 4 (by decide)
  have d100 : Y % 400 = 0 → Y % 100 = 0 := by
    intro h
    have := Int.emod_emod_of_dvd Y (show (100 : Int) ∣ 400 by decide)
    rw [h] at this
    rw [← this]; rfl
  have d4 : Y % 100 = 0 → Y % 4 = 0 := by
    intro h
    have := Int.emod_emod_of_dvd Y (show (4 : Int) ∣ 100 by decide)
    rw [h] at this
    rw [← this]; rfl
  unfold yearLength is_leap
  rw [cmod_nonneg Y 400 (by linarith) (by decide), cmod_nonneg Y 100 (by linarith) (by decide),
    cmod_nonneg Y 4 (by linarith) (by decide), e1, e2]
  by_cases h400 : Y % 400 = 0
  · have h100 := d100 h400
    have h4 := d4 h100
    rw [if_pos h400] at s400 ⊢
    rw [if_pos h100] at s100
    rw [if_pos h4] at s4
    rw [if_pos rfl]
    linarith
  · rw [if_neg h400] at s400 ⊢
    by_cases h100 : Y % 100 = 0
    · have h4 := d4 h100
      rw [if_pos h100] at s100 ⊢
      rw [if_pos h4] at s4
      rw [if_neg (by decide)]
      linarith
    · rw [if_neg h100] at s100 ⊢
      by_cases h4 : Y % 4 = 0
      · rw [if_pos h4] at s4 ⊢
        rw [if_pos rfl]
        linarith
      · rw [if_neg h4] at s4 ⊢
        rw [if_neg (by decide)]
        linarith

theorem yearLength_pos (y : Int) : 0 < yearLength y := by
  unfold yearLength
  split <;> decide

theorem days_from_0_sum (n : Nat) : 1970 + (n : Int) ≤ 5879611 →
    days_from_0 (1970 + (n : Int)) - days_from_0 1970
      = Finset.sum (Finset.range n) (fun i => yearLength (1970 + (i : Int))) := by
  induction n with
  | zero => intro _; simp
  | succ n ih =>
    intro h
    push_cast at h
    have n0 : (0 : Int) ≤ n := Int.ofNat_nonneg n
    have hs := days_from_0_step (1970 + (n : Int)) (by linarith) (by linarith)
    rw [Finset.sum_range_succ, ← ih (by linarith), ← hs]
    push_cast
    ring_nf

/-- Claim C20, at an input where it fails.  The year 5879611 is not leap, and the day
count of the year after it, 2147483820, does not fit an `int`: `days_from_0` returns the
wrapped value -2147483476 for 5879612, so the difference to `days_from_0(5879611)` is
not 365. -/
theorem days_from_0_wraps_5879611 :
    is_leap 5879611 = 0 ∧ days_from_0 5879611 = 2147483455 ∧
    days_from_0 5879612 = -2147483476 ∧
    days_from_0 (5879611 + 1) - days_from_0 5879611 ≠ yearLength 5879611 := by
  decide

/-- Claim C20, amended.  For every year `Y` from 1 to 5879610, the years whose day count
`days_from_0(Y + 1)` fits an `int`, `days_from_0(Y + 1) - days_from_0(Y)` is 366 when
`is_leap(Y) = 1` and 365 otherwise; for every year `1970 + n` up to 5879611,
`days_from_1970(1970 + n)` is the sum of the lengths of the years 1970, ..., `1970 + n - 1`;
and `days_from_1970(1970) = 0`. -/
theorem days_from_0_agrees_with_is_leap (Y : Int) (n : Nat) (h1 : 1 ≤ Y) (h2 : Y ≤ 5879610)
    (hn : 1970 + (n : Int) ≤ 5879611) :
    days_from_0 (Y + 1) - days_from_0 Y = (if is_leap Y = 1 then 366 else 365) ∧
    days_from_1970 (1970 + (n : Int))
      = Finset.sum (Finset.range n)
          (fun i => if is_leap (1970 + (i : Int)) = 1 then (366 : Int) else 365) ∧
    days_from_1970 1970 = 0 := by
  refine ⟨days_from_0_step Y h1 h2, ?_, by decide⟩
  have hsum := days_from_0_sum n hn
  have hpos : 0 ≤ Finset.sum (Finset.range n) (fun i => yearLength (1970 + (i : Int))) :=
    Finset.sum_nonneg (fun i _ => le_of_lt (yearLength_pos _))
  have e0 : days_from_0 1970 = 719162 := by decide
  have hd : days_from_0 (1970 + (n : Int)) < 2147483648 := by
    have n0 : (0 : Int) ≤ n := Int.ofNat_nonneg n
    have := days_from_0_eq (1970 + (n : Int) - 1) (by linarith) (by linarith)
    rw [sub_add_cancel] at this
    have e400 := Int.ediv_add_emod (1970 + (n : Int) - 1) 400
    have e100 := Int.ediv_add_emod (1970 + (n : Int) - 1) 100
    have e4 := Int.ediv_add_emod (1970 + (n : Int) - 1) 4
    have a0 := Int.emod_nonneg (1970 + (n : Int) - 1) (show (400 : Int) ≠ 0 by decide)
    have b1 := Int.emod_lt_of_pos (1970 + (n : Int) - 1) (show (0 : Int) < 100 by decide)
    have c0 := Int.emod_nonneg (1970 + (n : Int) - 1) (show (4 : Int) ≠ 0 by decide)
    rw [this]
    linarith
  unfold days_from_1970
  simp only
  rw [wrapInt_id _ (by rw [hsum]; linarith) (by rw [e0]; linarith)]
  exact hsum

theorem days_from_0_agrees_with_is_leap_witness :
    days_from_0 (2000 + 1) - days_from_0 2000 = 366 ∧
    days_from_1970 (1970 + ((3 : Nat) : Int)) = 365 + 365 + 366 ∧
    days_from_1970 1970 = 0 := by
  have h := days_from_0_agrees_with_is_leap 2000 3 (by decide) (by decide) (by decide)
  refine ⟨?_, ?_, h.2.2⟩
  · rw [h.1]; decide
  · rw [h.2.1]; decide

/-! ## The decoder is a bounded computation -/

/-- The loop that `priv_gmtime` runs is `yearWalk` from `yearWalkStart` under the bound
`yearWalkFuel`: the year of the record is the year at which that walk ends, and the month
and day are those that the end of the function derives from the hours left. -/
theorem priv_gmtime_walk (t : Int) (r : tm) (h : priv_gmtime t = some r) :
    r.tm_year = (yearWalk (yearWalkFuel t) (yearWalkStart t).1 (yearWalkStart t).2).1 ∧
    monthDay (yearWalk (yearWalkFuel t) (yearWalkStart t).1 (yearWalkStart t).2).1
      (cdiv (yearWalk (yearWalkFuel t) (yearWalkStart t).1 (yearWalkStart t).2).2 24 + 1)
      = some (r.tm_mon, r.tm_mday) := by
  dsimp only [priv_gmtime] at h
  dsimp only [yearWalkFuel, yearWalkStart]
  split at h
  · cases h
  · rename_i mon mday hmd
    cases h
    exact ⟨rfl, hmd⟩

theorem wrapInt_emod4 (a : Int) : wrapInt a % 4 = a % 4 := by
  have e : wrapInt a = a + 4 * (-(1073741824 * ((a + 2147483648) / 4294967296))) := by
    unfold wrapInt
    rw [Int.emod_def]
    ring
  rw [e, Int.add_mul_emod_self_left]

theorem wrapUInt_emod4 (a : Int) : wrapUInt a % 4 = a % 4 := by
  unfold wrapUInt
  exact Int.emod_emod_of_dvd a (by decide)

/-- The year from which the year loop starts is 2 modulo 4 (1970, 1974, ...), whatever the
block number, since the wraps are modulo 2^32. -/
theorem yearWalkStart_emod4 (t : Int) : (yearWalkStart t).1 % 4 = 2 := by
  dsimp only [yearWalkStart]
  rw [wrapInt_emod4, wrapUInt_emod4, Int.add_emod, wrapUInt_emod4, Int.mul_emod_left]
  rfl

theorem yearWalkStart_hours (t : Int) (h0 : 0 ≤ t) :
    0 ≤ (yearWalkStart t).2 ∧ (yearWalkStart t).2 < 35064 := by
  have hM : 0 ≤ cdiv t 60 := by
    rw [cdiv_nonneg t 60 h0 (by decide)]; exact Int.ediv_nonneg h0 (by decide)
  have hH : 0 ≤ cdiv (cdiv t 60) 60 := by
    rw [cdiv_nonneg _ 60 hM (by decide)]; exact Int.ediv_nonneg hM (by decide)
  dsimp only [yearWalkStart, HOURS_4_YEAR]
  rw [cmod_nonneg _ _ hH (by decide)]
  exact ⟨Int.emod_nonneg _ (by decide), Int.emod_lt_of_pos _ (by decide)⟩

/-- The hours of the four candidate years from a year that is 2 modulo 4: 8760, 8760,
8784 and 8760, in total `HOURS_4_YEAR`. -/
theorem four_year_hours (y : Int) (hy : y % 4 = 2) :
    one_year_hours y = 8760 ∧ one_year_hours (wrapInt (y + 1)) = 8760 ∧
    one_year_hours (wrapInt (wrapInt (y + 1) + 1)) = 8784 ∧
    one_year_hours (wrapInt (wrapInt (wrapInt (y + 1) + 1) + 1)) = 8760 := by
  have e1 : wrapInt (y + 1) % 4 = 3 := by
    rw [wrapInt_emod4, Int.add_emod, hy]; rfl
  have e2 : wrapInt (wrapInt (y + 1) + 1) % 4 = 0 := by
    rw [wrapInt_emod4, Int.add_emod, e1]; rfl
  have e3 : wrapInt (wrapInt (wrapInt (y + 1) + 1) + 1) % 4 = 1 := by
    rw [wrapInt_emod4, Int.add_emod, e2]; rfl
  unfold one_year_hours HOURS_1_YEAR
  rw [hy, e1, e2, e3]
  decide

/-- From a year that is 2 modulo 4 and an hour count below `HOURS_4_YEAR`, the year loop
makes at most 3 increments, whatever the bound on its passes. -/
theorem yearWalkCount_le (y x : Int) (hy : y % 4 = 2) (hx : x < 35064) (n : Nat) :
    yearWalkCount n y x ≤ 3 := by
  obtain ⟨o0, o1, o2, o3⟩ := four_year_hours y hy
  cases n with
  | zero => exact Nat.zero_le _
  | succ n =>
    simp only [yearWalkCount, o0]
    split
    · exact Nat.zero_le _
    · rename_i h0
      cases n with
      | zero => exact Nat.le_add_left 1 2
      | succ n =>
        simp only [yearWalkCount, o1]
        split
        · exact Nat.le_add_left 1 2
        · rename_i h1
          cases n with
          | zero => exact Nat.le_add_left 2 1
          | succ n =>
            simp only [yearWalkCount, o2]
            split
            · exact Nat.le_add_left 2 1
            · rename_i h2
              cases n with
              | zero => exact le_refl 3
              | succ n =>
                simp only [yearWalkCount, o3]
                rw [if_pos (show x - 8760 - 8760 - 8784 < 8760 by linarith)]

/-- The year at which the year loop ends is the year it starts from, incremented as many
times as `yearWalkCount` counts. -/
theorem yearWalk_year (n : Nat) : ∀ (y ts : Int),
    (yearWalk n y ts).1 = (fun v => wrapInt (v + 1))^[yearWalkCount n y ts] y := by
  induction n with
  | zero => intro y ts; rfl
  | succ n ih =>
    intro y ts
    by_cases h : ts < one_year_hours y
    · simp only [yearWalk, yearWalkCount, if_pos h]
      rfl
    · simp only [yearWalk, yearWalkCount, if_neg h]
      rw [ih, Function.iterate_succ_apply]

theorem yearWalkCount_fuel_indep (n : Nat) : ∀ (m : Nat) (y ts : Int), ts < 8760 * (n : Int) →
    ts < 8760 * (m : Int) → yearWalkCount n y ts = yearWalkCount m y ts := by
  induction n with
  | zero =>
    intro m y ts hn hm
    simp only [Nat.cast_zero, mul_zero] at hn
    cases m with
    | zero => rfl
    | succ m =>
      have h1 : 8760 ≤ one_year_hours y := by
        rcases one_year_hours_cases y with e | e <;> simp [e]
      simp only [yearWalkCount]
      rw [if_pos (by linarith)]
  | succ n ih =>
    intro m y ts hn hm
    have h1 : 8760 ≤ one_year_hours y := by
      rcases one_year_hours_cases y with e | e <;> simp [e]
    cases m with
    | zero =>
      simp only [Nat.cast_zero, mul_zero] at hm
      simp only [yearWalkCount]
      rw [if_pos (by linarith)]
    | succ m =>
      push_cast at hn hm
      simp only [yearWalkCount]
      split
      · rfl
      · rw [ih m _ _ (by linarith) (by linarith)]

/-- Claim C21.  For every epoch value `t ≥ 0`, with `y0` the year and `x` the hour count
with which `priv_gmtime` enters its year loop: `x` is not negative and below the total of
the hours of the four candidate years `y0`, ..., `y0 + 3`; the loop makes at most 3
increments of the year, under any bound on its passes; under the bound `yearWalkFuel t`
that `priv_gmtime` passes, and under every larger one, it ends in the same state with the
same number of increments, and in that state the exit test `timestamp < one_year_hours`
holds, so the loop has left through its `break`; the function returns a record, which
means that no read of the 12-entry row `g_days[2]` was outside the row; the year of the
record is `y0` incremented as many times as counted, and its month index is 0 to 11. -/
theorem priv_gmtime_bounded (t : Int) (h0 : 0 ≤ t) (y0 x : Int)
    (hs : yearWalkStart t = (y0, x)) :
    (0 ≤ x ∧ x < one_year_hours y0 + one_year_hours (wrapInt (y0 + 1))
      + one_year_hours (wrapInt (wrapInt (y0 + 1) + 1))
      + one_year_hours (wrapInt (wrapInt (wrapInt (y0 + 1) + 1) + 1))) ∧
    (∀ n, yearWalkCount n y0 x ≤ 3) ∧
    (∀ n, yearWalkFuel t ≤ n → yearWalk n y0 x = yearWalk (yearWalkFuel t) y0 x ∧
      yearWalkCount n y0 x = yearWalkCount (yearWalkFuel t) y0 x) ∧
    (yearWalk (yearWalkFuel t) y0 x).2 < one_year_hours (yearWalk (yearWalkFuel t) y0 x).1 ∧
    (tableGet g_days 2).map List.length = some 12 ∧
    ∃ r, priv_gmtime t = some r ∧
      r.tm_year = (fun v => wrapInt (v + 1))^[yearWalkCount (yearWalkFuel t) y0 x] y0 ∧
      0 ≤ r.tm_mon ∧ r.tm_mon ≤ 11 := by
  have hy : y0 % 4 = 2 := by
    have := yearWalkStart_emod4 t
    rw [hs] at this
    exact this
  have hx : 0 ≤ x ∧ x < 35064 := by
    have := yearWalkStart_hours t h0
    rw [hs] at this
    exact this
  have hfuel : x < 8760 * ((yearWalkFuel t : Nat) : Int) := by
    have := yearWalk_fuel x
    unfold yearWalkFuel
    rw [hs]
    exact this
  obtain ⟨o0, o1, o2, o3⟩ := four_year_hours y0 hy
  have hexit := yearWalk_exit (yearWalkFuel t) y0 x hfuel
  have hnn := yearWalk_nonneg (yearWalkFuel t) y0 x hx.1
  obtain ⟨r, hr, _⟩ := priv_gmtime_total t
  obtain ⟨w1, w2⟩ := priv_gmtime_walk t r hr
  rw [hs] at w1 w2
  have hmon := (monthDay_range _ _ r.tm_mon r.tm_mday (by
    rw [cdiv_nonneg _ 24 hnn (by decide)]
    have := Int.ediv_nonneg hnn (show (0 : Int) ≤ 24 by decide)
    linarith) w2).1
  refine ⟨⟨hx.1, by rw [o0, o1, o2, o3]; linarith [hx.2]⟩,
    fun n => yearWalkCount_le y0 x hy hx.2 n, ?_, hexit.1, by decide,
    r, hr, by rw [w1]; exact yearWalk_year _ _ _, hmon.1, hmon.2⟩
  intro n hn
  have hn1 : x < 8760 * (n : Int) := by
    have : ((yearWalkFuel t : Nat) : Int) ≤ (n : Int) := by exact_mod_cast hn
    linarith
  exact ⟨yearWalk_fuel_indep n _ y0 x hn1 hfuel, yearWalkCount_fuel_indep n _ y0 x hn1 hfuel⟩

theorem priv_gmtime_bounded_witness :
    yearWalkStart 94694400 = (70, 26304) ∧ yearWalkCount (yearWalkFuel 94694400) 70 26304 = 3 ∧
    (∀ n, yearWalkCount n 70 26304 ≤ 3) ∧
    ∃ r, priv_gmtime 94694400 = some r ∧ r.tm_year = 73 ∧ 0 ≤ r.tm_mon ∧ r.tm_mon ≤ 11 := by
  have h := priv_gmtime_bounded 94694400 (by decide) 70 26304 (by decide)
  obtain ⟨r, h1, h2, h3, h4⟩ := h.2.2.2.2.2
  refine ⟨by decide, by decide, h.2.1, r, h1, ?_, h3, h4⟩
  rw [h2]
  decide

end PrivTime
